import Mathlib

/-!
# Verification of the tbf binary codec (`tbf/core/parsing.py`, `tbf/core/models.py`)

This file gives a shallow embedding of the tbf document model and its
encode/decode engine, and proves properties of the embedding.

Modelling conventions:
* All strings (layer names, attribute names, attribute values, the header
  encoding field) are modelled as byte sequences (`List Nat`), matching the
  source's treatment of values as raw bytes at the wire boundary.
* Python `dict`s (insertion ordered, overwrite-in-place) are modelled as
  association lists with an `assocSet` operation that overwrites in place or
  appends at the end, and a `setdefault`-style read.
* The writer is fallible (`Except WErr`): `int.to_bytes` raises on values
  ≥ 2^32 (`overflowError`), a missing `layers_by_id` key raises `KeyError`
  (`keyError`), a missing header or the nonexistent `_write` method called at
  the end of `_write_linked_chunk` raise `AttributeError` (`attributeError`).
* The parser is fallible (`Except PErr`): `TBFParsingException` is modelled by
  the constructors `unexpected` (from `_expect`) and `badChunk` (from
  `_parse_chunk`); `ord(b'')` at end of stream raises a `TypeError`
  (`typeErrorOrdEmpty`); missing scratch-index keys raise `KeyError`
  (`keyError`); out-of-range list indices raise `IndexError` (`indexError`).
* `tbf/core/constants.py` is not part of the provided sources.  The numeric
  marker values below are modelled from the specification's marker table and
  fixed to the concrete values that the repository's own test suite
  (`tests/core/test_parsing.py`) asserts for the encoder's output
  (e.g. `HEADER_START = 0x01`, `SEPARATOR = 0x00`, `LAYER_START = 0x09`).
  `CHUNK_LINKED_START` never appears in a byte-level test assertion; it is
  fixed to the unused value `0x0C`, which only needs to be distinct from the
  other markers.
-/

/-! ## Marker constants (`tbf/core/constants.py`) -/

def SEPARATOR : Nat := 0x00
def HEADER_START : Nat := 0x01
def HEADER_END : Nat := 0x02
def LAYERS_START : Nat := 0x03
def LAYERS_END : Nat := 0x04
def ATTRS_START : Nat := 0x05
def ATTRS_END : Nat := 0x06
def RELATIONS_START : Nat := 0x07
def RELATIONS_END : Nat := 0x08
def LAYER_START : Nat := 0x09
def LAYER_END : Nat := 0x0A
def CHUNK_FULL_START : Nat := 0x0B
def CHUNK_LINKED_START : Nat := 0x0C
def CHUNK_END : Nat := 0x0D
def RELATION_START : Nat := 0x0E
def RELATION_END : Nat := 0x0F

/-! ## Association lists modelling Python dicts -/

/-- Python dict lookup `m.get(k)` / `m[k]` (first, and only, binding wins:
`assocSet` keeps keys unique). -/
def assocGet {α β : Type} [DecidableEq α] : List (α × β) → α → Option β
  | [], _ => none
  | (k, v) :: rest, key => if key = k then some v else assocGet rest key

/-- Python dict assignment `m[k] = v`: overwrite in place if the key exists,
otherwise append the new binding at the end (insertion order). -/
def assocSet {α β : Type} [DecidableEq α] : List (α × β) → α → β → List (α × β)
  | [], key, v => [(key, v)]
  | (k, w) :: rest, key, v =>
    if key = k then (k, v) :: rest else (k, w) :: assocSet rest key v

theorem assocGet_assocSet {α β : Type} [DecidableEq α]
    (m : List (α × β)) (k k' : α) (v : β) :
    assocGet (assocSet m k v) k' = if k' = k then some v else assocGet m k' := by
  induction m with
  | nil =>
    by_cases h : k' = k <;> simp [assocSet, assocGet, h]
  | cons kv rest ih =>
    obtain ⟨k0, v0⟩ := kv
    by_cases hk : k = k0
    · subst hk
      by_cases h : k' = k <;> simp [assocSet, assocGet, h]
    · by_cases h : k' = k0
      · subst h
        have hk' : ¬ k' = k := fun he => hk he.symm
        simp [assocSet, assocGet, hk, hk']
      · simp [assocSet, assocGet, hk, h, ih]

theorem assocSet_keys_mem {α β : Type} [DecidableEq α]
    (m : List (α × β)) (k k' : α) (v : β) :
    k' ∈ (assocSet m k v).map Prod.fst ↔ k' ∈ m.map Prod.fst ∨ k' = k := by
  induction m with
  | nil => simp [assocSet]
  | cons kv rest ih =>
    obtain ⟨k0, v0⟩ := kv
    by_cases h : k = k0
    · subst h
      simp [assocSet]
      tauto
    · simp [assocSet, h, ih]
      tauto

theorem assocSet_keys_of_fresh {α β : Type} [DecidableEq α]
    (m : List (α × β)) (k : α) (v : β) (h : k ∉ m.map Prod.fst) :
    (assocSet m k v).map Prod.fst = m.map Prod.fst ++ [k] := by
  induction m with
  | nil => simp [assocSet]
  | cons kv rest ih =>
    obtain ⟨k0, v0⟩ := kv
    have hne : ¬ k = k0 := fun he => h (by simp [he])
    have hrest : k ∉ rest.map Prod.fst := fun hm => h (by simp [hm])
    simp [assocSet, hne, ih hrest]

/-! ## Document model (`tbf/core/models.py`) -/

/-- `Header`: the single `encoding` attribute, held as the raw bytes of the
encoding name. -/
structure Header where
  encoding : List Nat
  deriving DecidableEq, Repr

/-- `LayerObject`: id, owning layer id (`self.layer`), ordered child
references stored as `(layer_id, object_id)` pairs, and the attribute dict. -/
structure LayerObject where
  id : Nat
  layer : Nat
  children : List (Nat × Nat)
  attrs : List (List Nat × List Nat)
  deriving DecidableEq, Repr

/-- `Layer`: id, name bytes and the ordered object list. -/
structure Layer where
  id : Nat
  name : List Nat
  objects : List LayerObject
  deriving DecidableEq, Repr

/-- `Document`: ordered layer list, the `layers_by_id` dict and the header
(`None` until assigned). -/
structure Document where
  layers : List Layer
  layers_by_id : List (Nat × Layer)
  header : Option Header
  deriving DecidableEq, Repr

namespace Document

/-- `Document.add_layer`: append to the list and index by id. -/
def add_layer (d : Document) (l : Layer) : Document :=
  { d with layers := d.layers ++ [l],
           layers_by_id := assocSet d.layers_by_id l.id l }

/-- `Document.add_layers`. -/
def add_layers (d : Document) (ls : List Layer) : Document :=
  ls.foldl add_layer d

/-- `Document.get_all_objects`. -/
def get_all_objects (d : Document) : List LayerObject :=
  (d.layers.map Layer.objects).flatten

/-- `Document.get_layer_by_id`: dict lookup (a missing key is a `KeyError`,
surfaced as `none`). -/
def get_layer_by_id (d : Document) (layer_id : Nat) : Option Layer :=
  assocGet d.layers_by_id layer_id

end Document

/-! ## Writer (`class _Writer`) -/

/-- Errors the writer can raise: the nonexistent `self._write` attribute (or a
`None` header), a failed `layers_by_id` lookup, and `int.to_bytes` overflow. -/
inductive WErr where
  | attributeError
  | keyError (k : Nat)
  | overflowError
  deriving DecidableEq, Repr

/-- `_Writer._int_to_bytes`: 4 bytes, big-endian. -/
def int_to_bytes (n : Nat) : List Nat :=
  [n / 16777216 % 256, n / 65536 % 256, n / 256 % 256, n % 256]

/-- `_Writer._write_int`: `int.to_bytes` raises `OverflowError` for values
that do not fit 4 bytes. -/
def write_int (n : Nat) : Except WErr (List Nat) :=
  if n < 4294967296 then .ok (int_to_bytes n) else .error .overflowError

/-- `_Writer._ord_to_bytes` / `_write_flag`: a single marker byte (all marker
constants are below 0x80, so `chr(flag).encode()` is the one byte itself). -/
def write_flag (flag : Nat) : List Nat := [flag]

/-- `_Writer._write_string`: the raw bytes of the string under the declared
encoding (strings are modelled as their encoded bytes). -/
def write_string (s : List Nat) : List Nat := s

/-- Sequence fallible byte-producing steps, concatenating their output. -/
def wjoin : List (Except WErr (List Nat)) → Except WErr (List Nat)
  | [] => .ok []
  | a :: rest => do
    let x ← a
    let y ← wjoin rest
    return x ++ y

/-- `_Writer._write_header`. -/
def write_header (h : Header) : List Nat :=
  write_flag HEADER_START ++ write_string h.encoding ++ write_flag SEPARATOR ++
    write_flag HEADER_END

/-- `_Writer._write_layer`. -/
def write_layer (l : Layer) : Except WErr (List Nat) := do
  let cnt ← write_int l.objects.length
  return write_flag LAYER_START ++ write_string l.name ++ write_flag SEPARATOR ++
    cnt ++ write_flag LAYER_END

/-- `_Writer._write_layers`. -/
def write_layers (d : Document) : Except WErr (List Nat) := do
  let cnt ← write_int d.layers.length
  let body ← wjoin (d.layers.map write_layer)
  return write_flag LAYERS_START ++ cnt ++ body ++ write_flag LAYERS_END

/-- One `setdefault`/`setdefault`/`append` step of
`_Writer._prepare_relations_for_writing`: append the pair `e` to the list at
`(parent_layer, child_layer)`. -/
def nested_append (M : List (Nat × List (Nat × List (Nat × Nat))))
    (p c : Nat) (e : Nat × Nat) : List (Nat × List (Nat × List (Nat × Nat))) :=
  let inner := (assocGet M p).getD []
  let tups := (assocGet inner c).getD []
  assocSet M p (assocSet inner c (tups ++ [e]))

/-- `_Writer._prepare_relations_for_writing` (the `_temp_relations` dict):
scan all objects in document order; for each child append
`(obj.id, child.id)` under `(obj.layer, child.layer)`. -/
def prepare_relations (d : Document) : List (Nat × List (Nat × List (Nat × Nat))) :=
  (d.get_all_objects).foldl
    (fun M o => o.children.foldl (fun M c => nested_append M o.layer c.1 (o.id, c.2)) M)
    []

/-- `_temp_num_of_relations`: the sum over parent layers of the number of
child-layer keys. -/
def num_relations (d : Document) : Nat :=
  (prepare_relations d).foldl (fun acc pr => acc + pr.2.length) 0

/-- The body of one relation group in `_Writer._write_relations`. -/
def write_relation_group (p c : Nat) (tups : List (Nat × Nat)) :
    Except WErr (List Nat) := do
  let pb ← write_int p
  let cb ← write_int c
  let nb ← write_int tups.length
  let body ← wjoin (tups.map (fun t => do
    let a ← write_int t.1
    let b ← write_int t.2
    return a ++ b))
  return write_flag RELATION_START ++ pb ++ cb ++ nb ++ body ++
    write_flag RELATION_END

/-- `_Writer._write_relations`. -/
def write_relations (d : Document) : Except WErr (List Nat) := do
  let cnt ← write_int (num_relations d)
  let body ← wjoin ((prepare_relations d).map (fun pr =>
    wjoin (pr.2.map (fun ct => write_relation_group pr.1 ct.1 ct.2))))
  return write_flag RELATIONS_START ++ cnt ++ body ++ write_flag RELATIONS_END

/-- `_Writer._prepare_attrs_for_writing`: build
`{layer_id → {attr_name → {obj_id → value}}}` and count the chunks.  Returns
`(_temp_attributes, _temp_num_of_chunks)`. -/
def prepare_attrs (d : Document) :
    List (Nat × List (List Nat × List (Nat × List Nat))) × Nat :=
  d.layers.foldl
    (fun acc l =>
      let A1 := assocSet acc.1 l.id []
      let A2 := l.objects.foldl
        (fun A o => o.attrs.foldl
          (fun A kv =>
            let inner := (assocGet A l.id).getD []
            let m := (assocGet inner kv.1).getD []
            assocSet A l.id (assocSet inner kv.1 (assocSet m o.id kv.2)))
          A)
        A1
      (A2, acc.2 + ((assocGet A2 l.id).getD []).length))
    ([], 0)

/-- `_Writer._linked_chunk_overhead`: 4 bytes per id and 1 per separator. -/
def linked_chunk_overhead (number_of_entities : Nat) : Nat :=
  number_of_entities * 4 + number_of_entities * 1

/-- `_Writer._full_chunk_overhead`: 1 per separator. -/
def full_chunk_overhead (number_of_all_entities : Nat) : Nat :=
  number_of_all_entities * 1

/-- `_Writer._write_full_chunk`: positional runs, `if obj_value:` skips both
missing and empty values (an empty run is written either way). -/
def write_full_chunk (d : Document) (layer_id : Nat) (attr_name : List Nat)
    (attr_values : List (Nat × List Nat)) : Except WErr (List Nat) := do
  let lidb ← write_int layer_id
  match d.get_layer_by_id layer_id with
  | none => .error (.keyError layer_id)
  | some l =>
    return write_flag CHUNK_FULL_START ++ lidb ++ write_string attr_name ++
      write_flag SEPARATOR ++
      (l.objects.map (fun o =>
        write_string ((assocGet attr_values o.id).getD []) ++
          write_flag SEPARATOR)).flatten ++
      write_flag CHUNK_END

/-- `_Writer._write_linked_chunk`: writes the entries, then calls the
nonexistent method `self._write(CHUNK_END)` — an `AttributeError`. -/
def write_linked_chunk (layer_id : Nat) (_attr_name : List Nat)
    (attr_values : List (Nat × List Nat)) : Except WErr (List Nat) := do
  let _lidb ← write_int layer_id
  let _entries ← wjoin (attr_values.map (fun e => do
    let idb ← write_int e.1
    return idb ++ write_string e.2 ++ write_flag SEPARATOR))
  (Except.error WErr.attributeError : Except WErr (List Nat))

/-- `_Writer._write_attrs`: one chunk per `(layer, attribute)` pair, choosing
the layout by comparing the overheads. -/
def write_attrs (d : Document) : Except WErr (List Nat) := do
  let A := (prepare_attrs d).1
  let cnt ← write_int (prepare_attrs d).2
  let body ← wjoin (A.map (fun la =>
    wjoin (la.2.map (fun av =>
      match d.get_layer_by_id la.1 with
      | none => .error (.keyError la.1)
      | some l =>
        if linked_chunk_overhead av.2.length < full_chunk_overhead l.objects.length
        then write_linked_chunk la.1 av.1 av.2
        else write_full_chunk d la.1 av.1 av.2))))
  return write_flag ATTRS_START ++ cnt ++ body ++ write_flag ATTRS_END

/-- `_Writer.write`: header, layers, relations, attributes, in that order.
Reading `document.header.encoding` on a `None` header is an
`AttributeError`. -/
def write_document (d : Document) : Except WErr (List Nat) := do
  match d.header with
  | none => .error .attributeError
  | some h =>
    let lys ← write_layers d
    let rels ← write_relations d
    let atts ← write_attrs d
    return write_header h ++ lys ++ rels ++ atts

/-! ## Parser (`class _Parser`) -/

/-- Errors the parser can raise: `TBFParsingException` from `_expect`
(`unexpected`) and `_parse_chunk` (`badChunk`); the `TypeError` raised by
`ord(b'')` when `_expect` reads at end of stream; `KeyError` /
`IndexError` from `_temp_layer_objects` lookups. -/
inductive PErr where
  | unexpected (expected got : Nat)
  | badChunk (got : Nat)
  | typeErrorOrdEmpty
  | keyError (k : Nat)
  | indexError
  deriving DecidableEq, Repr

/-- `int.from_bytes(..., byteorder='big')`. -/
def bytes_to_int (bs : List Nat) : Nat :=
  bs.foldl (fun acc b => acc * 256 + b) 0

/-- `_Parser._read_as_int`: reads up to `n` bytes (a short read at end of
stream is silent) and interprets them big-endian. -/
def read_as_int (n : Nat) (s : List Nat) : Nat × List Nat :=
  (bytes_to_int (s.take n), s.drop n)

/-- `_Parser._expect`: read one byte and compare; `ord(b'')` at end of
stream is a `TypeError`. -/
def expectB (b : Nat) : List Nat → Except PErr (List Nat)
  | [] => .error .typeErrorOrdEmpty
  | x :: xs => if x = b then .ok xs else .error (.unexpected b x)

/-- `_Parser._eat_until_sep`: consume bytes up to and including the next
`SEPARATOR` (end of stream acts as a separator), returning the bytes before
it. -/
def eat_until_sep : List Nat → List Nat × List Nat
  | [] => ([], [])
  | x :: xs =>
    if x = SEPARATOR then ([], xs)
    else
      let r := eat_until_sep xs
      (x :: r.1, r.2)

/-- `_Parser._parse_header`. -/
def parse_header (s : List Nat) : Except PErr (Header × List Nat) := do
  let s ← expectB HEADER_START s
  let (enc, s) := eat_until_sep s
  let s ← expectB HEADER_END s
  return (⟨enc⟩, s)

/-- `_Parser._parse_layer`: the layer id is the position `i`; objects are
pre-allocated with ids `0 .. count-1` and `layer_id = i`. -/
def parse_layer (i : Nat) (s : List Nat) : Except PErr (Layer × List Nat) := do
  let s ← expectB LAYER_START s
  let (name, s) := eat_until_sep s
  let (n, s) := read_as_int 4 s
  let objs := (List.range n).map (fun j => LayerObject.mk j i [] [])
  let s ← expectB LAYER_END s
  return (⟨i, name, objs⟩, s)

/-- The `for i in range(number_of_layers)` loop of `_Parser._parse_layers`. -/
def parse_layers_loop : Nat → Nat → List Nat → Except PErr (List Layer × List Nat)
  | 0, _, s => .ok ([], s)
  | Nat.succ k, i, s => do
    let (l, s) ← parse_layer i s
    let (ls, s) ← parse_layers_loop k (i + 1) s
    return (l :: ls, s)

/-- `_Parser._parse_layers`. -/
def parse_layers (s : List Nat) : Except PErr (List Layer × List Nat) := do
  let s ← expectB LAYERS_START s
  let (n, s) := read_as_int 4 s
  let (ls, s) ← parse_layers_loop n 0 s
  let s ← expectB LAYERS_END s
  return (ls, s)

/-- The body of the relation-pair loop:
`self._temp_layer_objects[parent_layer][parent].add_child(child_object)`.
The scratch index keys are the positional layer ids, so a missing key is a
`KeyError` and an out-of-range object index an `IndexError`. -/
def add_child_by_ids (ls : List Layer) (pl pid cl cid : Nat) :
    Except PErr (List Layer) :=
  match ls.get? pl with
  | none => .error (.keyError pl)
  | some pLayer =>
    match pLayer.objects.get? pid with
    | none => .error .indexError
    | some pObj =>
      match ls.get? cl with
      | none => .error (.keyError cl)
      | some cLayer =>
        match cLayer.objects.get? cid with
        | none => .error .indexError
        | some cObj =>
          .ok (ls.set pl { pLayer with
            objects := pLayer.objects.set pid { pObj with
              children := pObj.children ++ [(cObj.layer, cObj.id)] } })

/-- The `for i in range(num_of_pairs)` loop of `_Parser._parse_relation`. -/
def parse_pairs_loop : Nat → Nat → Nat → List Layer → List Nat →
    Except PErr (List Layer × List Nat)
  | 0, _, _, ls, s => .ok (ls, s)
  | Nat.succ k, pl, cl, ls, s => do
    let (pid, s) := read_as_int 4 s
    let (cid, s) := read_as_int 4 s
    let ls ← add_child_by_ids ls pl pid cl cid
    parse_pairs_loop k pl cl ls s

/-- `_Parser._parse_relation`. -/
def parse_relation (ls : List Layer) (s : List Nat) :
    Except PErr (List Layer × List Nat) := do
  let s ← expectB RELATION_START s
  let (pl, s) := read_as_int 4 s
  let (cl, s) := read_as_int 4 s
  let (n, s) := read_as_int 4 s
  let (ls, s) ← parse_pairs_loop n pl cl ls s
  let s ← expectB RELATION_END s
  return (ls, s)

/-- The `for i in range(number_of_relations)` loop of
`_Parser._parse_relations`. -/
def parse_relations_loop : Nat → List Layer → List Nat →
    Except PErr (List Layer × List Nat)
  | 0, ls, s => .ok (ls, s)
  | Nat.succ k, ls, s => do
    let (ls, s) ← parse_relation ls s
    parse_relations_loop k ls s

/-- `_Parser._parse_relations`. -/
def parse_relations (ls : List Layer) (s : List Nat) :
    Except PErr (List Layer × List Nat) := do
  let s ← expectB RELATIONS_START s
  let (n, s) := read_as_int 4 s
  let (ls, s) ← parse_relations_loop n ls s
  let s ← expectB RELATIONS_END s
  return (ls, s)

/-- The per-object loop of `_Parser._parse_full_chunk`: for every object of
the layer, in order, read a run and `set_attr` it. -/
def full_assign (name : List Nat) : List LayerObject → List Nat →
    List LayerObject × List Nat
  | [], s => ([], s)
  | o :: os, s =>
    let (v, s) := eat_until_sep s
    let r := full_assign name os s
    ({ o with attrs := assocSet o.attrs name v } :: r.1, r.2)

/-- `_Parser._parse_full_chunk`. -/
def parse_full_chunk (ls : List Layer) (s : List Nat) :
    Except PErr (List Layer × List Nat) := do
  let s ← expectB CHUNK_FULL_START s
  let (lid, s) := read_as_int 4 s
  let (name, s) := eat_until_sep s
  match ls.get? lid with
  | none => .error (.keyError lid)
  | some l =>
    let (objs, s) := full_assign name l.objects s
    let ls := ls.set lid { l with objects := objs }
    let s ← expectB CHUNK_END s
    return (ls, s)

/-- The entry loop of `_Parser._parse_linked_chunk`. -/
def linked_loop (lid : Nat) (name : List Nat) : Nat → List Layer → List Nat →
    Except PErr (List Layer × List Nat)
  | 0, ls, s => .ok (ls, s)
  | Nat.succ k, ls, s => do
    let (oid, s) := read_as_int 4 s
    let (v, s) := eat_until_sep s
    match ls.get? lid with
    | none => .error (.keyError lid)
    | some l =>
      match l.objects.get? oid with
      | none => .error .indexError
      | some o =>
        let ls := ls.set lid { l with
          objects := l.objects.set oid { o with attrs := assocSet o.attrs name v } }
        linked_loop lid name k ls s

/-- `_Parser._parse_linked_chunk`. -/
def parse_linked_chunk (ls : List Layer) (s : List Nat) :
    Except PErr (List Layer × List Nat) := do
  let s ← expectB CHUNK_LINKED_START s
  let (lid, s) := read_as_int 4 s
  let (name, s) := eat_until_sep s
  let (n, s) := read_as_int 4 s
  linked_loop lid name n ls s >>= fun (ls, s) => do
    let s ← expectB CHUNK_END s
    return (ls, s)

/-- `_Parser._parse_chunk`: peek one byte (`_peek_as_int` yields 0 at end of
stream) and dispatch. -/
def parse_chunk (ls : List Layer) (s : List Nat) :
    Except PErr (List Layer × List Nat) :=
  let nxt := bytes_to_int (s.take 1)
  if nxt = CHUNK_FULL_START then parse_full_chunk ls s
  else if nxt = CHUNK_LINKED_START then parse_linked_chunk ls s
  else .error (.badChunk nxt)

/-- The `for i in range(num_of_chunks)` loop of `_Parser._parse_attrs`. -/
def parse_attrs_loop : Nat → List Layer → List Nat →
    Except PErr (List Layer × List Nat)
  | 0, ls, s => .ok (ls, s)
  | Nat.succ k, ls, s => do
    let (ls, s) ← parse_chunk ls s
    parse_attrs_loop k ls s

/-- `_Parser._parse_attrs`. -/
def parse_attrs (ls : List Layer) (s : List Nat) :
    Except PErr (List Layer × List Nat) := do
  let s ← expectB ATTRS_START s
  let (n, s) := read_as_int 4 s
  let (ls, s) ← parse_attrs_loop n ls s
  let s ← expectB ATTRS_END s
  return (ls, s)

/-- `_Parser.parse`: the four sections in order.  The document is assembled
by `add_layer` during layer parsing; relation and attribute parsing mutate
the very objects registered there, so the result is the document holding the
final layers. -/
def parse (s : List Nat) : Except PErr Document := do
  let (h, s) ← parse_header s
  let (ls, s) ← parse_layers s
  let (ls, s) ← parse_relations ls s
  let (ls, _s) ← parse_attrs ls s
  return Document.add_layers ⟨[], [], some h⟩ ls

/-- `_Parser.parse` with the unconsumed remainder of the stream exposed: the
same four sections in order, returning the final document together with the
bytes left over after the `ATTRS_END` marker. -/
def parse_run (s : List Nat) : Except PErr (Document × List Nat) := do
  let (h, s) ← parse_header s
  let (ls, s) ← parse_layers s
  let (ls, s) ← parse_relations ls s
  let (ls, s) ← parse_attrs ls s
  return (Document.add_layers ⟨[], [], some h⟩ ls, s)

/-! ## Structural equivalence and validity -/

/-- A byte string that never collides with the separator byte. -/
def sep_free (s : List Nat) : Bool := s.all (fun b => b != SEPARATOR)

/-- Attribute maps agree: the same keys with the same byte values. -/
def attrs_equiv (a b : List (List Nat × List Nat)) : Bool :=
  a.all (fun kv => assocGet b kv.1 == some kv.2) &&
  b.all (fun kv => assocGet a kv.1 == some kv.2)

/-- Objects agree: same attribute map and the same ordered child references
by `(layer_id, object_id)`. -/
def obj_equiv (o1 o2 : LayerObject) : Bool :=
  attrs_equiv o1.attrs o2.attrs && o1.children == o2.children

/-- Layers agree: same name, same object count, objects pairwise
equivalent. -/
def layer_equiv (l1 l2 : Layer) : Bool :=
  l1.name == l2.name && l1.objects.length == l2.objects.length &&
  (List.zip l1.objects l2.objects).all (fun p => obj_equiv p.1 p.2)

/-- Structural document equivalence: same ordered layers by name and object
count; for every object the same attribute map and ordered child list. -/
def doc_equiv (d1 d2 : Document) : Bool :=
  d1.layers.length == d2.layers.length &&
  (List.zip d1.layers d2.layers).all (fun p => layer_equiv p.1 p.2)

/-- Encode, then decode, and compare: `none` when either direction fails. -/
def round_trip_equiv (d : Document) : Option Bool :=
  match write_document d with
  | .error _ => none
  | .ok bs =>
    match parse bs with
    | .error _ => none
    | .ok d' => some (doc_equiv d d')

/-- Validity of a document for lossless round-tripping:
layer/object ids equal list positions and the id index is consistent; all
strings are separator-free; child references are in range and each object's
children live in a single layer; attribute keys are duplicate-free and an
attribute carried by one object of a layer is carried by all of them; every
count the writer emits fits an unsigned 32-bit integer. -/
def valid (d : Document) : Bool :=
  (match d.header with | none => false | some h => sep_free h.encoding) &&
  decide (d.layers.length < 4294967296) &&
  d.layers.enum.all (fun il =>
    let i := il.1
    let l := il.2
    (l.id == i) && sep_free l.name &&
    (assocGet d.layers_by_id i == some l) &&
    decide (l.objects.length < 4294967296) &&
    l.objects.enum.all (fun jo =>
      let j := jo.1
      let o := jo.2
      (o.id == j) && (o.layer == i) &&
      (match o.children.head? with
       | none => true
       | some c0 => o.children.all (fun c => c.1 == c0.1)) &&
      o.children.all (fun c =>
        match d.layers.get? c.1 with
        | none => false
        | some cl => decide (c.2 < cl.objects.length)) &&
      decide ((o.attrs.map Prod.fst).Nodup) &&
      o.attrs.all (fun kv => sep_free kv.1 && sep_free kv.2) &&
      o.attrs.all (fun kv =>
        l.objects.all (fun o' => (assocGet o'.attrs kv.1).isSome)))) &&
  decide (num_relations d < 4294967296) &&
  (prepare_relations d).all (fun pr => pr.2.all (fun ct =>
    decide (ct.2.length < 4294967296))) &&
  decide ((prepare_attrs d).2 < 4294967296)

/-- The conditions under which the writer reaches the attrs section and every
chunk's guard without hitting an `OverflowError` or `KeyError` first. -/
def writer_ok (d : Document) : Bool :=
  d.header.isSome &&
  decide (d.layers.length < 4294967296) &&
  d.layers.all (fun l => decide (l.objects.length < 4294967296)) &&
  decide (num_relations d < 4294967296) &&
  (prepare_relations d).all (fun pr =>
    decide (pr.1 < 4294967296) && pr.2.all (fun ct =>
      decide (ct.1 < 4294967296) && decide (ct.2.length < 4294967296) &&
      ct.2.all (fun t =>
        decide (t.1 < 4294967296) && decide (t.2 < 4294967296)))) &&
  decide ((prepare_attrs d).2 < 4294967296) &&
  (prepare_attrs d).1.all (fun la =>
    decide (la.1 < 4294967296) && (d.get_layer_by_id la.1).isSome &&
    la.2.all (fun av => av.2.all (fun e => decide (e.1 < 4294967296))))

/-- Some `(layer, attribute)` chunk of the document makes the writer pick the
linked layout. -/
def has_linked_chunk (d : Document) : Bool :=
  (prepare_attrs d).1.any (fun la => la.2.any (fun av =>
    match d.get_layer_by_id la.1 with
    | none => false
    | some l =>
      decide (linked_chunk_overhead av.2.length < full_chunk_overhead l.objects.length)))

/-- The number of objects of layer `l` carrying attribute `a`. -/
def carriers_count (l : Layer) (a : List Nat) : Nat :=
  (l.objects.filter (fun o => (assocGet o.attrs a).isSome)).length

/-- All `(parent_layer, child_layer)` keys of the relations grouping, in
emission order. -/
def rel_key_pairs (d : Document) : List (Nat × Nat) :=
  ((prepare_relations d).map (fun pr => pr.2.map (fun ct => (pr.1, ct.1)))).flatten

/-- There is at least one parent→child edge from layer `p` to layer `c`. -/
def edge_exists (d : Document) (p c : Nat) : Bool :=
  (d.get_all_objects).any (fun o =>
    o.layer == p && o.children.any (fun ch => ch.1 == c))

/-! ## Concrete test-vector documents and streams -/

/-- The bytes of the string `utf-8`. -/
def utf8Bytes : List Nat := [117, 116, 102, 45, 56]

/-- Scenario A input: header `utf-8`, no layers. -/
def minimalDoc : Document := ⟨[], [], some ⟨utf8Bytes⟩⟩

/-- A document whose only layer's name contains the `SEPARATOR` byte
(`b'a\x00b'`). -/
def sepNameDoc : Document :=
  Document.add_layers ⟨[], [], some ⟨utf8Bytes⟩⟩ [⟨0, [97, 0, 98], []⟩]

/-- A layer of six objects in which only the first carries attribute
`key1`. -/
def sparseLayer : Layer :=
  ⟨0, [76],
    [⟨0, 0, [], [([107, 101, 121, 49], [118, 97, 108])]⟩,
     ⟨1, 0, [], []⟩, ⟨2, 0, [], []⟩, ⟨3, 0, [], []⟩,
     ⟨4, 0, [], []⟩, ⟨5, 0, [], []⟩]⟩

/-- One layer of six objects in which only the first carries attribute
`key1`: the heuristic picks the linked layout (5·1 < 6). -/
def sparseTagDoc : Document :=
  Document.add_layers ⟨[], [], some ⟨utf8Bytes⟩⟩ [sparseLayer]

/-- A layer of two objects in which only the first carries attribute
`key1`. -/
def absentLayer : Layer :=
  ⟨0, [76],
    [⟨0, 0, [], [([107, 101, 121, 49], [118, 97, 108, 50])]⟩,
     ⟨1, 0, [], []⟩]⟩

/-- The decoder-side skeleton of `absentLayer` before attributes are
attached. -/
def absentSkeleton : Layer :=
  ⟨0, [76], [⟨0, 0, [], []⟩, ⟨1, 0, [], []⟩]⟩

/-- One layer of two objects in which only the first carries attribute
`key1`: the chunk is full (5·1 ≥ 2), encode succeeds, and decoding gives the
second object a spurious empty `key1` value. -/
def absentAttrDoc : Document :=
  Document.add_layers ⟨[], [], some ⟨utf8Bytes⟩⟩ [absentLayer]

/-- A valid two-layer document with a relation and a dense attribute, used to
witness the amended round-trip statement. -/
def roundDoc : Document :=
  Document.add_layers ⟨[], [], some ⟨utf8Bytes⟩⟩
    [⟨0, [65],
      [⟨0, 0, [(1, 1)], [([107], [118, 49])]⟩,
       ⟨1, 0, [(1, 0)], [([107], [])]⟩]⟩,
     ⟨1, [66],
      [⟨0, 1, [], []⟩, ⟨1, 1, [], []⟩]⟩]

/-- Two layers sharing the id `5`, to exercise index overwriting. -/
def dupA : Layer := ⟨5, [97], []⟩

/-- Second layer with the duplicate id `5`. -/
def dupB : Layer := ⟨5, [98], []⟩

/-- A serialized one-layer document (name `L`, two objects), used to witness
the decoder invariants. -/
def oneLayerStream : List Nat :=
  [HEADER_START] ++ utf8Bytes ++ [SEPARATOR, HEADER_END] ++
  [LAYERS_START, 0, 0, 0, 1] ++
  [LAYER_START, 76, SEPARATOR, 0, 0, 0, 2, LAYER_END] ++
  [LAYERS_END] ++
  [RELATIONS_START, 0, 0, 0, 0, RELATIONS_END] ++
  [ATTRS_START, 0, 0, 0, 0, ATTRS_END]

/-- A stream that ends two bytes into the 4-byte layer-count field. -/
def truncStream : List Nat :=
  [HEADER_START] ++ utf8Bytes ++ [SEPARATOR, HEADER_END] ++ [LAYERS_START, 0, 0]

/-- The document `oneLayerStream` decodes to. -/
def oneLayerDoc : Document :=
  ⟨[⟨0, [76], [⟨0, 0, [], []⟩, ⟨1, 0, [], []⟩]⟩],
   [(0, ⟨0, [76], [⟨0, 0, [], []⟩, ⟨1, 0, [], []⟩]⟩)],
   some ⟨utf8Bytes⟩⟩

/-! ## Derived views of the writer's grouping passes -/

/-- One `setdefault(key, {})[obj_id] = value` step of the attribute grouping,
acting on a single layer's `{attr_name → {obj_id → value}}` dict. -/
def attr_insert (oid : Nat) (inner : List (List Nat × List (Nat × List Nat)))
    (kv : List Nat × List Nat) : List (List Nat × List (Nat × List Nat)) :=
  assocSet inner kv.1 (assocSet ((assocGet inner kv.1).getD []) oid kv.2)

/-- The `{attr_name → {obj_id → value}}` dict that the attribute grouping
builds for one layer. -/
def layer_attrs (l : Layer) : List (List Nat × List (Nat × List Nat)) :=
  l.objects.foldl (fun inner o => o.attrs.foldl (attr_insert o.id) inner) []

/-- The `(obj_id, value)` pairs of attribute `a` over a list of objects, in
object order. -/
def vals_of (objs : List LayerObject) (a : List Nat) : List (Nat × List Nat) :=
  objs.filterMap (fun o => (assocGet o.attrs a).map (fun v => (o.id, v)))

/-- The byte shape of one layer record. -/
def layer_bytes (l : Layer) : List Nat :=
  [LAYER_START] ++ l.name ++ [SEPARATOR] ++ int_to_bytes l.objects.length ++
    [LAYER_END]

/-- The byte shape of one relation group. -/
def group_bytes (p c : Nat) (tups : List (Nat × Nat)) : List Nat :=
  [RELATION_START] ++ int_to_bytes p ++ int_to_bytes c ++
    int_to_bytes tups.length ++
    (tups.map (fun t => int_to_bytes t.1 ++ int_to_bytes t.2)).flatten ++
    [RELATION_END]

/-- The byte shape of one full attribute chunk over the given object list. -/
def full_chunk_bytes (lid : Nat) (name : List Nat)
    (vals : List (Nat × List Nat)) (objs : List LayerObject) : List Nat :=
  [CHUNK_FULL_START] ++ int_to_bytes lid ++ name ++ [SEPARATOR] ++
    (objs.map (fun o => ((assocGet vals o.id).getD []) ++ [SEPARATOR])).flatten ++
    [CHUNK_END]

/-- The skeleton layers the decoder materializes for a layer list, starting
at positional id `i`: names and object counts from the input, ids by
position, no children or attributes yet. -/
def skeleton_from : Nat → List Layer → List Layer
  | _, [] => []
  | i, l :: rest =>
    ⟨i, l.name, (List.range l.objects.length).map
      (fun j => LayerObject.mk j i [] [])⟩ :: skeleton_from (i + 1) rest

/-- The decoder's skeleton for a whole document. -/
def skeleton_of (d : Document) : List Layer := skeleton_from 0 d.layers

/-- The pure effect of one relation pair on the scratch layers (total:
identity when out of range; the fallible wrapper `add_child_by_ids` checks
the ranges). -/
def add_pair (ls : List Layer) (pl pid cl cid : Nat) : List Layer :=
  match ls.get? pl, ls.get? cl with
  | some pLayer, some cLayer =>
    match pLayer.objects.get? pid, cLayer.objects.get? cid with
    | some pObj, some cObj =>
      ls.set pl { pLayer with objects := (pLayer.objects.set pid
        { pObj with children := pObj.children ++ [(cObj.layer, cObj.id)] }) }
    | _, _ => ls
  | _, _ => ls

/-- All `(parent_layer, child_layer, parent_id, child_id)` edges of a nested
relations map, in emission order. -/
def flat_rel_edges (M : List (Nat × List (Nat × List (Nat × Nat)))) :
    List (Nat × Nat × Nat × Nat) :=
  (M.map (fun pr => (pr.2.map (fun ct =>
    ct.2.map (fun t => (pr.1, ct.1, t.1, t.2)))).flatten)).flatten

/-- The child pairs that the relation edges `E` hand to the object at
`(layer i, index j)`, in stream order. -/
def edge_filter (E : List (Nat × Nat × Nat × Nat)) (i j : Nat) :
    List (Nat × Nat) :=
  (E.filter (fun e => e.1 == i && e.2.2.1 == j)).map (fun e => (e.2.1, e.2.2.2))

/-- All `(layer_id, attr_name, values)` chunks of the attribute grouping, in
emission order. -/
def flat_chunks (A : List (Nat × List (List Nat × List (Nat × List Nat)))) :
    List (Nat × List Nat × List (Nat × List Nat)) :=
  (A.map (fun la => la.2.map (fun av => (la.1, av.1, av.2)))).flatten

/-- The pure effect of decoding one full chunk over the scratch layers,
where `wobjs` is the writer-side object list supplying the runs. -/
def apply_chunk (wobjs : List LayerObject) (lid : Nat) (name : List Nat)
    (vals : List (Nat × List Nat)) (ls : List Layer) : List Layer :=
  match ls.get? lid with
  | some sl => ls.set lid { sl with objects :=
      (List.zipWith (fun so wo => { so with
        attrs := assocSet so.attrs name ((assocGet vals wo.id).getD []) })
        sl.objects wobjs) }
  | none => ls

/-- The `(obj_id, child_id)` tuples the relation grouping collects for the
key `(p, c)` from a list of objects, in scan order. -/
def group_tuples (os : List LayerObject) (p c : Nat) : List (Nat × Nat) :=
  (os.map (fun o => if o.layer = p
    then (o.children.filter (fun ch => ch.1 == c)).map (fun ch => (o.id, ch.2))
    else [])).flatten

/-- The relation groups of a nested relations map, flattened in emission
order: `(parent_layer, child_layer, tuples)`. -/
def rel_groups (M : List (Nat × List (Nat × List (Nat × Nat)))) :
    List (Nat × Nat × List (Nat × Nat)) :=
  (M.map (fun pr => pr.2.map (fun ct => (pr.1, ct.1, ct.2)))).flatten

/-- The pure effect of decoding one relation group. -/
def apply_group (p c : Nat) (tups : List (Nat × Nat)) (ls : List Layer) :
    List Layer :=
  tups.foldl (fun ls t => add_pair ls p t.1 c t.2) ls

/-- The pure effect of decoding a whole relations section. -/
def apply_rel_map (M : List (Nat × List (Nat × List (Nat × Nat))))
    (ls : List Layer) : List Layer :=
  (rel_groups M).foldl (fun ls g => apply_group g.1 g.2.1 g.2.2 ls) ls

/-- The child pairs one relation group hands to the object at
`(layer i, index j)`. -/
def group_contrib (g : Nat × Nat × List (Nat × Nat)) (i j : Nat) :
    List (Nat × Nat) :=
  if g.1 = i then (g.2.2.filter (fun t => t.1 == j)).map (fun t => (g.2.1, t.2))
  else []

/-- The bytes the writer emits for all chunks of one layer entry of the
attribute grouping (empty on an impossible missing-layer lookup). -/
def doc_chunk_bytes (d : Document)
    (la : Nat × List (List Nat × List (Nat × List Nat))) : List Nat :=
  match d.get_layer_by_id la.1 with
  | some l => (la.2.map (fun av =>
      full_chunk_bytes la.1 av.1 av.2 l.objects)).flatten
  | none => []

/-- The pure effect of decoding a whole attrs section written from document
`d` (each chunk's runs come from the writer-side layer `la.1` of `d`). -/
def apply_attr_map (d : Document)
    (A : List (Nat × List (List Nat × List (Nat × List Nat))))
    (ls : List Layer) : List Layer :=
  (flat_chunks A).foldl (fun ls ch =>
    apply_chunk (match d.get_layer_by_id ch.1 with
      | some l => l.objects
      | none => []) ch.1 ch.2.1 ch.2.2 ls) ls

/-- Two scratch-layer lists with identical skeletons: same layer count, and
per layer the same id, name and object count with objects that agree on
their `id` and `layer` fields (children and attributes may differ). -/
def skeleton_eq (ls ls' : List Layer) : Prop :=
  ls'.length = ls.length ∧
  ∀ i (hi : i < ls.length) (hi' : i < ls'.length),
    (ls'.get ⟨i, hi'⟩).id = (ls.get ⟨i, hi⟩).id ∧
    (ls'.get ⟨i, hi'⟩).name = (ls.get ⟨i, hi⟩).name ∧
    (ls'.get ⟨i, hi'⟩).objects.length = (ls.get ⟨i, hi⟩).objects.length ∧
    ∀ j (hj : j < (ls.get ⟨i, hi⟩).objects.length)
      (hj' : j < (ls'.get ⟨i, hi'⟩).objects.length),
      ((ls'.get ⟨i, hi'⟩).objects.get ⟨j, hj'⟩).id =
        ((ls.get ⟨i, hi⟩).objects.get ⟨j, hj⟩).id ∧
      ((ls'.get ⟨i, hi'⟩).objects.get ⟨j, hj'⟩).layer =
        ((ls.get ⟨i, hi⟩).objects.get ⟨j, hj⟩).layer

/-! ## Helper lemmas: the document model -/

theorem add_layers_layers (d : Document) (ls : List Layer) :
    (Document.add_layers d ls).layers = d.layers ++ ls := by
  induction ls generalizing d with
  | nil => simp [Document.add_layers]
  | cons l rest ih =>
    show (Document.add_layers (d.add_layer l) rest).layers = _
    rw [ih]
    simp [Document.add_layer]

theorem add_layers_header (d : Document) (ls : List Layer) :
    (Document.add_layers d ls).header = d.header := by
  induction ls generalizing d with
  | nil => rfl
  | cons l rest ih =>
    show (Document.add_layers (d.add_layer l) rest).header = _
    rw [ih]
    simp [Document.add_layer]

theorem add_layer_lookup (d : Document) (l : Layer) (i : Nat) :
    (d.add_layer l).get_layer_by_id i =
      if i = l.id then some l else d.get_layer_by_id i := by
  unfold Document.add_layer Document.get_layer_by_id
  simp [assocGet_assocSet]

theorem add_layers_lookup (d : Document) (ls : List Layer) (i : Nat) :
    (Document.add_layers d ls).get_layer_by_id i =
      ((ls.reverse.find? (fun l => l.id == i)).or (d.get_layer_by_id i)) := by
  induction ls generalizing d with
  | nil => simp [Document.add_layers]
  | cons l rest ih =>
    show (Document.add_layers (d.add_layer l) rest).get_layer_by_id i = _
    rw [ih]
    simp only [List.reverse_cons, List.find?_append, Option.or_assoc]
    congr 1
    rw [add_layer_lookup]
    by_cases h : i = l.id
    · simp [List.find?, h]
    · have hne : (l.id == i) = false := by simpa using fun he => h he.symm
      simp [List.find?, hne, h]

theorem find?_id_of_nodup (ms : List Layer) (l : Layer)
    (hnd : (ms.map Layer.id).Nodup) (hm : l ∈ ms) :
    ms.find? (fun x => x.id == l.id) = some l := by
  induction ms with
  | nil => cases hm
  | cons m rest ih =>
    rcases List.mem_cons.mp hm with hm1 | hm1
    · subst hm1
      simp [List.find?]
    · have hne : m.id ≠ l.id := by
        intro he
        have : l.id ∈ rest.map Layer.id := List.mem_map_of_mem Layer.id hm1
        rw [List.map_cons] at hnd
        exact (List.nodup_cons.mp hnd).1 (he ▸ this)
      have hrest : (rest.map Layer.id).Nodup := by
        rw [List.map_cons] at hnd
        exact (List.nodup_cons.mp hnd).2
      have hfm : (fun x => x.id == l.id) m = false := by simpa using hne
      simp [List.find?, hfm, ih hrest hm1]

/-! ## Claim theorems: document model, scenarios, error handling -/

/-- Claim C10: for documents built through the public model operations, the
`layers_by_id` index maps each id to the **last** layer added with that id
while the `layers` list preserves insertion order; with pairwise-distinct ids
`get_layer_by_id l.id` returns `l` for every added layer `l`, and with a
duplicated id the later `add_layer` silently overwrites the index entry while
both layers remain in the list. -/
theorem document_index_invariant (ls : List Layer) :
    (Document.add_layers ⟨[], [], none⟩ ls).layers = ls ∧
    (∀ i : Nat, (Document.add_layers ⟨[], [], none⟩ ls).get_layer_by_id i =
      ls.reverse.find? (fun l => l.id == i)) ∧
    ((ls.map Layer.id).Nodup →
      ∀ l ∈ ls, (Document.add_layers ⟨[], [], none⟩ ls).get_layer_by_id l.id = some l) := by
  refine ⟨by simpa using add_layers_layers ⟨[], [], none⟩ ls, fun i => ?_, fun hnd l hl => ?_⟩
  · rw [add_layers_lookup]
    simp [Document.get_layer_by_id, assocGet]
  · rw [add_layers_lookup]
    have : ls.reverse.find? (fun x => x.id == l.id) = some l := by
      apply find?_id_of_nodup
      · rw [List.map_reverse]
        exact List.nodup_reverse.mpr hnd
      · simpa using hl
    simp [this]

/-- Witness for C10: with the duplicate-id layers `dupA`, `dupB` the list
keeps both and the index lookup yields the later one; with distinct ids the
lookup returns each added layer. -/
theorem document_index_invariant_witness :
    ((Document.add_layers ⟨[], [], none⟩ [dupA, dupB]).layers = [dupA, dupB] ∧
      (Document.add_layers ⟨[], [], none⟩ [dupA, dupB]).get_layer_by_id 5 = some dupB) ∧
    (Document.add_layers ⟨[], [], none⟩ [⟨0, [97], []⟩, ⟨1, [98], []⟩]).get_layer_by_id 0 =
      some ⟨0, [97], []⟩ :=
  ⟨⟨(document_index_invariant [dupA, dupB]).1,
    by rw [(document_index_invariant [dupA, dupB]).2.1 5]; decide⟩,
   (document_index_invariant [⟨0, [97], []⟩, ⟨1, [98], []⟩]).2.2 (by decide)
     ⟨0, [97], []⟩ (by decide)⟩

/-- Claim C9 (Scenario A): encoding the header-only `utf-8` document yields
exactly the header, empty layers, empty relations and empty attrs sections,
and decoding those bytes yields a document with header encoding `utf-8` and
no layers. -/
theorem minimal_header_round_trip :
    write_document minimalDoc = .ok
      ([HEADER_START] ++ utf8Bytes ++ [SEPARATOR, HEADER_END,
        LAYERS_START, 0, 0, 0, 0, LAYERS_END,
        RELATIONS_START, 0, 0, 0, 0, RELATIONS_END,
        ATTRS_START, 0, 0, 0, 0, ATTRS_END]) ∧
    parse ([HEADER_START] ++ utf8Bytes ++ [SEPARATOR, HEADER_END,
        LAYERS_START, 0, 0, 0, 0, LAYERS_END,
        RELATIONS_START, 0, 0, 0, 0, RELATIONS_END,
        ATTRS_START, 0, 0, 0, 0, ATTRS_END]) =
      .ok ⟨[], [], some ⟨utf8Bytes⟩⟩ := ⟨rfl, rfl⟩

/-- Claim C4 evaluated on the code: encoding a document whose layer name
contains the `SEPARATOR` byte (`b'a\x00b'`) does **not** fail with any
`SeparatorInString` error — `_write_string` writes the bytes verbatim, so the
encoder succeeds and emits a layer record whose name field contains an
embedded separator (the first `SEPARATOR` below terminates the name early on
any decode attempt). -/
theorem separator_in_name_encodes :
    write_document sepNameDoc = .ok
      ([HEADER_START] ++ utf8Bytes ++ [SEPARATOR, HEADER_END] ++
       [LAYERS_START, 0, 0, 0, 1] ++
       [LAYER_START, 97, SEPARATOR, 98, SEPARATOR, 0, 0, 0, 0, LAYER_END] ++
       [LAYERS_END] ++
       [RELATIONS_START, 0, 0, 0, 0, RELATIONS_END] ++
       [ATTRS_START, 0, 0, 0, 0, ATTRS_END]) := rfl

/-- Counterexample to C8: `truncStream` ends two bytes into the 4-byte
layer-count field, yet no truncation error is raised there —
`_read_as_int` silently returns the value of the remaining bytes
(`read_as_int 4 [0,0] = (0, [])`), and decode ultimately fails with the
`TypeError` from `ord(b'')` at the next marker read, not with any
`TruncatedStream` parsing error (the code has no such error: its only
`TBFParsingException` sites are the marker mismatch and the chunk
dispatcher). -/
theorem truncated_stream_counterexample :
    parse truncStream = .error .typeErrorOrdEmpty ∧
    read_as_int 4 [0, 0] = (0, []) := ⟨rfl, rfl⟩

/-- When the remainder-exposing run errors, so does `parse` itself: the two
are the same four-section pipeline. -/
theorem parse_of_run_error (s : List Nat) (e : PErr)
    (h : parse_run s = .error e) : parse s = .error e := by
  unfold parse_run at h
  unfold parse
  simp only [bind, Except.bind, pure, Except.pure] at h ⊢
  rcases h1 : parse_header s with e1 | v1 <;> rw [h1] at h <;> dsimp only at h ⊢
  · cases h
    rfl
  obtain ⟨hd, s1⟩ := v1
  rcases h2 : parse_layers s1 with e2 | v2 <;> rw [h2] at h <;> dsimp only at h ⊢
  · cases h
    rfl
  obtain ⟨ls1, s2⟩ := v2
  rcases h3 : parse_relations ls1 s2 with e3 | v3 <;> rw [h3] at h <;> dsimp only at h ⊢
  · cases h
    rfl
  obtain ⟨ls2, s3⟩ := v3
  rcases h4 : parse_attrs ls2 s3 with e4 | v4 <;> rw [h4] at h <;> dsimp only at h ⊢
  · cases h
    rfl
  obtain ⟨ls3, s4⟩ := v4
  cases h

/-- Truncating the stream before a 1-byte marker read: the read either stays
in sync on the shared bytes or fails (at end of stream, with the `ord` of an
empty read). -/
theorem expectB_trunc (b : Nat) (p q r : List Nat)
    (h : expectB b (p ++ q) = .ok r) :
    (∃ r0, expectB b p = .ok r0 ∧ r = r0 ++ q) ∨
    (∃ e, expectB b p = .error e) := by
  cases p with
  | nil => exact .inr ⟨.typeErrorOrdEmpty, rfl⟩
  | cons x xs =>
    have h' : expectB b (x :: (xs ++ q)) = .ok r := h
    simp only [expectB] at h' ⊢
    by_cases hx : x = b
    · rw [if_pos hx] at h' ⊢
      exact .inl ⟨xs, rfl, (Except.ok.inj h').symm⟩
    · rw [if_neg hx] at h'
      cases h'

/-- A fixed-width read that fits inside the kept bytes is unaffected by the
cut-off tail. -/
theorem read_as_int_append (n : Nat) (p q : List Nat) (h : n ≤ p.length) :
    read_as_int n (p ++ q) = ((read_as_int n p).1, (read_as_int n p).2 ++ q) := by
  unfold read_as_int
  rw [List.take_append_of_le_length h, List.drop_append_of_le_length h]

theorem read_as_int_rest (n : Nat) (p : List Nat) :
    (read_as_int n p).2 = p.drop n := rfl

/-- A fixed-width read that crosses the cut consumes the rest of the stream
and silently returns the big-endian value of the bytes that were present. -/
theorem read_as_int_short (n : Nat) (p : List Nat) (h : p.length < n) :
    read_as_int n p = (bytes_to_int p, []) := by
  unfold read_as_int
  rw [List.take_of_length_le (Nat.le_of_lt h), List.drop_eq_nil_of_le (Nat.le_of_lt h)]

/-- Truncating a separator-terminated run: either the separator lies inside
the kept bytes and the scan is unaffected, or the scan consumes the whole
truncated stream. -/
theorem eat_until_sep_trunc (p q : List Nat) :
    (∃ v r0, eat_until_sep p = (v, r0) ∧ eat_until_sep (p ++ q) = (v, r0 ++ q)) ∨
    eat_until_sep p = (p, []) := by
  induction p with
  | nil => exact .inr rfl
  | cons x xs ih =>
    by_cases hx : x = SEPARATOR
    · refine .inl ⟨[], xs, ?_, ?_⟩
      · unfold eat_until_sep
        rw [if_pos hx]
      · show eat_until_sep (x :: (xs ++ q)) = _
        unfold eat_until_sep
        rw [if_pos hx]
    · rcases ih with ⟨v, r0, h1, h2⟩ | h1
      · refine .inl ⟨x :: v, r0, ?_, ?_⟩
        · unfold eat_until_sep
          rw [if_neg hx, h1]
        · show eat_until_sep (x :: (xs ++ q)) = _
          unfold eat_until_sep
          rw [if_neg hx, h2]
      · refine .inr ?_
        unfold eat_until_sep
        rw [if_neg hx, h1]

/-- At end of stream the full-chunk assignment loop consumes nothing
further. -/
theorem full_assign_eof (name : List Nat) (os : List LayerObject) :
    (full_assign name os []).2 = [] := by
  induction os with
  | nil => rfl
  | cons o rest ih =>
    unfold full_assign
    exact ih

/-- Truncating the full-chunk value runs: in sync, or stranded at end of
stream. -/
theorem full_assign_trunc (name : List Nat) (os : List LayerObject) (p q : List Nat) :
    (∃ v r0, full_assign name os p = (v, r0) ∧
       full_assign name os (p ++ q) = (v, r0 ++ q)) ∨
    (full_assign name os p).2 = [] := by
  induction os generalizing p q with
  | nil => exact .inl ⟨[], p, rfl, rfl⟩
  | cons o rest ih =>
    rcases eat_until_sep_trunc p q with ⟨v, r0, h1, h2⟩ | h1
    · rcases ih r0 q with ⟨v2, r2, h3, h4⟩ | h3
      · refine .inl ⟨{ o with attrs := assocSet o.attrs name v } :: v2, r2, ?_, ?_⟩
        · unfold full_assign
          rw [h1]
          dsimp only
          rw [h3]
        · unfold full_assign
          rw [h2]
          dsimp only
          rw [h4]
      · refine .inr ?_
        unfold full_assign
        rw [h1]
        dsimp only
        exact h3
    · refine .inr ?_
      unfold full_assign
      rw [h1]
      dsimp only
      exact full_assign_eof name rest

theorem parse_header_trunc (p q : List Nat) (a : Header) (r : List Nat)
    (h : parse_header (p ++ q) = .ok (a, r)) :
    (∃ r0, parse_header p = .ok (a, r0) ∧ r = r0 ++ q) ∨
    (∃ e, parse_header p = .error e) := by
  unfold parse_header at h ⊢
  simp only [bind, Except.bind, pure, Except.pure] at h ⊢
  rcases h1 : expectB HEADER_START (p ++ q) with e1 | s1 <;> rw [h1] at h <;>
    dsimp only at h
  · cases h
  rcases expectB_trunc HEADER_START p q s1 h1 with ⟨p1, hp1, hs1⟩ | ⟨e, he⟩
  swap
  · refine .inr ⟨e, ?_⟩
    rw [he]
  subst hs1
  rw [hp1]
  dsimp only
  rcases eat_until_sep_trunc p1 q with ⟨v, r0, he1, he2⟩ | he1
  · rw [he2] at h
    dsimp only at h
    rw [he1]
    dsimp only
    rcases h2 : expectB HEADER_END (r0 ++ q) with e2 | s2 <;> rw [h2] at h <;>
      dsimp only at h
    · cases h
    rcases expectB_trunc HEADER_END r0 q s2 h2 with ⟨p2, hp2, hs2⟩ | ⟨e, he⟩
    swap
    · refine .inr ⟨e, ?_⟩
      rw [he]
    subst hs2
    rw [hp2]
    dsimp only
    have h' := Except.ok.inj h
    refine .inl ⟨p2, ?_, ?_⟩
    · rw [show a = ⟨v⟩ from (congrArg Prod.fst h').symm]
    · exact (congrArg Prod.snd h').symm
  · rw [he1]
    dsimp only
    exact .inr ⟨.typeErrorOrdEmpty, rfl⟩

theorem parse_layer_trunc (i : Nat) (p q : List Nat) (a : Layer) (r : List Nat)
    (h : parse_layer i (p ++ q) = .ok (a, r)) :
    (∃ r0, parse_layer i p = .ok (a, r0) ∧ r = r0 ++ q) ∨
    (∃ e, parse_layer i p = .error e) := by
  unfold parse_layer at h ⊢
  simp only [bind, Except.bind, pure, Except.pure] at h ⊢
  rcases h1 : expectB LAYER_START (p ++ q) with e1 | s1 <;> rw [h1] at h <;>
    dsimp only at h
  · cases h
  rcases expectB_trunc LAYER_START p q s1 h1 with ⟨p1, hp1, hs1⟩ | ⟨e, he⟩
  swap
  · refine .inr ⟨e, ?_⟩
    rw [he]
  subst hs1
  rw [hp1]
  dsimp only
  rcases eat_until_sep_trunc p1 q with ⟨v, r0, he1, he2⟩ | he1
  · rw [he2] at h
    dsimp only at h
    rw [he1]
    dsimp only
    by_cases hn : 4 ≤ r0.length
    · rw [read_as_int_append 4 r0 q hn] at h
      dsimp only at h
      rcases h2 : expectB LAYER_END ((read_as_int 4 r0).2 ++ q) with e2 | s2 <;>
        rw [h2] at h <;> dsimp only at h
      · cases h
      rcases expectB_trunc LAYER_END (read_as_int 4 r0).2 q s2 h2 with
        ⟨p2, hp2, hs2⟩ | ⟨e, he⟩
      swap
      · refine .inr ⟨e, ?_⟩
        rw [he]
      subst hs2
      rw [hp2]
      dsimp only
      have h' := Except.ok.inj h
      refine .inl ⟨p2, ?_, ?_⟩
      · rw [show a = ⟨i, v, (List.range (read_as_int 4 r0).1).map
          (fun j => LayerObject.mk j i [] [])⟩ from (congrArg Prod.fst h').symm]
      · exact (congrArg Prod.snd h').symm
    · rw [read_as_int_short 4 r0 (by omega)]
      dsimp only
      exact .inr ⟨.typeErrorOrdEmpty, rfl⟩
  · rw [he1]
    dsimp only
    rw [show read_as_int 4 ([] : List Nat) = (0, []) from rfl]
    dsimp only
    exact .inr ⟨.typeErrorOrdEmpty, rfl⟩

theorem parse_layer_eof (i : Nat) :
    parse_layer i [] = .error .typeErrorOrdEmpty := rfl

theorem parse_layers_loop_eof (n i : Nat) :
    (∃ e, parse_layers_loop n i [] = .error e) ∨
    parse_layers_loop n i [] = .ok ([], []) := by
  cases n with
  | zero => exact .inr rfl
  | succ k =>
    refine .inl ⟨.typeErrorOrdEmpty, ?_⟩
    unfold parse_layers_loop
    simp only [bind, Except.bind]
    rw [parse_layer_eof i]

theorem parse_layers_loop_trunc (n : Nat) :
    ∀ (i : Nat) (p q : List Nat) (a : List Layer) (r : List Nat),
    parse_layers_loop n i (p ++ q) = .ok (a, r) →
    (∃ r0, parse_layers_loop n i p = .ok (a, r0) ∧ r = r0 ++ q) ∨
    (∃ e, parse_layers_loop n i p = .error e) := by
  induction n with
  | zero =>
    intro i p q a r h
    have h' := Except.ok.inj h
    refine .inl ⟨p, ?_, (congrArg Prod.snd h').symm⟩
    rw [show a = ([] : List Layer) from (congrArg Prod.fst h').symm]
    rfl
  | succ k ih =>
    intro i p q a r h
    unfold parse_layers_loop at h ⊢
    simp only [bind, Except.bind, pure, Except.pure] at h ⊢
    rcases h1 : parse_layer i (p ++ q) with e1 | v1 <;> rw [h1] at h <;>
      dsimp only at h
    · cases h
    obtain ⟨l, s1⟩ := v1
    rcases parse_layer_trunc i p q l s1 h1 with ⟨p1, hp1, hs1⟩ | ⟨e, he⟩
    swap
    · refine .inr ⟨e, ?_⟩
      rw [he]
    subst hs1
    rw [hp1]
    dsimp only
    rcases h2 : parse_layers_loop k (i + 1) (p1 ++ q) with e2 | v2 <;>
      rw [h2] at h <;> dsimp only at h
    · cases h
    obtain ⟨ls, s2⟩ := v2
    rcases ih (i + 1) p1 q ls s2 h2 with ⟨p2, hp2, hs2⟩ | ⟨e, he⟩
    swap
    · refine .inr ⟨e, ?_⟩
      rw [he]
    subst hs2
    rw [hp2]
    dsimp only
    have h' := Except.ok.inj h
    refine .inl ⟨p2, ?_, (congrArg Prod.snd h').symm⟩
    rw [show a = l :: ls from (congrArg Prod.fst h').symm]

theorem parse_layers_trunc (p q : List Nat) (a : List Layer) (r : List Nat)
    (h : parse_layers (p ++ q) = .ok (a, r)) :
    (∃ r0, parse_layers p = .ok (a, r0) ∧ r = r0 ++ q) ∨
    (∃ e, parse_layers p = .error e) := by
  unfold parse_layers at h ⊢
  simp only [bind, Except.bind, pure, Except.pure] at h ⊢
  rcases h1 : expectB LAYERS_START (p ++ q) with e1 | s1 <;> rw [h1] at h <;>
    dsimp only at h
  · cases h
  rcases expectB_trunc LAYERS_START p q s1 h1 with ⟨p1, hp1, hs1⟩ | ⟨e, he⟩
  swap
  · refine .inr ⟨e, ?_⟩
    rw [he]
  subst hs1
  rw [hp1]
  dsimp only
  by_cases hn : 4 ≤ p1.length
  · rw [read_as_int_append 4 p1 q hn] at h
    dsimp only at h
    rcases h2 : parse_layers_loop (read_as_int 4 p1).1 0 ((read_as_int 4 p1).2 ++ q)
        with e2 | v2 <;> rw [h2] at h <;> dsimp only at h
    · cases h
    obtain ⟨ls, s2⟩ := v2
    rcases parse_layers_loop_trunc (read_as_int 4 p1).1 0 (read_as_int 4 p1).2 q ls s2 h2
        with ⟨p2, hp2, hs2⟩ | ⟨e, he⟩
    swap
    · refine .inr ⟨e, ?_⟩
      rw [he]
    subst hs2
    rw [hp2]
    dsimp only
    rcases h3 : expectB LAYERS_END (p2 ++ q) with e3 | s3 <;> rw [h3] at h <;>
      dsimp only at h
    · cases h
    rcases expectB_trunc LAYERS_END p2 q s3 h3 with ⟨p3, hp3, hs3⟩ | ⟨e, he⟩
    swap
    · refine .inr ⟨e, ?_⟩
      rw [he]
    subst hs3
    rw [hp3]
    dsimp only
    have h' := Except.ok.inj h
    refine .inl ⟨p3, ?_, (congrArg Prod.snd h').symm⟩
    rw [show a = ls from (congrArg Prod.fst h').symm]
  · rw [read_as_int_short 4 p1 (by omega)]
    dsimp only
    rcases parse_layers_loop_eof (bytes_to_int p1) 0 with ⟨e, he⟩ | he <;>
      rw [he] <;> dsimp only
    · exact .inr ⟨e, rfl⟩
    · exact .inr ⟨.typeErrorOrdEmpty, rfl⟩

theorem parse_pairs_loop_eof (n pl cl : Nat) : ∀ (ls : List Layer),
    (∃ e, parse_pairs_loop n pl cl ls [] = .error e) ∨
    ∃ v, parse_pairs_loop n pl cl ls [] = .ok (v, []) := by
  induction n with
  | zero => exact fun ls => .inr ⟨ls, rfl⟩
  | succ k ih =>
    intro ls
    unfold parse_pairs_loop
    simp only [bind, Except.bind]
    rcases ha : add_child_by_ids ls pl (read_as_int 4 []).1 cl
        (read_as_int 4 (read_as_int 4 []).2).1 with e | ls1 <;> dsimp only
    · exact .inl ⟨e, rfl⟩
    · exact ih ls1

theorem parse_pairs_loop_trunc (n : Nat) :
    ∀ (pl cl : Nat) (ls : List Layer) (p q : List Nat) (a : List Layer)
      (r : List Nat),
    parse_pairs_loop n pl cl ls (p ++ q) = .ok (a, r) →
    (∃ r0, parse_pairs_loop n pl cl ls p = .ok (a, r0) ∧ r = r0 ++ q) ∨
    (∃ e, parse_pairs_loop n pl cl ls p = .error e) ∨
    (∃ v, parse_pairs_loop n pl cl ls p = .ok (v, [])) := by
  induction n with
  | zero =>
    intro pl cl ls p q a r h
    have h' := Except.ok.inj h
    refine .inl ⟨p, ?_, (congrArg Prod.snd h').symm⟩
    rw [show a = ls from (congrArg Prod.fst h').symm]
    rfl
  | succ k ih =>
    intro pl cl ls p q a r h
    unfold parse_pairs_loop at h ⊢
    simp only [bind, Except.bind] at h ⊢
    by_cases hp4 : 4 ≤ p.length
    · rw [read_as_int_append 4 p q hp4] at h
      dsimp only at h
      by_cases hp8 : 4 ≤ (read_as_int 4 p).2.length
      · rw [read_as_int_append 4 (read_as_int 4 p).2 q hp8] at h
        dsimp only at h
        rcases ha : add_child_by_ids ls pl (read_as_int 4 p).1 cl
            (read_as_int 4 (read_as_int 4 p).2).1 with e | ls1 <;>
          rw [ha] at h <;> dsimp only at h ⊢
        · cases h
        exact ih pl cl ls1 (read_as_int 4 (read_as_int 4 p).2).2 q a r h
      · rw [read_as_int_short 4 (read_as_int 4 p).2 (by omega)]
        dsimp only
        rcases ha : add_child_by_ids ls pl (read_as_int 4 p).1 cl
            (bytes_to_int (read_as_int 4 p).2) with e | ls1 <;> dsimp only
        · exact .inr (.inl ⟨e, rfl⟩)
        · rcases parse_pairs_loop_eof k pl cl ls1 with ⟨e, he⟩ | ⟨v, hv⟩
          · exact .inr (.inl ⟨e, he⟩)
          · exact .inr (.inr ⟨v, hv⟩)
    · rw [read_as_int_short 4 p (by omega)]
      dsimp only
      rcases ha : add_child_by_ids ls pl (bytes_to_int p) cl
          (read_as_int 4 []).1 with e | ls1 <;> dsimp only
      · exact .inr (.inl ⟨e, rfl⟩)
      · rcases parse_pairs_loop_eof k pl cl ls1 with ⟨e, he⟩ | ⟨v, hv⟩
        · exact .inr (.inl ⟨e, he⟩)
        · exact .inr (.inr ⟨v, hv⟩)

theorem parse_relation_trunc (ls : List Layer) (p q : List Nat) (a : List Layer)
    (r : List Nat) (h : parse_relation ls (p ++ q) = .ok (a, r)) :
    (∃ r0, parse_relation ls p = .ok (a, r0) ∧ r = r0 ++ q) ∨
    (∃ e, parse_relation ls p = .error e) := by
  unfold parse_relation at h ⊢
  simp only [bind, Except.bind, pure, Except.pure] at h ⊢
  rcases h1 : expectB RELATION_START (p ++ q) with e1 | s1 <;> rw [h1] at h <;>
    dsimp only at h
  · cases h
  rcases expectB_trunc RELATION_START p q s1 h1 with ⟨p1, hp1, hs1⟩ | ⟨e, he⟩
  swap
  · refine .inr ⟨e, ?_⟩
    rw [he]
  subst hs1
  rw [hp1]
  dsimp only
  by_cases h4 : 4 ≤ p1.length
  swap
  · rw [read_as_int_short 4 p1 (by omega)]
    exact .inr ⟨.typeErrorOrdEmpty, rfl⟩
  rw [read_as_int_append 4 p1 q h4] at h
  dsimp only at h
  have hl4 : (read_as_int 4 p1).2.length = p1.length - 4 := by
    rw [read_as_int_rest]
    exact List.length_drop 4 p1
  by_cases h8 : 4 ≤ (read_as_int 4 p1).2.length
  swap
  · rw [read_as_int_short 4 (read_as_int 4 p1).2 (by omega)]
    exact .inr ⟨.typeErrorOrdEmpty, rfl⟩
  rw [read_as_int_append 4 (read_as_int 4 p1).2 q h8] at h
  dsimp only at h
  have hl8 : (read_as_int 4 (read_as_int 4 p1).2).2.length =
      (read_as_int 4 p1).2.length - 4 := by
    rw [read_as_int_rest]
    exact List.length_drop 4 (read_as_int 4 p1).2
  by_cases h12 : 4 ≤ (read_as_int 4 (read_as_int 4 p1).2).2.length
  swap
  · rw [read_as_int_short 4 (read_as_int 4 (read_as_int 4 p1).2).2 (by omega)]
    dsimp only
    rcases parse_pairs_loop_eof (bytes_to_int (read_as_int 4 (read_as_int 4 p1).2).2)
        (read_as_int 4 p1).1 (read_as_int 4 (read_as_int 4 p1).2).1 ls with
      ⟨e, he⟩ | ⟨v, hv⟩
    · rw [he]
      exact .inr ⟨e, rfl⟩
    · rw [hv]
      exact .inr ⟨.typeErrorOrdEmpty, rfl⟩
  rw [read_as_int_append 4 (read_as_int 4 (read_as_int 4 p1).2).2 q h12] at h
  dsimp only at h
  rcases h2 : parse_pairs_loop (read_as_int 4 (read_as_int 4 (read_as_int 4 p1).2).2).1
      (read_as_int 4 p1).1 (read_as_int 4 (read_as_int 4 p1).2).1 ls
      ((read_as_int 4 (read_as_int 4 (read_as_int 4 p1).2).2).2 ++ q) with e2 | v2 <;>
    rw [h2] at h <;> dsimp only at h
  · cases h
  obtain ⟨ls1, s2⟩ := v2
  rcases parse_pairs_loop_trunc (read_as_int 4 (read_as_int 4 (read_as_int 4 p1).2).2).1
      (read_as_int 4 p1).1 (read_as_int 4 (read_as_int 4 p1).2).1 ls
      (read_as_int 4 (read_as_int 4 (read_as_int 4 p1).2).2).2 q ls1 s2 h2 with
    ⟨p2, hp2, hs2⟩ | ⟨e, he⟩ | ⟨v, hv⟩
  · subst hs2
    rw [hp2]
    dsimp only
    rcases h3 : expectB RELATION_END (p2 ++ q) with e3 | s3 <;> rw [h3] at h <;>
      dsimp only at h
    · cases h
    rcases expectB_trunc RELATION_END p2 q s3 h3 with ⟨p3, hp3, hs3⟩ | ⟨e, he⟩
    swap
    · refine .inr ⟨e, ?_⟩
      rw [he]
    subst hs3
    rw [hp3]
    dsimp only
    have h' := Except.ok.inj h
    refine .inl ⟨p3, ?_, (congrArg Prod.snd h').symm⟩
    rw [show a = ls1 from (congrArg Prod.fst h').symm]
  · rw [he]
    exact .inr ⟨e, rfl⟩
  · rw [hv]
    exact .inr ⟨.typeErrorOrdEmpty, rfl⟩

theorem parse_relation_eof (ls : List Layer) :
    parse_relation ls [] = .error .typeErrorOrdEmpty := rfl

theorem parse_relations_loop_eof (n : Nat) (ls : List Layer) :
    (∃ e, parse_relations_loop n ls [] = .error e) ∨
    parse_relations_loop n ls [] = .ok (ls, []) := by
  cases n with
  | zero => exact .inr rfl
  | succ k =>
    refine .inl ⟨.typeErrorOrdEmpty, ?_⟩
    unfold parse_relations_loop
    simp only [bind, Except.bind]
    rw [parse_relation_eof ls]

theorem parse_relations_loop_trunc (n : Nat) :
    ∀ (ls : List Layer) (p q : List Nat) (a : List Layer) (r : List Nat),
    parse_relations_loop n ls (p ++ q) = .ok (a, r) →
    (∃ r0, parse_relations_loop n ls p = .ok (a, r0) ∧ r = r0 ++ q) ∨
    (∃ e, parse_relations_loop n ls p = .error e) := by
  induction n with
  | zero =>
    intro ls p q a r h
    have h' := Except.ok.inj h
    refine .inl ⟨p, ?_, (congrArg Prod.snd h').symm⟩
    rw [show a = ls from (congrArg Prod.fst h').symm]
    rfl
  | succ k ih =>
    intro ls p q a r h
    unfold parse_relations_loop at h ⊢
    simp only [bind, Except.bind, pure, Except.pure] at h ⊢
    rcases h1 : parse_relation ls (p ++ q) with e1 | v1 <;> rw [h1] at h <;>
      dsimp only at h
    · cases h
    obtain ⟨ls1, s1⟩ := v1
    rcases parse_relation_trunc ls p q ls1 s1 h1 with ⟨p1, hp1, hs1⟩ | ⟨e, he⟩
    swap
    · refine .inr ⟨e, ?_⟩
      rw [he]
    subst hs1
    rw [hp1]
    dsimp only
    exact ih ls1 p1 q a r h

theorem parse_relations_trunc (ls : List Layer) (p q : List Nat) (a : List Layer)
    (r : List Nat) (h : parse_relations ls (p ++ q) = .ok (a, r)) :
    (∃ r0, parse_relations ls p = .ok (a, r0) ∧ r = r0 ++ q) ∨
    (∃ e, parse_relations ls p = .error e) := by
  unfold parse_relations at h ⊢
  simp only [bind, Except.bind, pure, Except.pure] at h ⊢
  rcases h1 : expectB RELATIONS_START (p ++ q) with e1 | s1 <;> rw [h1] at h <;>
    dsimp only at h
  · cases h
  rcases expectB_trunc RELATIONS_START p q s1 h1 with ⟨p1, hp1, hs1⟩ | ⟨e, he⟩
  swap
  · refine .inr ⟨e, ?_⟩
    rw [he]
  subst hs1
  rw [hp1]
  dsimp only
  by_cases hn : 4 ≤ p1.length
  · rw [read_as_int_append 4 p1 q hn] at h
    dsimp only at h
    rcases h2 : parse_relations_loop (read_as_int 4 p1).1 ls
        ((read_as_int 4 p1).2 ++ q) with e2 | v2 <;> rw [h2] at h <;>
      dsimp only at h
    · cases h
    obtain ⟨ls1, s2⟩ := v2
    rcases parse_relations_loop_trunc (read_as_int 4 p1).1 ls
        (read_as_int 4 p1).2 q ls1 s2 h2 with ⟨p2, hp2, hs2⟩ | ⟨e, he⟩
    swap
    · refine .inr ⟨e, ?_⟩
      rw [he]
    subst hs2
    rw [hp2]
    dsimp only
    rcases h3 : expectB RELATIONS_END (p2 ++ q) with e3 | s3 <;> rw [h3] at h <;>
      dsimp only at h
    · cases h
    rcases expectB_trunc RELATIONS_END p2 q s3 h3 with ⟨p3, hp3, hs3⟩ | ⟨e, he⟩
    swap
    · refine .inr ⟨e, ?_⟩
      rw [he]
    subst hs3
    rw [hp3]
    dsimp only
    have h' := Except.ok.inj h
    refine .inl ⟨p3, ?_, (congrArg Prod.snd h').symm⟩
    rw [show a = ls1 from (congrArg Prod.fst h').symm]
  · rw [read_as_int_short 4 p1 (by omega)]
    dsimp only
    rcases parse_relations_loop_eof (bytes_to_int p1) ls with ⟨e, he⟩ | he <;>
      rw [he] <;> dsimp only
    · exact .inr ⟨e, rfl⟩
    · exact .inr ⟨.typeErrorOrdEmpty, rfl⟩

theorem parse_full_chunk_trunc (ls : List Layer) (p q : List Nat)
    (a : List Layer) (r : List Nat)
    (h : parse_full_chunk ls (p ++ q) = .ok (a, r)) :
    (∃ r0, parse_full_chunk ls p = .ok (a, r0) ∧ r = r0 ++ q) ∨
    (∃ e, parse_full_chunk ls p = .error e) := by
  unfold parse_full_chunk at h ⊢
  simp only [bind, Except.bind, pure, Except.pure] at h ⊢
  rcases h1 : expectB CHUNK_FULL_START (p ++ q) with e1 | s1 <;> rw [h1] at h <;>
    dsimp only at h
  · cases h
  rcases expectB_trunc CHUNK_FULL_START p q s1 h1 with ⟨p1, hp1, hs1⟩ | ⟨e, he⟩
  swap
  · refine .inr ⟨e, ?_⟩
    rw [he]
  subst hs1
  rw [hp1]
  dsimp only
  by_cases h4 : 4 ≤ p1.length
  swap
  · rw [read_as_int_short 4 p1 (by omega)]
    dsimp only
    rcases hg : ls.get? (bytes_to_int p1) with _ | l <;> dsimp only
    · exact .inr ⟨.keyError (bytes_to_int p1), rfl⟩
    · refine .inr ⟨.typeErrorOrdEmpty, ?_⟩
      rw [show eat_until_sep ([] : List Nat) = ([], []) from rfl]
      dsimp only
      rw [full_assign_eof ([] : List Nat) l.objects]
      rfl
  rw [read_as_int_append 4 p1 q h4] at h
  dsimp only at h
  rcases eat_until_sep_trunc (read_as_int 4 p1).2 q with ⟨v, r0, he1, he2⟩ | he1
  · rw [he2] at h
    dsimp only at h
    rw [he1]
    dsimp only
    rcases hg : ls.get? (read_as_int 4 p1).1 with _ | l <;> rw [hg] at h <;>
      dsimp only at h ⊢
    · cases h
    rcases full_assign_trunc v l.objects r0 q with ⟨vv, rr0, hf1, hf2⟩ | hf
    · rw [hf2] at h
      dsimp only at h
      rw [hf1]
      dsimp only
      rcases h3 : expectB CHUNK_END (rr0 ++ q) with e3 | s3 <;> rw [h3] at h <;>
        dsimp only at h
      · cases h
      rcases expectB_trunc CHUNK_END rr0 q s3 h3 with ⟨p3, hp3, hs3⟩ | ⟨e, he⟩
      swap
      · refine .inr ⟨e, ?_⟩
        rw [he]
      subst hs3
      rw [hp3]
      dsimp only
      have h' := Except.ok.inj h
      refine .inl ⟨p3, ?_, (congrArg Prod.snd h').symm⟩
      rw [show a = ls.set (read_as_int 4 p1).1 { l with objects := vv } from
        (congrArg Prod.fst h').symm]
    · refine .inr ⟨.typeErrorOrdEmpty, ?_⟩
      rw [hf]
      rfl
  · rw [he1]
    dsimp only
    rcases hg : ls.get? (read_as_int 4 p1).1 with _ | l <;> rw [hg] at h <;>
      dsimp only at h ⊢
    · cases h
    refine .inr ⟨.typeErrorOrdEmpty, ?_⟩
    rw [full_assign_eof (read_as_int 4 p1).2 l.objects]
    rfl

theorem linked_loop_eof (lid : Nat) (name : List Nat) (n : Nat) :
    ∀ (ls : List Layer),
    (∃ e, linked_loop lid name n ls [] = .error e) ∨
    ∃ v, linked_loop lid name n ls [] = .ok (v, []) := by
  induction n with
  | zero => exact fun ls => .inr ⟨ls, rfl⟩
  | succ k ih =>
    intro ls
    unfold linked_loop
    simp only [bind, Except.bind]
    rcases hg : ls.get? lid with _ | l <;> dsimp only
    · exact .inl ⟨.keyError lid, rfl⟩
    rcases hgo : l.objects.get? (read_as_int 4 []).1 with _ | o <;> dsimp only
    · exact .inl ⟨.indexError, rfl⟩
    exact ih (ls.set lid { l with objects := (l.objects.set (read_as_int 4 []).1
      { o with attrs := assocSet o.attrs name (eat_until_sep (read_as_int 4 []).2).1 }) })

theorem linked_loop_trunc (lid : Nat) (name : List Nat) (n : Nat) :
    ∀ (ls : List Layer) (p q : List Nat) (a : List Layer) (r : List Nat),
    linked_loop lid name n ls (p ++ q) = .ok (a, r) →
    (∃ r0, linked_loop lid name n ls p = .ok (a, r0) ∧ r = r0 ++ q) ∨
    (∃ e, linked_loop lid name n ls p = .error e) ∨
    (∃ v, linked_loop lid name n ls p = .ok (v, [])) := by
  induction n with
  | zero =>
    intro ls p q a r h
    have h' := Except.ok.inj h
    refine .inl ⟨p, ?_, (congrArg Prod.snd h').symm⟩
    rw [show a = ls from (congrArg Prod.fst h').symm]
    rfl
  | succ k ih =>
    intro ls p q a r h
    unfold linked_loop at h ⊢
    simp only [bind, Except.bind] at h ⊢
    by_cases h4 : 4 ≤ p.length
    · rw [read_as_int_append 4 p q h4] at h
      dsimp only at h
      rcases eat_until_sep_trunc (read_as_int 4 p).2 q with ⟨v, r0, he1, he2⟩ | he1
      · rw [he2] at h
        dsimp only at h
        rw [he1]
        dsimp only
        rcases hg : ls.get? lid with _ | l <;> rw [hg] at h <;> dsimp only at h ⊢
        · cases h
        rcases hgo : l.objects.get? (read_as_int 4 p).1 with _ | o <;>
          rw [hgo] at h <;> dsimp only at h ⊢
        · cases h
        exact ih (ls.set lid { l with objects := (l.objects.set (read_as_int 4 p).1
          { o with attrs := assocSet o.attrs name v }) }) r0 q a r h
      · rw [he1]
        dsimp only
        rcases hg : ls.get? lid with _ | l <;> rw [hg] at h <;> dsimp only at h ⊢
        · cases h
        rcases hgo : l.objects.get? (read_as_int 4 p).1 with _ | o <;>
          rw [hgo] at h <;> dsimp only at h ⊢
        · cases h
        rcases linked_loop_eof lid name k (ls.set lid { l with
            objects := (l.objects.set (read_as_int 4 p).1
              { o with attrs := assocSet o.attrs name (read_as_int 4 p).2 }) }) with
          ⟨e, he⟩ | ⟨v, hv⟩
        · exact .inr (.inl ⟨e, he⟩)
        · exact .inr (.inr ⟨v, hv⟩)
    · rw [read_as_int_short 4 p (by omega)]
      dsimp only
      rcases hg : ls.get? lid with _ | l <;> dsimp only
      · exact .inr (.inl ⟨.keyError lid, rfl⟩)
      rcases hgo : l.objects.get? (bytes_to_int p) with _ | o <;> dsimp only
      · exact .inr (.inl ⟨.indexError, rfl⟩)
      rcases linked_loop_eof lid name k (ls.set lid { l with
          objects := (l.objects.set (bytes_to_int p)
            { o with attrs := (assocSet o.attrs name
              (eat_until_sep (read_as_int 4 []).2).1) }) }) with ⟨e, he⟩ | ⟨v, hv⟩
      · exact .inr (.inl ⟨e, he⟩)
      · exact .inr (.inr ⟨v, hv⟩)

theorem parse_linked_chunk_trunc (ls : List Layer) (p q : List Nat)
    (a : List Layer) (r : List Nat)
    (h : parse_linked_chunk ls (p ++ q) = .ok (a, r)) :
    (∃ r0, parse_linked_chunk ls p = .ok (a, r0) ∧ r = r0 ++ q) ∨
    (∃ e, parse_linked_chunk ls p = .error e) := by
  unfold parse_linked_chunk at h ⊢
  simp only [bind, Except.bind, pure, Except.pure] at h ⊢
  rcases h1 : expectB CHUNK_LINKED_START (p ++ q) with e1 | s1 <;> rw [h1] at h <;>
    dsimp only at h
  · cases h
  rcases expectB_trunc CHUNK_LINKED_START p q s1 h1 with ⟨p1, hp1, hs1⟩ | ⟨e, he⟩
  swap
  · refine .inr ⟨e, ?_⟩
    rw [he]
  subst hs1
  rw [hp1]
  dsimp only
  by_cases h4 : 4 ≤ p1.length
  swap
  · rw [read_as_int_short 4 p1 (by omega)]
    exact .inr ⟨.typeErrorOrdEmpty, rfl⟩
  rw [read_as_int_append 4 p1 q h4] at h
  dsimp only at h
  rcases eat_until_sep_trunc (read_as_int 4 p1).2 q with ⟨v, r0, he1, he2⟩ | he1
  · rw [he2] at h
    dsimp only at h
    rw [he1]
    dsimp only
    by_cases h8 : 4 ≤ r0.length
    · rw [read_as_int_append 4 r0 q h8] at h
      dsimp only at h
      rcases h2 : linked_loop (read_as_int 4 p1).1 v (read_as_int 4 r0).1 ls
          ((read_as_int 4 r0).2 ++ q) with e2 | v2 <;> rw [h2] at h <;>
        dsimp only at h
      · cases h
      obtain ⟨ls1, s2⟩ := v2
      rcases linked_loop_trunc (read_as_int 4 p1).1 v (read_as_int 4 r0).1 ls
          (read_as_int 4 r0).2 q ls1 s2 h2 with ⟨p2, hp2, hs2⟩ | ⟨e, he⟩ | ⟨v', hv⟩
      · subst hs2
        rw [hp2]
        dsimp only
        rcases h3 : expectB CHUNK_END (p2 ++ q) with e3 | s3 <;> rw [h3] at h <;>
          dsimp only at h
        · cases h
        rcases expectB_trunc CHUNK_END p2 q s3 h3 with ⟨p3, hp3, hs3⟩ | ⟨e, he⟩
        swap
        · refine .inr ⟨e, ?_⟩
          rw [he]
        subst hs3
        rw [hp3]
        dsimp only
        have h' := Except.ok.inj h
        refine .inl ⟨p3, ?_, (congrArg Prod.snd h').symm⟩
        rw [show a = ls1 from (congrArg Prod.fst h').symm]
      · rw [he]
        exact .inr ⟨e, rfl⟩
      · rw [hv]
        exact .inr ⟨.typeErrorOrdEmpty, rfl⟩
    · rw [read_as_int_short 4 r0 (by omega)]
      dsimp only
      rcases linked_loop_eof (read_as_int 4 p1).1 v (bytes_to_int r0) ls with
        ⟨e, he⟩ | ⟨v', hv⟩
      · rw [he]
        exact .inr ⟨e, rfl⟩
      · rw [hv]
        exact .inr ⟨.typeErrorOrdEmpty, rfl⟩
  · rw [he1]
    exact .inr ⟨.typeErrorOrdEmpty, rfl⟩

theorem bytes_to_int_single (x : Nat) : bytes_to_int [x] = x := by
  simp [bytes_to_int]

theorem parse_chunk_trunc (ls : List Layer) (p q : List Nat) (a : List Layer)
    (r : List Nat) (h : parse_chunk ls (p ++ q) = .ok (a, r)) :
    (∃ r0, parse_chunk ls p = .ok (a, r0) ∧ r = r0 ++ q) ∨
    (∃ e, parse_chunk ls p = .error e) := by
  cases p with
  | nil => exact .inr ⟨.badChunk 0, rfl⟩
  | cons x xs =>
    unfold parse_chunk at h ⊢
    rw [show ((x :: xs) ++ q).take 1 = [x] from rfl] at h
    rw [show (x :: xs).take 1 = [x] from rfl]
    rw [bytes_to_int_single x] at h ⊢
    by_cases hx : x = CHUNK_FULL_START
    · rw [if_pos hx] at h ⊢
      exact parse_full_chunk_trunc ls (x :: xs) q a r h
    rw [if_neg hx] at h ⊢
    by_cases hx2 : x = CHUNK_LINKED_START
    · rw [if_pos hx2] at h ⊢
      exact parse_linked_chunk_trunc ls (x :: xs) q a r h
    rw [if_neg hx2] at h
    cases h

theorem parse_attrs_loop_eof (n : Nat) (ls : List Layer) :
    (∃ e, parse_attrs_loop n ls [] = .error e) ∨
    parse_attrs_loop n ls [] = .ok (ls, []) := by
  cases n with
  | zero => exact .inr rfl
  | succ k =>
    refine .inl ⟨.badChunk 0, ?_⟩
    unfold parse_attrs_loop
    simp only [bind, Except.bind]
    rw [show parse_chunk ls [] = .error (.badChunk 0) from rfl]

theorem parse_attrs_loop_trunc (n : Nat) :
    ∀ (ls : List Layer) (p q : List Nat) (a : List Layer) (r : List Nat),
    parse_attrs_loop n ls (p ++ q) = .ok (a, r) →
    (∃ r0, parse_attrs_loop n ls p = .ok (a, r0) ∧ r = r0 ++ q) ∨
    (∃ e, parse_attrs_loop n ls p = .error e) := by
  induction n with
  | zero =>
    intro ls p q a r h
    have h' := Except.ok.inj h
    refine .inl ⟨p, ?_, (congrArg Prod.snd h').symm⟩
    rw [show a = ls from (congrArg Prod.fst h').symm]
    rfl
  | succ k ih =>
    intro ls p q a r h
    unfold parse_attrs_loop at h ⊢
    simp only [bind, Except.bind, pure, Except.pure] at h ⊢
    rcases h1 : parse_chunk ls (p ++ q) with e1 | v1 <;> rw [h1] at h <;>
      dsimp only at h
    · cases h
    obtain ⟨ls1, s1⟩ := v1
    rcases parse_chunk_trunc ls p q ls1 s1 h1 with ⟨p1, hp1, hs1⟩ | ⟨e, he⟩
    swap
    · refine .inr ⟨e, ?_⟩
      rw [he]
    subst hs1
    rw [hp1]
    dsimp only
    exact ih ls1 p1 q a r h

theorem parse_attrs_trunc (ls : List Layer) (p q : List Nat) (a : List Layer)
    (r : List Nat) (h : parse_attrs ls (p ++ q) = .ok (a, r)) :
    (∃ r0, parse_attrs ls p = .ok (a, r0) ∧ r = r0 ++ q) ∨
    (∃ e, parse_attrs ls p = .error e) := by
  unfold parse_attrs at h ⊢
  simp only [bind, Except.bind, pure, Except.pure] at h ⊢
  rcases h1 : expectB ATTRS_START (p ++ q) with e1 | s1 <;> rw [h1] at h <;>
    dsimp only at h
  · cases h
  rcases expectB_trunc ATTRS_START p q s1 h1 with ⟨p1, hp1, hs1⟩ | ⟨e, he⟩
  swap
  · refine .inr ⟨e, ?_⟩
    rw [he]
  subst hs1
  rw [hp1]
  dsimp only
  by_cases hn : 4 ≤ p1.length
  · rw [read_as_int_append 4 p1 q hn] at h
    dsimp only at h
    rcases h2 : parse_attrs_loop (read_as_int 4 p1).1 ls
        ((read_as_int 4 p1).2 ++ q) with e2 | v2 <;> rw [h2] at h <;>
      dsimp only at h
    · cases h
    obtain ⟨ls1, s2⟩ := v2
    rcases parse_attrs_loop_trunc (read_as_int 4 p1).1 ls
        (read_as_int 4 p1).2 q ls1 s2 h2 with ⟨p2, hp2, hs2⟩ | ⟨e, he⟩
    swap
    · refine .inr ⟨e, ?_⟩
      rw [he]
    subst hs2
    rw [hp2]
    dsimp only
    rcases h3 : expectB ATTRS_END (p2 ++ q) with e3 | s3 <;> rw [h3] at h <;>
      dsimp only at h
    · cases h
    rcases expectB_trunc ATTRS_END p2 q s3 h3 with ⟨p3, hp3, hs3⟩ | ⟨e, he⟩
    swap
    · refine .inr ⟨e, ?_⟩
      rw [he]
    subst hs3
    rw [hp3]
    dsimp only
    have h' := Except.ok.inj h
    refine .inl ⟨p3, ?_, (congrArg Prod.snd h').symm⟩
    rw [show a = ls1 from (congrArg Prod.fst h').symm]
  · rw [read_as_int_short 4 p1 (by omega)]
    dsimp only
    rcases parse_attrs_loop_eof (bytes_to_int p1) ls with ⟨e, he⟩ | he <;>
      rw [he] <;> dsimp only
    · exact .inr ⟨e, rfl⟩
    · exact .inr ⟨.typeErrorOrdEmpty, rfl⟩

/-- Composition over the four sections: on a truncated stream the whole run
either errors or stays in sync, in which case the cut-off tail survives into
the remainder. -/
theorem parse_run_trunc (p q : List Nat) (d : Document) (r : List Nat)
    (h : parse_run (p ++ q) = .ok (d, r)) :
    (∃ r0, parse_run p = .ok (d, r0) ∧ r = r0 ++ q) ∨
    (∃ e, parse_run p = .error e) := by
  unfold parse_run at h ⊢
  simp only [bind, Except.bind, pure, Except.pure] at h ⊢
  rcases h1 : parse_header (p ++ q) with e1 | v1 <;> rw [h1] at h <;>
    dsimp only at h
  · cases h
  obtain ⟨hd, s1⟩ := v1
  rcases parse_header_trunc p q hd s1 h1 with ⟨p1, hp1, hs1⟩ | ⟨e, he⟩
  swap
  · refine .inr ⟨e, ?_⟩
    rw [he]
  subst hs1
  rw [hp1]
  dsimp only
  rcases h2 : parse_layers (p1 ++ q) with e2 | v2 <;> rw [h2] at h <;>
    dsimp only at h
  · cases h
  obtain ⟨ls1, s2⟩ := v2
  rcases parse_layers_trunc p1 q ls1 s2 h2 with ⟨p2, hp2, hs2⟩ | ⟨e, he⟩
  swap
  · refine .inr ⟨e, ?_⟩
    rw [he]
  subst hs2
  rw [hp2]
  dsimp only
  rcases h3 : parse_relations ls1 (p2 ++ q) with e3 | v3 <;> rw [h3] at h <;>
    dsimp only at h
  · cases h
  obtain ⟨ls2, s3⟩ := v3
  rcases parse_relations_trunc ls1 p2 q ls2 s3 h3 with ⟨p3, hp3, hs3⟩ | ⟨e, he⟩
  swap
  · refine .inr ⟨e, ?_⟩
    rw [he]
  subst hs3
  rw [hp3]
  dsimp only
  rcases h4 : parse_attrs ls2 (p3 ++ q) with e4 | v4 <;> rw [h4] at h <;>
    dsimp only at h
  · cases h
  obtain ⟨ls3, s4⟩ := v4
  rcases parse_attrs_trunc ls2 p3 q ls3 s4 h4 with ⟨p4, hp4, hs4⟩ | ⟨e, he⟩
  swap
  · refine .inr ⟨e, ?_⟩
    rw [he]
  subst hs4
  rw [hp4]
  dsimp only
  have h' := Except.ok.inj h
  refine .inl ⟨p4, ?_, (congrArg Prod.snd h').symm⟩
  rw [show d = Document.add_layers ⟨[], [], some hd⟩ ls3 from
    (congrArg Prod.fst h').symm]

/-- Claim C8 as amended: decode never returns a Document from a truncated
stream.  If the parser accepts a stream `s`, leaving the trailing bytes `r`
unread, then every proper initial segment of `s` cut before the consumed
end — a stream that therefore ends before some fixed-width field of the run
(at the latest the final `ATTRS_END` marker) can be fully read — fails to
parse with some error.  The failure is not a dedicated truncation error:
`_read_as_int` itself returns short reads silently, and what eventually
surfaces is the generic `ord(b'')` `TypeError` at a marker read, a marker
mismatch, a chunk-dispatch error, or a scratch-index lookup failure. -/
theorem truncated_stream_amended (s p t : List Nat) (d : Document)
    (r : List Nat) (h : parse_run s = .ok (d, r)) (hp : p ++ t = s)
    (hlen : p.length + r.length < s.length) :
    ∃ e, parse p = .error e := by
  subst hp
  rcases parse_run_trunc p t d r h with ⟨r0, hr0, hr⟩ | ⟨e, he⟩
  · subst hr
    rw [List.length_append, List.length_append] at hlen
    omega
  · exact ⟨e, parse_of_run_error p e he⟩

/-- Witness for the amended C8: `oneLayerStream` parses with empty remainder;
`truncStream` cuts it two bytes into the 4-byte layer-count field, and parsing
the truncated stream fails. -/
theorem truncated_stream_amended_witness :
    parse_run oneLayerStream = .ok (oneLayerDoc, []) ∧
    truncStream ++ ([0, 1] ++ [LAYER_START, 76, SEPARATOR, 0, 0, 0, 2, LAYER_END] ++
      [LAYERS_END] ++ [RELATIONS_START, 0, 0, 0, 0, RELATIONS_END] ++
      [ATTRS_START, 0, 0, 0, 0, ATTRS_END]) = oneLayerStream ∧
    truncStream.length + List.length ([] : List Nat) < oneLayerStream.length ∧
    ∃ e, parse truncStream = .error e :=
  ⟨rfl, rfl, by decide,
    truncated_stream_amended oneLayerStream truncStream
      ([0, 1] ++ [LAYER_START, 76, SEPARATOR, 0, 0, 0, 2, LAYER_END] ++
        [LAYERS_END] ++ [RELATIONS_START, 0, 0, 0, 0, RELATIONS_END] ++
        [ATTRS_START, 0, 0, 0, 0, ATTRS_END]) oneLayerDoc [] rfl (by decide) (by decide)⟩

/-! ## Helper lemmas: attribute grouping -/

theorem assocSet_of_get_eq {α β : Type} [DecidableEq α]
    (m : List (α × β)) (k : α) (v : β) (h : assocGet m k = some v) :
    assocSet m k v = m := by
  induction m with
  | nil => simp [assocGet] at h
  | cons kv rest ih =>
    obtain ⟨k0, v0⟩ := kv
    by_cases hk : k = k0
    · subst hk
      simp [assocGet] at h
      simp [assocSet, h]
    · simp only [assocGet, if_neg hk] at h
      simp [assocSet, hk, ih h]

theorem assocSet_of_fresh {α β : Type} [DecidableEq α]
    (m : List (α × β)) (k : α) (v : β) (h : k ∉ m.map Prod.fst) :
    assocSet m k v = m ++ [(k, v)] := by
  induction m with
  | nil => simp [assocSet]
  | cons kv rest ih =>
    obtain ⟨k0, v0⟩ := kv
    have hne : ¬ k = k0 := fun he => h (by simp [he])
    have hrest : k ∉ rest.map Prod.fst := fun hm => h (by simp [hm])
    simp [assocSet, hne, ih hrest]

theorem assocSet_assocSet_same {α β : Type} [DecidableEq α]
    (m : List (α × β)) (k : α) (x y : β) :
    assocSet (assocSet m k x) k y = assocSet m k y := by
  induction m with
  | nil => simp [assocSet]
  | cons kv rest ih =>
    obtain ⟨k0, v0⟩ := kv
    by_cases hk : k = k0
    · subst hk
      simp [assocSet]
    · simp [assocSet, hk, ih]

theorem attrs_fold_lookup_not_mem (oid : Nat) (attrs : List (List Nat × List Nat))
    (inner : List (List Nat × List (Nat × List Nat))) (a : List Nat)
    (h : a ∉ attrs.map Prod.fst) :
    assocGet (attrs.foldl (attr_insert oid) inner) a = assocGet inner a := by
  induction attrs generalizing inner with
  | nil => rfl
  | cons kv rest ih =>
    have hne : ¬ a = kv.1 := fun he => h (by simp [he])
    have hrest : a ∉ rest.map Prod.fst := fun hm => h (by simp [hm])
    rw [List.foldl_cons, ih _ hrest]
    unfold attr_insert
    rw [assocGet_assocSet, if_neg hne]

theorem attrs_fold_run_keys (oid : Nat) (attrs : List (List Nat × List Nat))
    (inner : List (List Nat × List (Nat × List Nat))) (a : List Nat) (x : Nat)
    (hx : x ∈ ((assocGet (attrs.foldl (attr_insert oid) inner) a).getD []).map Prod.fst) :
    x ∈ ((assocGet inner a).getD []).map Prod.fst ∨ x = oid := by
  induction attrs generalizing inner with
  | nil => exact Or.inl hx
  | cons kv rest ih =>
    rw [List.foldl_cons] at hx
    rcases ih _ hx with h1 | h1
    · unfold attr_insert at h1
      rw [assocGet_assocSet] at h1
      by_cases he : a = kv.1
      · rw [if_pos he] at h1
        simp only [Option.getD_some] at h1
        rcases (assocSet_keys_mem _ oid x kv.2).mp h1 with h2 | h2
        · exact Or.inl (by rw [he]; exact h2)
        · exact Or.inr h2
      · rw [if_neg he] at h1
        exact Or.inl h1
    · exact Or.inr h1

theorem obj_attrs_fold_lookup (oid : Nat) (attrs : List (List Nat × List Nat))
    (inner : List (List Nat × List (Nat × List Nat))) (a : List Nat)
    (hfresh : ∀ key ∈ attrs.map Prod.fst,
      oid ∉ ((assocGet inner key).getD []).map Prod.fst)
    (hnd : (attrs.map Prod.fst).Nodup) :
    (assocGet (attrs.foldl (attr_insert oid) inner) a).getD [] =
      (assocGet inner a).getD [] ++
        (match assocGet attrs a with
         | some v => [(oid, v)]
         | none => []) := by
  induction attrs generalizing inner with
  | nil => simp [assocGet]
  | cons kv rest ih =>
    obtain ⟨k0, v0⟩ := kv
    rw [List.map_cons, List.nodup_cons] at hnd
    have hk0  : k0 ∉ rest.map Prod.fst := hnd.1
    have hndr : (rest.map Prod.fst).Nodup := hnd.2
    have hf0 : oid ∉ ((assocGet inner k0).getD []).map Prod.fst :=
      hfresh k0 (by simp)
    rw [List.foldl_cons]
    have hfr : ∀ key ∈ rest.map Prod.fst,
        oid ∉ ((assocGet (attr_insert oid inner (k0, v0)) key).getD []).map Prod.fst := by
      intro key hkey
      have hne : ¬ key = k0 := fun he => hk0 (he ▸ hkey)
      unfold attr_insert
      rw [assocGet_assocSet, if_neg hne]
      exact hfresh key (by simp [hkey])
    by_cases ha : a = k0
    · subst ha
      rw [attrs_fold_lookup_not_mem _ _ _ _ hk0]
      unfold attr_insert
      rw [assocGet_assocSet, if_pos rfl]
      rw [assocSet_of_fresh _ _ _ hf0]
      simp [assocGet]
    · have ihx := ih (attr_insert oid inner (k0, v0)) hfr hndr
      rw [show assocGet ((k0, v0) :: rest) a = assocGet rest a by
        simp [assocGet, ha]]
      rw [show (assocGet (attr_insert oid inner (k0, v0)) a).getD [] =
          (assocGet inner a).getD [] by
        unfold attr_insert
        rw [assocGet_assocSet, if_neg ha]] at ihx
      exact ihx

theorem objs_attrs_fold_lookup (objs : List LayerObject)
    (inner : List (List Nat × List (Nat × List Nat))) (a : List Nat)
    (hfresh : ∀ o ∈ objs, ∀ key : List Nat,
      o.id ∉ ((assocGet inner key).getD []).map Prod.fst)
    (hnd : (objs.map LayerObject.id).Nodup)
    (hak : ∀ o ∈ objs, (o.attrs.map Prod.fst).Nodup) :
    (assocGet (objs.foldl (fun inner o => o.attrs.foldl (attr_insert o.id) inner)
        inner) a).getD [] =
      (assocGet inner a).getD [] ++ vals_of objs a := by
  induction objs generalizing inner with
  | nil => simp [vals_of]
  | cons o rest ih =>
    rw [List.map_cons, List.nodup_cons] at hnd
    have hndr : (rest.map LayerObject.id).Nodup := hnd.2
    rw [List.foldl_cons]
    have hfr : ∀ o' ∈ rest, ∀ key : List Nat,
        o'.id ∉ ((assocGet (o.attrs.foldl (attr_insert o.id) inner) key).getD
          []).map Prod.fst := by
      intro o' ho' key hmem
      rcases attrs_fold_run_keys o.id o.attrs inner key o'.id hmem with h1 | h1
      · exact hfresh o' (by simp [ho']) key h1
      · exact hnd.1 (h1 ▸ List.mem_map_of_mem LayerObject.id ho')
    rw [ih _ hfr hndr (fun o' ho' => hak o' (by simp [ho']))]
    rw [obj_attrs_fold_lookup o.id o.attrs inner a
      (fun key _ => hfresh o (by simp) key) (hak o (by simp))]
    rw [List.append_assoc]
    congr 1
    show _ = vals_of (o :: rest) a
    unfold vals_of
    rw [List.filterMap_cons]
    rcases hv : assocGet o.attrs a with _ | v <;> simp [hv]

theorem layer_attrs_lookup (l : Layer) (a : List Nat)
    (hnd : (l.objects.map LayerObject.id).Nodup)
    (hak : ∀ o ∈ l.objects, (o.attrs.map Prod.fst).Nodup) :
    (assocGet (layer_attrs l) a).getD [] = vals_of l.objects a := by
  unfold layer_attrs
  rw [objs_attrs_fold_lookup l.objects [] a
    (fun o _ key => by simp [assocGet]) hnd hak]
  simp [assocGet]

theorem vals_of_length (objs : List LayerObject) (a : List Nat) :
    (vals_of objs a).length =
      (objs.filter (fun o => (assocGet o.attrs a).isSome)).length := by
  induction objs with
  | nil => rfl
  | cons o rest ih =>
    unfold vals_of at *
    rw [List.filterMap_cons, List.filter_cons]
    rcases hv : assocGet o.attrs a with _ | v <;> simp [hv, ih]

theorem prep_attrs_obj_fold_eq (lid oid : Nat) (attrs : List (List Nat × List Nat))
    (A : List (Nat × List (List Nat × List (Nat × List Nat))))
    (inner : List (List Nat × List (Nat × List Nat)))
    (h : assocGet A lid = some inner) :
    attrs.foldl (fun A kv =>
        let innr := (assocGet A lid).getD []
        let m := (assocGet innr kv.1).getD []
        assocSet A lid (assocSet innr kv.1 (assocSet m oid kv.2))) A =
      assocSet A lid (attrs.foldl (attr_insert oid) inner) := by
  induction attrs generalizing A inner with
  | nil => exact (assocSet_of_get_eq A lid inner h).symm
  | cons kv rest ih =>
    rw [List.foldl_cons, List.foldl_cons]
    have hA : assocGet A lid = some inner := h
    simp only [hA, Option.getD_some]
    have hstep : assocGet
        (assocSet A lid (attr_insert oid inner kv)) lid =
        some (attr_insert oid inner kv) := by
      rw [assocGet_assocSet, if_pos rfl]
    have := ih (assocSet A lid (attr_insert oid inner kv))
      (attr_insert oid inner kv) hstep
    unfold attr_insert at this ⊢
    rw [this, assocSet_assocSet_same]

theorem prep_attrs_objs_fold_eq (lid : Nat) (objs : List LayerObject)
    (A : List (Nat × List (List Nat × List (Nat × List Nat))))
    (inner : List (List Nat × List (Nat × List Nat)))
    (h : assocGet A lid = some inner) :
    objs.foldl (fun A o => o.attrs.foldl (fun A kv =>
        let innr := (assocGet A lid).getD []
        let m := (assocGet innr kv.1).getD []
        assocSet A lid (assocSet innr kv.1 (assocSet m o.id kv.2))) A) A =
      assocSet A lid (objs.foldl (fun inner o =>
        o.attrs.foldl (attr_insert o.id) inner) inner) := by
  induction objs generalizing A inner with
  | nil => exact (assocSet_of_get_eq A lid inner h).symm
  | cons o rest ih =>
    rw [List.foldl_cons, List.foldl_cons]
    rw [prep_attrs_obj_fold_eq lid o.id o.attrs A inner h]
    have hstep : assocGet
        (assocSet A lid (o.attrs.foldl (attr_insert o.id) inner)) lid =
        some (o.attrs.foldl (attr_insert o.id) inner) := by
      rw [assocGet_assocSet, if_pos rfl]
    rw [ih _ _ hstep, assocSet_assocSet_same]

theorem prepare_attrs_eq (d : Document) :
    prepare_attrs d = d.layers.foldl (fun acc l =>
      (assocSet acc.1 l.id (layer_attrs l), acc.2 + (layer_attrs l).length))
      ([], 0) := by
  unfold prepare_attrs
  congr 1
  funext acc l
  obtain ⟨A, cnt⟩ := acc
  have h1 : assocGet (assocSet A l.id
      ([] : List (List Nat × List (Nat × List Nat)))) l.id = some [] := by
    rw [assocGet_assocSet, if_pos rfl]
  show (let A1 := assocSet A l.id []
        let A2 := l.objects.foldl _ A1
        (A2, cnt + ((assocGet A2 l.id).getD []).length)) = _
  simp only
  rw [prep_attrs_objs_fold_eq l.id l.objects _ [] h1]
  rw [assocSet_assocSet_same]
  have h3 : List.foldl (fun inner o => List.foldl (attr_insert o.id) inner o.attrs)
      [] l.objects = layer_attrs l := rfl
  rw [h3]
  have h2 : assocGet (assocSet A l.id (layer_attrs l)) l.id =
      some (layer_attrs l) := by
    rw [assocGet_assocSet, if_pos rfl]
  rw [h2]
  rfl

theorem attrs_simple_fold_lookup_preserved (ls : List Layer)
    (A : List (Nat × List (List Nat × List (Nat × List Nat)))) (cnt : Nat)
    (lid : Nat) (h : lid ∉ ls.map Layer.id) :
    assocGet (ls.foldl (fun acc l =>
      (assocSet acc.1 l.id (layer_attrs l), acc.2 + (layer_attrs l).length))
      (A, cnt)).1 lid = assocGet A lid := by
  induction ls generalizing A cnt with
  | nil => rfl
  | cons l rest ih =>
    have hne : ¬ lid = l.id := fun he => h (by simp [he])
    have hrest : lid ∉ rest.map Layer.id := fun hm => h (by simp [hm])
    rw [List.foldl_cons, ih _ _ hrest, assocGet_assocSet, if_neg hne]

theorem attrs_simple_fold_lookup (ls : List Layer)
    (A : List (Nat × List (List Nat × List (Nat × List Nat)))) (cnt : Nat)
    (l : Layer) (hmem : l ∈ ls) (hnd : (ls.map Layer.id).Nodup) :
    assocGet (ls.foldl (fun acc l =>
      (assocSet acc.1 l.id (layer_attrs l), acc.2 + (layer_attrs l).length))
      (A, cnt)).1 l.id = some (layer_attrs l) := by
  induction ls generalizing A cnt with
  | nil => cases hmem
  | cons l' rest ih =>
    rw [List.map_cons, List.nodup_cons] at hnd
    rcases List.mem_cons.mp hmem with h1 | h1
    · subst h1
      rw [List.foldl_cons]
      have hni : l.id ∉ rest.map Layer.id := hnd.1
      rw [attrs_simple_fold_lookup_preserved rest _ _ l.id hni]
      rw [assocGet_assocSet, if_pos rfl]
    · rw [List.foldl_cons]
      exact ih _ _ h1 hnd.2

theorem prepare_attrs_lookup (d : Document) (l : Layer)
    (hmem : l ∈ d.layers) (hnd : (d.layers.map Layer.id).Nodup) :
    assocGet (prepare_attrs d).1 l.id = some (layer_attrs l) := by
  rw [prepare_attrs_eq]
  exact attrs_simple_fold_lookup d.layers [] 0 l hmem hnd

/-- Claim C2: for every `(layer, attribute)` chunk, the `k` the writer feeds
into the overhead comparison — the size of the prepared `{obj_id → value}`
dict — equals the number of objects of the layer carrying the attribute, and
the writer's guard `_linked_chunk_overhead(k) < _full_chunk_overhead(N)`
holds exactly when `k * (4 + 1) < N * 1`; otherwise (ties included) the full
layout is chosen. -/
theorem chunk_selection_heuristic (d : Document) (l : Layer) (a : List Nat)
    (hmem : l ∈ d.layers) (hnd : (d.layers.map Layer.id).Nodup)
    (hobj : (l.objects.map LayerObject.id).Nodup)
    (hak : ∀ o ∈ l.objects, (o.attrs.map Prod.fst).Nodup) :
    ∃ inner, assocGet (prepare_attrs d).1 l.id = some inner ∧
      ((assocGet inner a).getD []).length = carriers_count l a ∧
      (linked_chunk_overhead ((assocGet inner a).getD []).length <
          full_chunk_overhead l.objects.length ↔
        carriers_count l a * (4 + 1) < l.objects.length * 1) := by
  refine ⟨layer_attrs l, prepare_attrs_lookup d l hmem hnd, ?_, ?_⟩
  · rw [layer_attrs_lookup l a hobj hak, vals_of_length]
    rfl
  · rw [layer_attrs_lookup l a hobj hak, vals_of_length]
    unfold linked_chunk_overhead full_chunk_overhead carriers_count
    omega

/-- Witness for C2 on `sparseTagDoc`: one layer of six objects, one carrier
of `key1`, so `k = 1`, `N = 6` and the linked layout wins (`5 < 6`). -/
theorem chunk_selection_heuristic_witness :
    ∃ inner,
      assocGet (prepare_attrs sparseTagDoc).1 sparseLayer.id = some inner ∧
      ((assocGet inner [107, 101, 121, 49]).getD []).length =
        carriers_count sparseLayer [107, 101, 121, 49] ∧
      (linked_chunk_overhead
          ((assocGet inner [107, 101, 121, 49]).getD []).length <
          full_chunk_overhead sparseLayer.objects.length ↔
        carriers_count sparseLayer [107, 101, 121, 49] * (4 + 1) <
          sparseLayer.objects.length * 1) :=
  chunk_selection_heuristic sparseTagDoc sparseLayer
    [107, 101, 121, 49] (by decide) (by decide) (by decide)
    (fun o ho => by revert o ho; decide)

/-! ## Helper lemmas: writer success and failure -/

theorem wjoin_map_ok {α : Type} (xs : List α) (f : α → Except WErr (List Nat))
    (g : α → List Nat) (h : ∀ x ∈ xs, f x = .ok (g x)) :
    wjoin (xs.map f) = .ok ((xs.map g).flatten) := by
  induction xs with
  | nil => rfl
  | cons x rest ih =>
    rw [List.map_cons, List.map_cons, List.flatten_cons]
    unfold wjoin
    rw [h x (by simp), ih (fun x hx => h x (by simp [hx]))]
    rfl

theorem wjoin_error_attr (xs : List (Except WErr (List Nat)))
    (hall : ∀ x ∈ xs, x = Except.error WErr.attributeError ∨ ∃ bs, x = .ok bs)
    (hsome : ∃ x ∈ xs, x = Except.error WErr.attributeError) :
    wjoin xs = .error .attributeError := by
  induction xs with
  | nil => obtain ⟨x, hx, _⟩ := hsome; cases hx
  | cons x rest ih =>
    rcases hall x (by simp) with h1 | ⟨bs, h1⟩
    · rw [h1]; rfl
    · subst h1
      obtain ⟨y, hy, hye⟩ := hsome
      rcases List.mem_cons.mp hy with h2 | h2
      · cases h2 ▸ hye
      · have := ih (fun z hz => hall z (by simp [hz])) ⟨y, h2, hye⟩
        unfold wjoin
        rw [this]
        rfl

theorem write_int_ok (n : Nat) (h : n < 4294967296) :
    write_int n = .ok (int_to_bytes n) := by
  unfold write_int
  rw [if_pos h]

theorem write_layer_eq (l : Layer) (h : l.objects.length < 4294967296) :
    write_layer l = .ok (layer_bytes l) := by
  unfold write_layer layer_bytes
  rw [write_int_ok _ h]
  rfl

theorem write_layers_eq (d : Document)
    (h1 : d.layers.length < 4294967296)
    (h2 : ∀ l ∈ d.layers, l.objects.length < 4294967296) :
    write_layers d = .ok ([LAYERS_START] ++ int_to_bytes d.layers.length ++
      (d.layers.map layer_bytes).flatten ++ [LAYERS_END]) := by
  unfold write_layers
  rw [write_int_ok _ h1,
    wjoin_map_ok d.layers write_layer layer_bytes
      (fun l hl => write_layer_eq l (h2 l hl))]
  rfl

theorem write_relation_group_eq (p c : Nat) (tups : List (Nat × Nat))
    (hp : p < 4294967296) (hc : c < 4294967296)
    (hn : tups.length < 4294967296)
    (hall : ∀ t ∈ tups, t.1 < 4294967296 ∧ t.2 < 4294967296) :
    write_relation_group p c tups = .ok (group_bytes p c tups) := by
  unfold write_relation_group group_bytes
  rw [write_int_ok _ hp, write_int_ok _ hc, write_int_ok _ hn]
  rw [wjoin_map_ok tups _ (fun t => int_to_bytes t.1 ++ int_to_bytes t.2)
    (fun t ht => by
      rw [write_int_ok _ (hall t ht).1, write_int_ok _ (hall t ht).2]
      rfl)]
  rfl

theorem write_relations_eq (d : Document)
    (h1 : num_relations d < 4294967296)
    (h2 : ∀ pr ∈ prepare_relations d, pr.1 < 4294967296 ∧
      ∀ ct ∈ pr.2, ct.1 < 4294967296 ∧ ct.2.length < 4294967296 ∧
        ∀ t ∈ ct.2, t.1 < 4294967296 ∧ t.2 < 4294967296) :
    write_relations d = .ok ([RELATIONS_START] ++
      int_to_bytes (num_relations d) ++
      ((prepare_relations d).map (fun pr =>
        (pr.2.map (fun ct => group_bytes pr.1 ct.1 ct.2)).flatten)).flatten ++
      [RELATIONS_END]) := by
  unfold write_relations
  rw [write_int_ok _ h1]
  rw [wjoin_map_ok (prepare_relations d) _
    (fun pr => (pr.2.map (fun ct => group_bytes pr.1 ct.1 ct.2)).flatten)
    (fun pr hpr => by
      exact wjoin_map_ok pr.2 _ (fun ct => group_bytes pr.1 ct.1 ct.2)
        (fun ct hct => write_relation_group_eq pr.1 ct.1 ct.2
          (h2 pr hpr).1 ((h2 pr hpr).2 ct hct).1 ((h2 pr hpr).2 ct hct).2.1
          ((h2 pr hpr).2 ct hct).2.2))]
  rfl

theorem write_full_chunk_eq (d : Document) (lid : Nat) (name : List Nat)
    (vals : List (Nat × List Nat)) (l : Layer)
    (hlid : lid < 4294967296) (hl : d.get_layer_by_id lid = some l) :
    write_full_chunk d lid name vals =
      .ok (full_chunk_bytes lid name vals l.objects) := by
  unfold write_full_chunk full_chunk_bytes
  rw [write_int_ok _ hlid]
  show (match d.get_layer_by_id lid with
    | none => Except.error (WErr.keyError lid)
    | some l => _) = _
  rw [hl]
  rfl

theorem write_linked_chunk_err (lid : Nat) (name : List Nat)
    (vals : List (Nat × List Nat)) (hlid : lid < 4294967296)
    (hids : ∀ e ∈ vals, e.1 < 4294967296) :
    write_linked_chunk lid name vals = .error .attributeError := by
  unfold write_linked_chunk
  rw [write_int_ok _ hlid]
  rw [wjoin_map_ok vals _
    (fun e => int_to_bytes e.1 ++ write_string e.2 ++ write_flag SEPARATOR)
    (fun e he => by rw [write_int_ok _ (hids e he)]; rfl)]
  rfl

theorem wjoin_ok_of_all (xs : List (Except WErr (List Nat)))
    (h : ∀ x ∈ xs, ∃ bs, x = .ok bs) : ∃ bs, wjoin xs = .ok bs := by
  induction xs with
  | nil => exact ⟨[], rfl⟩
  | cons x rest ih =>
    obtain ⟨b1, hb1⟩ := h x (by simp)
    obtain ⟨b2, hb2⟩ := ih (fun y hy => h y (by simp [hy]))
    refine ⟨b1 ++ b2, ?_⟩
    unfold wjoin
    rw [hb1, hb2]
    rfl

theorem write_attrs_err_of_linked (d : Document)
    (hcnt : (prepare_attrs d).2 < 4294967296)
    (hchunks : ∀ la ∈ (prepare_attrs d).1, la.1 < 4294967296 ∧
      (∃ l, d.get_layer_by_id la.1 = some l) ∧
      ∀ av ∈ la.2, ∀ e ∈ av.2, e.1 < 4294967296)
    (hlinked : ∃ la ∈ (prepare_attrs d).1, ∃ av ∈ la.2, ∃ l,
      d.get_layer_by_id la.1 = some l ∧
      linked_chunk_overhead av.2.length < full_chunk_overhead l.objects.length) :
    write_attrs d = .error .attributeError := by
  unfold write_attrs
  rw [write_int_ok _ hcnt]
  have hbody : wjoin ((prepare_attrs d).1.map (fun la =>
      wjoin (la.2.map (fun av =>
        match d.get_layer_by_id la.1 with
        | none => .error (.keyError la.1)
        | some l =>
          if linked_chunk_overhead av.2.length <
              full_chunk_overhead l.objects.length
          then write_linked_chunk la.1 av.1 av.2
          else write_full_chunk d la.1 av.1 av.2)))) =
      .error .attributeError := by
    apply wjoin_error_attr
    · intro x hx
      obtain ⟨la, hla, hlaeq⟩ := List.mem_map.mp hx
      obtain ⟨hb1, ⟨l, hl⟩, hb3⟩ := hchunks la hla
      subst hlaeq
      by_cases hany : ∃ av ∈ la.2, linked_chunk_overhead av.2.length <
          full_chunk_overhead l.objects.length
      · left
        apply wjoin_error_attr
        · intro y hy
          obtain ⟨av, hav, haveq⟩ := List.mem_map.mp hy
          subst haveq
          simp only [hl]
          by_cases hg : linked_chunk_overhead av.2.length <
              full_chunk_overhead l.objects.length
          · rw [if_pos hg]
            exact Or.inl (write_linked_chunk_err la.1 av.1 av.2 hb1
              (fun e he => hb3 av hav e he))
          · rw [if_neg hg]
            exact Or.inr ⟨_, write_full_chunk_eq d la.1 av.1 av.2 l hb1 hl⟩
        · obtain ⟨av, hav, hg⟩ := hany
          refine ⟨_, List.mem_map_of_mem _ hav, ?_⟩
          simp only [hl, if_pos hg]
          exact write_linked_chunk_err la.1 av.1 av.2 hb1
            (fun e he => hb3 av hav e he)
      · right
        apply wjoin_ok_of_all
        intro y hy
        obtain ⟨av, hav, haveq⟩ := List.mem_map.mp hy
        subst haveq
        simp only [hl]
        have hg : ¬ linked_chunk_overhead av.2.length <
            full_chunk_overhead l.objects.length := fun hg => hany ⟨av, hav, hg⟩
        rw [if_neg hg]
        exact ⟨_, write_full_chunk_eq d la.1 av.1 av.2 l hb1 hl⟩
    · obtain ⟨la, hla, av, hav, l, hl, hg⟩ := hlinked
      refine ⟨_, List.mem_map_of_mem _ hla, ?_⟩
      apply wjoin_error_attr
      · intro y hy
        obtain ⟨av', hav', haveq⟩ := List.mem_map.mp hy
        subst haveq
        simp only [hl]
        obtain ⟨hb1, _, hb3⟩ := hchunks la hla
        by_cases hg' : linked_chunk_overhead av'.2.length <
            full_chunk_overhead l.objects.length
        · rw [if_pos hg']
          exact Or.inl (write_linked_chunk_err la.1 av'.1 av'.2 hb1
            (fun e he => hb3 av' hav' e he))
        · rw [if_neg hg']
          exact Or.inr ⟨_, write_full_chunk_eq d la.1 av'.1 av'.2 l hb1 hl⟩
      · refine ⟨_, List.mem_map_of_mem _ hav, ?_⟩
        simp only [hl, if_pos hg]
        obtain ⟨hb1, _, hb3⟩ := hchunks la hla
        exact write_linked_chunk_err la.1 av.1 av.2 hb1
          (fun e he => hb3 av hav e he)
  simp only [hbody]
  rfl

/-- Claim C3: whenever the heuristic selects the linked layout for at least
one attribute chunk (and the writer reaches the attrs section without an
unrelated overflow or missing-key failure), encode does not complete:
`_write_linked_chunk` ends by calling the nonexistent method `self._write`,
so `_Writer.write` raises `AttributeError` and only the full-chunk path can
run end-to-end. -/
theorem linked_chunk_encode_fails (d : Document)
    (hok : writer_ok d = true) (hlc : has_linked_chunk d = true) :
    write_document d = .error .attributeError := by
  simp only [writer_ok, Bool.and_eq_true, List.all_eq_true, decide_eq_true_eq,
    Option.isSome_iff_exists] at hok
  have h1 := hok.1.1.1.1.1.1
  have h2 := hok.1.1.1.1.1.2
  have h3 := hok.1.1.1.1.2
  have h4 := hok.1.1.1.2
  have h5 := hok.1.1.2
  have h6 := hok.1.2
  have h7 := hok.2
  simp only [has_linked_chunk, List.any_eq_true] at hlc
  obtain ⟨h, hh⟩ := h1
  have hattrs : write_attrs d = .error .attributeError := by
    apply write_attrs_err_of_linked d h6
    · intro la hla
      exact ⟨(h7 la hla).1.1, (h7 la hla).1.2,
        fun av hav e he => (h7 la hla).2 av hav e he⟩
    · obtain ⟨la, hla, av, hav, hmatch⟩ := hlc
      obtain ⟨l, hl⟩ := (h7 la hla).1.2
      refine ⟨la, hla, av, hav, l, hl, ?_⟩
      rw [hl] at hmatch
      simpa using hmatch
  have hlys := write_layers_eq d h2 h3
  have hrels := write_relations_eq d h4 (fun pr hpr =>
    ⟨(h5 pr hpr).1, fun ct hct => ⟨((h5 pr hpr).2 ct hct).1.1,
      ((h5 pr hpr).2 ct hct).1.2, fun t ht => ((h5 pr hpr).2 ct hct).2 t ht⟩⟩)
  unfold write_document
  simp only [hh, hlys, hrels, hattrs]
  rfl

/-- Witness for C3 on `sparseTagDoc` (six objects, one `key1` carrier, so
`5·1 < 6` picks linked): encode fails with the `AttributeError`. -/
theorem linked_chunk_encode_fails_witness :
    write_document sparseTagDoc = .error .attributeError :=
  linked_chunk_encode_fails sparseTagDoc (by decide) (by decide)

/-! ## Helper lemmas: relation grouping -/

theorem assocGet_mem {α β : Type} [DecidableEq α]
    (m : List (α × β)) (k : α) (v : β) (h : assocGet m k = some v) :
    (k, v) ∈ m := by
  induction m with
  | nil => cases h
  | cons kv rest ih =>
    obtain ⟨k0, v0⟩ := kv
    by_cases hk : k = k0
    · subst hk
      simp [assocGet] at h
      simp [h]
    · simp only [assocGet, if_neg hk] at h
      simp [ih h]

theorem assocSet_mem {α β : Type} [DecidableEq α]
    (m : List (α × β)) (k : α) (v : β) (pr : α × β)
    (h : pr ∈ assocSet m k v) : pr ∈ m ∨ pr = (k, v) := by
  induction m with
  | nil => simpa [assocSet] using h
  | cons kv rest ih =>
    obtain ⟨k0, v0⟩ := kv
    by_cases hk : k = k0
    · subst hk
      simp [assocSet] at h
      rcases h with h | h
      · exact Or.inr (by simp [h])
      · exact Or.inl (by simp [h])
    · simp [assocSet, hk] at h
      rcases h with h | h
      · exact Or.inl (by simp [h])
      · rcases ih h with h1 | h1
        · exact Or.inl (by simp [h1])
        · exact Or.inr h1

theorem assocSet_keys_of_mem {α β : Type} [DecidableEq α]
    (m : List (α × β)) (k : α) (v : β) (h : k ∈ m.map Prod.fst) :
    (assocSet m k v).map Prod.fst = m.map Prod.fst := by
  induction m with
  | nil => cases h
  | cons kv rest ih =>
    obtain ⟨k0, v0⟩ := kv
    by_cases hk : k = k0
    · subst hk
      simp [assocSet]
    · have hrest : k ∈ rest.map Prod.fst := by
        rcases List.mem_cons.mp h with h1 | h1
        · exact absurd h1 hk
        · exact h1
      simp [assocSet, hk, ih hrest]

theorem assocSet_keys_nodup {α β : Type} [DecidableEq α]
    (m : List (α × β)) (k : α) (v : β) (h : (m.map Prod.fst).Nodup) :
    ((assocSet m k v).map Prod.fst).Nodup := by
  by_cases hk : k ∈ m.map Prod.fst
  · rw [assocSet_keys_of_mem m k v hk]
    exact h
  · rw [assocSet_keys_of_fresh m k v hk]
    exact List.Nodup.append h (List.nodup_singleton k)
      (by intro a ha hb; simp at hb; exact hk (hb ▸ ha))

theorem mem_entry_pairs (k p' c' : Nat) (inner : List (Nat × List (Nat × Nat))) :
    (p', c') ∈ inner.map (fun ct => (k, ct.1)) ↔
      p' = k ∧ c' ∈ inner.map Prod.fst := by
  constructor
  · intro h
    obtain ⟨ct, hct, hcteq⟩ := List.mem_map.mp h
    obtain ⟨h1, h2⟩ := Prod.mk.injEq .. ▸ hcteq
    exact ⟨h1.symm, h2 ▸ List.mem_map_of_mem Prod.fst hct⟩
  · rintro ⟨h1, h2⟩
    obtain ⟨ct, hct, hcteq⟩ := List.mem_map.mp h2
    subst h1
    exact List.mem_map.mpr ⟨ct, hct, by rw [hcteq]⟩

theorem nested_append_cons_eq (k0 p c : Nat)
    (inner0 : List (Nat × List (Nat × Nat)))
    (rest : List (Nat × List (Nat × List (Nat × Nat)))) (e : Nat × Nat)
    (hp : ¬ p = k0) :
    nested_append ((k0, inner0) :: rest) p c e =
      (k0, inner0) :: nested_append rest p c e := by
  unfold nested_append
  simp [assocGet, assocSet, hp]

theorem nested_append_head_eq (p c : Nat)
    (inner0 : List (Nat × List (Nat × Nat)))
    (rest : List (Nat × List (Nat × List (Nat × Nat)))) (e : Nat × Nat) :
    nested_append ((p, inner0) :: rest) p c e =
      (p, assocSet inner0 c (((assocGet inner0 c).getD []) ++ [e])) :: rest := by
  unfold nested_append
  simp [assocGet, assocSet]

/-- The `(parent, child)` key pairs after one `nested_append`. -/
theorem pairs_nested_append (M : List (Nat × List (Nat × List (Nat × Nat))))
    (p c : Nat) (e : Nat × Nat) (p' c' : Nat) :
    ((p', c') ∈ ((nested_append M p c e).map (fun pr =>
        pr.2.map (fun ct => (pr.1, ct.1)))).flatten) ↔
      ((p', c') ∈ (M.map (fun pr =>
        pr.2.map (fun ct => (pr.1, ct.1)))).flatten ∨ (p' = p ∧ c' = c)) := by
  induction M with
  | nil =>
    simp [nested_append, assocGet, assocSet, mem_entry_pairs]
  | cons pr0 rest ih =>
    obtain ⟨k0, inner0⟩ := pr0
    by_cases hp : p = k0
    · subst hp
      rw [nested_append_head_eq]
      simp only [List.map_cons, List.flatten_cons, List.mem_append,
        mem_entry_pairs]
      constructor
      · rintro (⟨h1, h2⟩ | h)
        · rcases (assocSet_keys_mem _ _ c' _).mp h2 with h3 | h3
          · exact Or.inl (Or.inl ⟨h1, h3⟩)
          · exact Or.inr ⟨h1, h3⟩
        · exact Or.inl (Or.inr h)
      · rintro ((⟨h1, h2⟩ | h) | ⟨h1, h2⟩)
        · exact Or.inl ⟨h1, (assocSet_keys_mem _ _ c' _).mpr (Or.inl h2)⟩
        · exact Or.inr h
        · exact Or.inl ⟨h1, (assocSet_keys_mem _ _ c' _).mpr (Or.inr h2)⟩
    · rw [nested_append_cons_eq k0 p c inner0 rest e hp]
      simp only [List.map_cons, List.flatten_cons, List.mem_append, ih]
      tauto

theorem mem_pairs_iff (M : List (Nat × List (Nat × List (Nat × Nat))))
    (p' c' : Nat) :
    (p', c') ∈ (M.map (fun pr => pr.2.map (fun ct => (pr.1, ct.1)))).flatten ↔
      ∃ pr ∈ M, p' = pr.1 ∧ c' ∈ pr.2.map Prod.fst := by
  rw [List.mem_flatten]
  constructor
  · rintro ⟨l, hl, hmem⟩
    obtain ⟨pr, hpr, hpreq⟩ := List.mem_map.mp hl
    subst hpreq
    obtain ⟨h1, h2⟩ := (mem_entry_pairs pr.1 p' c' pr.2).mp hmem
    exact ⟨pr, hpr, h1, h2⟩
  · rintro ⟨pr, hpr, h1, h2⟩
    exact ⟨pr.2.map (fun ct => (pr.1, ct.1)), List.mem_map_of_mem _ hpr,
      (mem_entry_pairs pr.1 p' c' pr.2).mpr ⟨h1, h2⟩⟩

theorem nested_append_invariants (M : List (Nat × List (Nat × List (Nat × Nat))))
    (p c : Nat) (e : Nat × Nat)
    (h1 : (M.map Prod.fst).Nodup)
    (h2 : ∀ pr ∈ M, (pr.2.map Prod.fst).Nodup)
    (h3 : ∀ pr ∈ M, ∀ ct ∈ pr.2, ct.2 ≠ []) :
    ((nested_append M p c e).map Prod.fst).Nodup ∧
    (∀ pr ∈ nested_append M p c e, (pr.2.map Prod.fst).Nodup) ∧
    (∀ pr ∈ nested_append M p c e, ∀ ct ∈ pr.2, ct.2 ≠ []) := by
  have hinner : ((assocGet M p).getD [] |>.map Prod.fst).Nodup := by
    rcases hg : assocGet M p with _ | i
    · simp
    · simpa using h2 (p, i) (assocGet_mem M p i hg)
  have hinner3 : ∀ ct ∈ (assocGet M p).getD [], ct.2 ≠ [] := by
    rcases hg : assocGet M p with _ | i
    · simp
    · simpa using h3 (p, i) (assocGet_mem M p i hg)
  refine ⟨assocSet_keys_nodup M p _ h1, ?_, ?_⟩
  · intro pr hpr
    rcases assocSet_mem _ _ _ _ hpr with h | h
    · exact h2 pr h
    · subst h
      exact assocSet_keys_nodup _ c _ hinner
  · intro pr hpr ct hct
    rcases assocSet_mem _ _ _ _ hpr with h | h
    · exact h3 pr h ct hct
    · subst h
      simp only at hct
      rcases assocSet_mem _ _ _ _ hct with h | h
      · exact hinner3 ct h
      · subst h
        simp

theorem children_fold_invariants (pl oid : Nat) (cs : List (Nat × Nat))
    (M : List (Nat × List (Nat × List (Nat × Nat))))
    (h1 : (M.map Prod.fst).Nodup)
    (h2 : ∀ pr ∈ M, (pr.2.map Prod.fst).Nodup)
    (h3 : ∀ pr ∈ M, ∀ ct ∈ pr.2, ct.2 ≠ []) :
    (((cs.foldl (fun M c => nested_append M pl c.1 (oid, c.2)) M).map
      Prod.fst).Nodup) ∧
    (∀ pr ∈ cs.foldl (fun M c => nested_append M pl c.1 (oid, c.2)) M,
      (pr.2.map Prod.fst).Nodup) ∧
    (∀ pr ∈ cs.foldl (fun M c => nested_append M pl c.1 (oid, c.2)) M,
      ∀ ct ∈ pr.2, ct.2 ≠ []) := by
  induction cs generalizing M with
  | nil => exact ⟨h1, h2, h3⟩
  | cons ch rest ih =>
    rw [List.foldl_cons]
    obtain ⟨g1, g2, g3⟩ := nested_append_invariants M pl ch.1 (oid, ch.2) h1 h2 h3
    exact ih _ g1 g2 g3

theorem objs_fold_invariants (os : List LayerObject)
    (M : List (Nat × List (Nat × List (Nat × Nat))))
    (h1 : (M.map Prod.fst).Nodup)
    (h2 : ∀ pr ∈ M, (pr.2.map Prod.fst).Nodup)
    (h3 : ∀ pr ∈ M, ∀ ct ∈ pr.2, ct.2 ≠ []) :
    (((os.foldl (fun M o => o.children.foldl
        (fun M c => nested_append M o.layer c.1 (o.id, c.2)) M) M).map
      Prod.fst).Nodup) ∧
    (∀ pr ∈ os.foldl (fun M o => o.children.foldl
        (fun M c => nested_append M o.layer c.1 (o.id, c.2)) M) M,
      (pr.2.map Prod.fst).Nodup) ∧
    (∀ pr ∈ os.foldl (fun M o => o.children.foldl
        (fun M c => nested_append M o.layer c.1 (o.id, c.2)) M) M,
      ∀ ct ∈ pr.2, ct.2 ≠ []) := by
  induction os generalizing M with
  | nil => exact ⟨h1, h2, h3⟩
  | cons o rest ih =>
    rw [List.foldl_cons]
    obtain ⟨g1, g2, g3⟩ :=
      children_fold_invariants o.layer o.id o.children M h1 h2 h3
    exact ih _ g1 g2 g3

theorem prepare_relations_invariants (d : Document) :
    (((prepare_relations d).map Prod.fst).Nodup) ∧
    (∀ pr ∈ prepare_relations d, (pr.2.map Prod.fst).Nodup) ∧
    (∀ pr ∈ prepare_relations d, ∀ ct ∈ pr.2, ct.2 ≠ []) := by
  unfold prepare_relations
  exact objs_fold_invariants d.get_all_objects [] (by simp) (by simp) (by simp)

theorem pairs_children_fold (pl oid : Nat) (cs : List (Nat × Nat))
    (M : List (Nat × List (Nat × List (Nat × Nat)))) (p' c' : Nat) :
    ((p', c') ∈ ((cs.foldl (fun M c => nested_append M pl c.1 (oid, c.2)) M).map
        (fun pr => pr.2.map (fun ct => (pr.1, ct.1)))).flatten) ↔
      ((p', c') ∈ (M.map (fun pr =>
        pr.2.map (fun ct => (pr.1, ct.1)))).flatten ∨
        (p' = pl ∧ ∃ ch ∈ cs, ch.1 = c')) := by
  induction cs generalizing M with
  | nil => simp
  | cons ch rest ih =>
    rw [List.foldl_cons, ih, pairs_nested_append]
    constructor
    · rintro ((h | ⟨h1, h2⟩) | ⟨h1, h2⟩)
      · exact Or.inl h
      · exact Or.inr ⟨h1, ch, by simp [h2]⟩
      · exact Or.inr ⟨h1, by
          obtain ⟨x, hx, hxe⟩ := h2
          exact ⟨x, by simp [hx], hxe⟩⟩
    · rintro (h | ⟨h1, ⟨x, hx, hxe⟩⟩)
      · exact Or.inl (Or.inl h)
      · rcases List.mem_cons.mp hx with h2 | h2
        · exact Or.inl (Or.inr ⟨h1, (h2 ▸ hxe).symm⟩)
        · exact Or.inr ⟨h1, x, h2, hxe⟩

theorem pairs_objs_fold (os : List LayerObject)
    (M : List (Nat × List (Nat × List (Nat × Nat)))) (p' c' : Nat) :
    ((p', c') ∈ ((os.foldl (fun M o => o.children.foldl
        (fun M c => nested_append M o.layer c.1 (o.id, c.2)) M) M).map
        (fun pr => pr.2.map (fun ct => (pr.1, ct.1)))).flatten) ↔
      ((p', c') ∈ (M.map (fun pr =>
        pr.2.map (fun ct => (pr.1, ct.1)))).flatten ∨
        ∃ o ∈ os, o.layer = p' ∧ ∃ ch ∈ o.children, ch.1 = c') := by
  induction os generalizing M with
  | nil => simp
  | cons o rest ih =>
    rw [List.foldl_cons, ih, pairs_children_fold]
    constructor
    · rintro ((h | ⟨h1, h2⟩) | ⟨x, hx, hxe⟩)
      · exact Or.inl h
      · exact Or.inr ⟨o, by simp, h1.symm, h2⟩
      · exact Or.inr ⟨x, by simp [hx], hxe⟩
    · rintro (h | ⟨x, hx, hx1, hx2⟩)
      · exact Or.inl (Or.inl h)
      · rcases List.mem_cons.mp hx with h2 | h2
        · subst h2
          exact Or.inl (Or.inr ⟨hx1.symm, hx2⟩)
        · exact Or.inr ⟨x, h2, hx1, hx2⟩

theorem num_relations_foldl (M : List (Nat × List (Nat × List (Nat × Nat))))
    (n : Nat) :
    M.foldl (fun acc pr => acc + pr.2.length) n =
      n + ((M.map (fun pr => pr.2.map (fun ct => (pr.1, ct.1)))).flatten).length := by
  induction M generalizing n with
  | nil => simp
  | cons pr rest ih =>
    rw [List.foldl_cons, ih]
    simp
    omega

theorem rel_pairs_nodup (M : List (Nat × List (Nat × List (Nat × Nat))))
    (h1 : (M.map Prod.fst).Nodup)
    (h2 : ∀ pr ∈ M, (pr.2.map Prod.fst).Nodup) :
    ((M.map (fun pr => pr.2.map (fun ct => (pr.1, ct.1)))).flatten).Nodup := by
  induction M with
  | nil => simp
  | cons pr rest ih =>
    rw [List.map_cons, List.flatten_cons]
    rw [List.map_cons, List.nodup_cons] at h1
    apply List.Nodup.append
    · have : pr.2.map (fun ct => (pr.1, ct.1)) =
          (pr.2.map Prod.fst).map (fun c => (pr.1, c)) := by
        rw [List.map_map]
        rfl
      rw [this]
      exact (h2 pr (by simp)).map (fun a b hab => by
        simpa using hab)
    · exact ih h1.2 (fun pr' hpr' => h2 pr' (by simp [hpr']))
    · intro a ha hb
      obtain ⟨p', c'⟩ := a
      obtain ⟨hp1, _⟩ := (mem_entry_pairs pr.1 p' c' pr.2).mp ha
      obtain ⟨pr', hpr', hp2, _⟩ := (mem_pairs_iff rest p' c').mp hb
      exact h1.1 (hp1 ▸ hp2 ▸ List.mem_map_of_mem Prod.fst hpr')

theorem edge_exists_iff (d : Document) (p c : Nat) :
    edge_exists d p c = true ↔
      ∃ o ∈ d.get_all_objects, o.layer = p ∧ ∃ ch ∈ o.children, ch.1 = c := by
  unfold edge_exists
  simp [List.any_eq_true]

/-- Claim C6: the relations section is `RELATIONS_START`, the u32 group
count, one group per `(parent_layer, child_layer)` key of the grouping map,
and `RELATIONS_END`; the group count equals the number of `(P, C)` pairs
with at least one edge (the key pairs are duplicate-free and each key pair
appears exactly when an edge exists); every group is nonempty, and within
each group the encoded `pair_count` is `tups.length`, followed by exactly
`tups.length` `(u32, u32)` id pairs (the shape of `group_bytes`). -/
theorem relations_section (d : Document)
    (h1 : num_relations d < 4294967296)
    (h2 : ∀ pr ∈ prepare_relations d, pr.1 < 4294967296 ∧
      ∀ ct ∈ pr.2, ct.1 < 4294967296 ∧ ct.2.length < 4294967296 ∧
        ∀ t ∈ ct.2, t.1 < 4294967296 ∧ t.2 < 4294967296) :
    write_relations d = .ok ([RELATIONS_START] ++
      int_to_bytes (num_relations d) ++
      ((prepare_relations d).map (fun pr =>
        (pr.2.map (fun ct => group_bytes pr.1 ct.1 ct.2)).flatten)).flatten ++
      [RELATIONS_END]) ∧
    num_relations d = (rel_key_pairs d).length ∧
    (rel_key_pairs d).Nodup ∧
    (∀ p c : Nat, (p, c) ∈ rel_key_pairs d ↔ edge_exists d p c = true) ∧
    (∀ pr ∈ prepare_relations d, ∀ ct ∈ pr.2, ct.2 ≠ []) ∧
    (∀ p c : Nat, ∀ tups : List (Nat × Nat), group_bytes p c tups =
      [RELATION_START] ++ int_to_bytes p ++ int_to_bytes c ++
        int_to_bytes tups.length ++
        (tups.map (fun t => int_to_bytes t.1 ++ int_to_bytes t.2)).flatten ++
        [RELATION_END] ∧
      (tups.map (fun t => int_to_bytes t.1 ++ int_to_bytes t.2)).length =
        tups.length) := by
  obtain ⟨g1, g2, g3⟩ := prepare_relations_invariants d
  refine ⟨write_relations_eq d h1 h2, ?_, rel_pairs_nodup _ g1 g2, ?_, g3, ?_⟩
  · unfold num_relations rel_key_pairs
    rw [num_relations_foldl]
    omega
  · intro p c
    rw [edge_exists_iff]
    unfold rel_key_pairs prepare_relations
    rw [pairs_objs_fold]
    simp
  · intro p c tups
    exact ⟨rfl, by simp⟩

/-- Witness for C6 on a two-layer document with four cross edges from layer
0 to layer 1 (the relations test vector of the repository's test suite). -/
theorem relations_section_witness :
    (write_relations (Document.add_layers ⟨[], [], some ⟨utf8Bytes⟩⟩
      [⟨0, [76, 49],
        [⟨0, 0, [(1, 1)], []⟩, ⟨1, 0, [(1, 0)], []⟩,
         ⟨2, 0, [(1, 3)], []⟩, ⟨3, 0, [(1, 2)], []⟩]⟩,
       ⟨1, [76, 50],
        [⟨0, 1, [], []⟩, ⟨1, 1, [], []⟩, ⟨2, 1, [], []⟩, ⟨3, 1, [], []⟩]⟩])).isOk ∧
    num_relations (Document.add_layers ⟨[], [], some ⟨utf8Bytes⟩⟩
      [⟨0, [76, 49],
        [⟨0, 0, [(1, 1)], []⟩, ⟨1, 0, [(1, 0)], []⟩,
         ⟨2, 0, [(1, 3)], []⟩, ⟨3, 0, [(1, 2)], []⟩]⟩,
       ⟨1, [76, 50],
        [⟨0, 1, [], []⟩, ⟨1, 1, [], []⟩, ⟨2, 1, [], []⟩, ⟨3, 1, [], []⟩]⟩]) =
      (rel_key_pairs (Document.add_layers ⟨[], [], some ⟨utf8Bytes⟩⟩
        [⟨0, [76, 49],
          [⟨0, 0, [(1, 1)], []⟩, ⟨1, 0, [(1, 0)], []⟩,
           ⟨2, 0, [(1, 3)], []⟩, ⟨3, 0, [(1, 2)], []⟩]⟩,
         ⟨1, [76, 50],
          [⟨0, 1, [], []⟩, ⟨1, 1, [], []⟩, ⟨2, 1, [], []⟩,
           ⟨3, 1, [], []⟩]⟩])).length :=
  ⟨by
    rw [(relations_section _ (by decide) (fun pr hpr => by
      revert pr hpr; decide)).1]
    rfl,
   (relations_section _ (by decide) (fun pr hpr => by
      revert pr hpr; decide)).2.1⟩

/-! ## Helper lemmas: byte-level framing -/

theorem bytes_to_int_int_to_bytes (n : Nat) (h : n < 4294967296) :
    bytes_to_int (int_to_bytes n) = n := by
  simp [bytes_to_int, int_to_bytes, List.foldl]
  omega

theorem read_int_int_to_bytes (n : Nat) (r : List Nat) (h : n < 4294967296) :
    read_as_int 4 (int_to_bytes n ++ r) = (n, r) := by
  unfold read_as_int
  have h4 : (int_to_bytes n).length = 4 := rfl
  rw [← h4, List.take_left, List.drop_left, bytes_to_int_int_to_bytes n h]

theorem sep_free_iff (v : List Nat) :
    sep_free v = true ↔ ∀ b ∈ v, b ≠ SEPARATOR := by
  unfold sep_free
  simp [List.all_eq_true]

theorem eat_until_sep_append (v rest : List Nat) (h : sep_free v = true) :
    eat_until_sep (v ++ SEPARATOR :: rest) = (v, rest) := by
  induction v with
  | nil => simp [eat_until_sep]
  | cons b bs ih =>
    have hb : b ≠ SEPARATOR := (sep_free_iff _).mp h b (by simp)
    have hbs : sep_free bs = true := by
      rw [sep_free_iff]
      intro x hx
      exact (sep_free_iff _).mp h x (by simp [hx])
    rw [List.cons_append]
    unfold eat_until_sep
    rw [if_neg hb, ih hbs]

theorem count_run (v : List Nat) (h : sep_free v = true) :
    (v ++ [SEPARATOR]).count SEPARATOR = 1 := by
  rw [List.count_append]
  have : v.count SEPARATOR = 0 := by
    rw [List.count_eq_zero]
    intro hmem
    exact (sep_free_iff v).mp h SEPARATOR hmem rfl
  simp [this, List.count_singleton]

theorem count_flatten_runs (wos : List LayerObject) (vals : List (Nat × List Nat))
    (hsep : ∀ wo ∈ wos, sep_free ((assocGet vals wo.id).getD []) = true) :
    ((wos.map (fun o => ((assocGet vals o.id).getD []) ++ [SEPARATOR])).flatten).count
      SEPARATOR = wos.length := by
  induction wos with
  | nil => rfl
  | cons wo rest ih =>
    rw [List.map_cons, List.flatten_cons, List.count_append]
    rw [count_run _ (hsep wo (by simp)), ih (fun o ho => hsep o (by simp [ho]))]
    simp [Nat.add_comm]

theorem sep_free_of_lookup (vals : List (Nat × List Nat)) (k : Nat)
    (hvals : ∀ e ∈ vals, sep_free e.2 = true) :
    sep_free ((assocGet vals k).getD []) = true := by
  rcases hg : assocGet vals k with _ | v
  · rfl
  · exact hvals (k, v) (assocGet_mem vals k v hg)

theorem full_assign_runs (name : List Nat) (sos wos : List LayerObject)
    (vals : List (Nat × List Nat)) (rest : List Nat)
    (hlen : sos.length = wos.length)
    (hsep : ∀ wo ∈ wos, sep_free ((assocGet vals wo.id).getD []) = true) :
    full_assign name sos
      ((wos.map (fun o => ((assocGet vals o.id).getD []) ++ [SEPARATOR])).flatten
        ++ rest) =
      (List.zipWith (fun so wo => { so with
        attrs := assocSet so.attrs name ((assocGet vals wo.id).getD []) })
        sos wos, rest) := by
  induction sos generalizing wos rest with
  | nil =>
    cases wos with
    | nil => rfl
    | cons _ _ => cases hlen
  | cons so srest ih =>
    cases wos with
    | nil => cases hlen
    | cons wo wrest =>
      rw [List.map_cons, List.flatten_cons, List.append_assoc]
      unfold full_assign
      rw [show ((assocGet vals wo.id).getD [] ++ [SEPARATOR]) ++
          ((wrest.map (fun o => ((assocGet vals o.id).getD []) ++ [SEPARATOR])).flatten
            ++ rest) = ((assocGet vals wo.id).getD []) ++ (SEPARATOR ::
          ((wrest.map (fun o => ((assocGet vals o.id).getD []) ++ [SEPARATOR])).flatten
            ++ rest)) by simp]
      rw [eat_until_sep_append _ _ (hsep wo (by simp))]
      simp only
      rw [ih wrest rest (by simpa using hlen)
        (fun o ho => hsep o (by simp [ho]))]
      rfl

theorem parse_full_chunk_eq (ls : List Layer) (lid : Nat) (name : List Nat)
    (vals : List (Nat × List Nat)) (wobjs : List LayerObject) (sl : Layer)
    (rest : List Nat)
    (hlid : lid < 4294967296)
    (hls : ls.get? lid = some sl)
    (hname : sep_free name = true)
    (hlen : sl.objects.length = wobjs.length)
    (hsep : ∀ wo ∈ wobjs, sep_free ((assocGet vals wo.id).getD []) = true) :
    parse_full_chunk ls (full_chunk_bytes lid name vals wobjs ++ rest) =
      .ok (ls.set lid { sl with objects :=
        (List.zipWith (fun so wo => { so with
          attrs := assocSet so.attrs name ((assocGet vals wo.id).getD []) })
          sl.objects wobjs) }, rest) := by
  unfold parse_full_chunk full_chunk_bytes
  simp only [List.append_assoc, List.cons_append, List.nil_append]
  rw [show expectB CHUNK_FULL_START (CHUNK_FULL_START :: (int_to_bytes lid ++
    (name ++ SEPARATOR :: ((wobjs.map (fun o =>
      ((assocGet vals o.id).getD []) ++ [SEPARATOR])).flatten ++
      CHUNK_END :: rest)))) = Except.ok (int_to_bytes lid ++
    (name ++ SEPARATOR :: ((wobjs.map (fun o =>
      ((assocGet vals o.id).getD []) ++ [SEPARATOR])).flatten ++
      CHUNK_END :: rest))) from by simp [expectB]]
  simp only [bind, Except.bind]
  rw [read_int_int_to_bytes lid _ hlid]
  simp only
  rw [eat_until_sep_append name _ hname]
  simp only [hls]
  rw [full_assign_runs name sl.objects wobjs vals (CHUNK_END :: rest) hlen hsep]
  simp only
  rw [show expectB CHUNK_END (CHUNK_END :: rest) = Except.ok rest from by
    simp [expectB]]
  rfl

/-- Claim C5: a full chunk for a layer of `N` objects carries exactly `N`
`SEPARATOR` bytes between the attribute-name terminator and `CHUNK_END`
(one run per object, an empty run when the object lacks the attribute or its
value is empty), provided no value's bytes contain `SEPARATOR`; and decoding
such a chunk assigns the `i`-th run — the looked-up value bytes of the
writer-side object at index `i`, empty ones included — as the attribute
value of the scratch-layer object at index `i`. -/
theorem full_chunk_section (d : Document) (lid : Nat) (name : List Nat)
    (vals : List (Nat × List Nat)) (l : Layer) (ls : List Layer) (sl : Layer)
    (rest : List Nat)
    (hlid : lid < 4294967296) (hl : d.get_layer_by_id lid = some l)
    (hname : sep_free name = true)
    (hvals : ∀ e ∈ vals, sep_free e.2 = true)
    (hls : ls.get? lid = some sl)
    (hlen : sl.objects.length = l.objects.length) :
    write_full_chunk d lid name vals =
      .ok (full_chunk_bytes lid name vals l.objects) ∧
    ((l.objects.map (fun o =>
      ((assocGet vals o.id).getD []) ++ [SEPARATOR])).flatten).count SEPARATOR =
      l.objects.length ∧
    parse_full_chunk ls (full_chunk_bytes lid name vals l.objects ++ rest) =
      .ok (ls.set lid { sl with objects :=
        (List.zipWith (fun so wo => { so with
          attrs := assocSet so.attrs name ((assocGet vals wo.id).getD []) })
          sl.objects l.objects) }, rest) :=
  ⟨write_full_chunk_eq d lid name vals l hlid hl,
   count_flatten_runs l.objects vals
     (fun wo _ => sep_free_of_lookup vals wo.id hvals),
   parse_full_chunk_eq ls lid name vals l.objects sl rest hlid hls hname hlen
     (fun wo _ => sep_free_of_lookup vals wo.id hvals)⟩

/-- Witness for C5: the `key1` chunk of `absentAttrDoc` (two objects, one
carrier) emits two separators after the name terminator, and decoding
attaches `val2` to object 0 and the empty run to object 1. -/
theorem full_chunk_section_witness :
    write_full_chunk absentAttrDoc 0 [107, 101, 121, 49]
      [(0, [118, 97, 108, 50])] =
      .ok (full_chunk_bytes 0 [107, 101, 121, 49] [(0, [118, 97, 108, 50])]
        absentLayer.objects) ∧
    ((absentLayer.objects.map (fun o =>
      ((assocGet [(0, [118, 97, 108, 50])] o.id).getD []) ++
        [SEPARATOR])).flatten).count SEPARATOR = absentLayer.objects.length ∧
    parse_full_chunk [absentSkeleton]
      (full_chunk_bytes 0 [107, 101, 121, 49] [(0, [118, 97, 108, 50])]
        absentLayer.objects ++ []) =
      .ok ([absentSkeleton].set 0 { absentSkeleton with objects :=
        (List.zipWith (fun so wo => { so with
          attrs := assocSet so.attrs [107, 101, 121, 49]
            ((assocGet [(0, [118, 97, 108, 50])] wo.id).getD []) })
          absentSkeleton.objects absentLayer.objects) }, []) :=
  full_chunk_section absentAttrDoc 0 [107, 101, 121, 49]
    [(0, [118, 97, 108, 50])] absentLayer [absentSkeleton] absentSkeleton []
    (by decide) (by decide) (by decide) (by decide) (by decide) (by decide)

/-! ## Helper lemmas: decoder skeleton preservation -/

theorem skeleton_eq_refl (ls : List Layer) : skeleton_eq ls ls :=
  ⟨rfl, fun _ _ _ => ⟨rfl, rfl, rfl, fun _ _ _ => ⟨rfl, rfl⟩⟩⟩

theorem skeleton_eq_trans (l1 l2 l3 : List Layer)
    (h12 : skeleton_eq l1 l2) (h23 : skeleton_eq l2 l3) : skeleton_eq l1 l3 := by
  obtain ⟨ha, hb⟩ := h12
  obtain ⟨hc, hd⟩ := h23
  refine ⟨hc.trans ha, fun i hi hi' => ?_⟩
  have hi2 : i < l2.length := ha ▸ hi
  obtain ⟨e1, e2, e3, e4⟩ := hb i hi hi2
  obtain ⟨f1, f2, f3, f4⟩ := hd i hi2 hi'
  refine ⟨f1.trans e1, f2.trans e2, f3.trans e3, fun j hj hj' => ?_⟩
  have hj2 : j < ((l2.get ⟨i, hi2⟩).objects).length := e3 ▸ hj
  obtain ⟨g1, g2⟩ := e4 j hj hj2
  obtain ⟨k1, k2⟩ := f4 j hj2 hj'
  exact ⟨k1.trans g1, k2.trans g2⟩

theorem get_set_eq' (ls : List Layer) (i : Nat) (l' : Layer)
    (hi : i < (ls.set i l').length) : (ls.set i l').get ⟨i, hi⟩ = l' := by
  simp [List.get_eq_getElem, List.getElem_set_self]

theorem get_set_ne' (ls : List Layer) (i k : Nat) (l' : Layer) (hne : k ≠ i)
    (hk : k < (ls.set i l').length) :
    (ls.set i l').get ⟨k, hk⟩ = ls.get ⟨k, by simpa using hk⟩ := by
  have h2 : i ≠ k := fun he => hne he.symm
  simp [List.get_eq_getElem, List.getElem_set_ne, h2]

theorem obj_get_set_eq (os : List LayerObject) (p : Nat) (o' : LayerObject)
    (hp : p < (os.set p o').length) : (os.set p o').get ⟨p, hp⟩ = o' := by
  simp [List.get_eq_getElem, List.getElem_set_self]

theorem obj_get_set_ne (os : List LayerObject) (p k : Nat) (o' : LayerObject)
    (hne : k ≠ p) (hk : k < (os.set p o').length) :
    (os.set p o').get ⟨k, hk⟩ = os.get ⟨k, by simpa using hk⟩ := by
  have h2 : p ≠ k := fun he => hne he.symm
  simp [List.get_eq_getElem, List.getElem_set_ne, h2]

theorem skeleton_eq_set (ls : List Layer) (i : Nat) (l' : Layer)
    (hi : i < ls.length)
    (hid : l'.id = (ls.get ⟨i, hi⟩).id)
    (hname : l'.name = (ls.get ⟨i, hi⟩).name)
    (hlen : l'.objects.length = (ls.get ⟨i, hi⟩).objects.length)
    (hobjs : ∀ j (hj : j < (ls.get ⟨i, hi⟩).objects.length)
      (hj' : j < l'.objects.length),
      (l'.objects.get ⟨j, hj'⟩).id =
        ((ls.get ⟨i, hi⟩).objects.get ⟨j, hj⟩).id ∧
      (l'.objects.get ⟨j, hj'⟩).layer =
        ((ls.get ⟨i, hi⟩).objects.get ⟨j, hj⟩).layer) :
    skeleton_eq ls (ls.set i l') := by
  refine ⟨by simp, fun k hk hk' => ?_⟩
  by_cases hki : k = i
  · subst hki
    rw [get_set_eq' ls k l' hk']
    exact ⟨hid, hname, hlen, hobjs⟩
  · rw [get_set_ne' ls i k l' hki hk']
    exact ⟨rfl, rfl, rfl, fun j hj hj' => ⟨rfl, rfl⟩⟩

theorem add_child_skeleton (ls : List Layer) (pl pid cl cid : Nat)
    (ls' : List Layer) (h : add_child_by_ids ls pl pid cl cid = .ok ls') :
    skeleton_eq ls ls' := by
  unfold add_child_by_ids at h
  rcases hp : ls.get? pl with _ | pLayer <;> rw [hp] at h <;> dsimp only at h
  · cases h
  rcases hpo : pLayer.objects.get? pid with _ | pObj <;> rw [hpo] at h <;>
    dsimp only at h
  · cases h
  rcases hc : ls.get? cl with _ | cLayer <;> rw [hc] at h <;> dsimp only at h
  · cases h
  rcases hco : cLayer.objects.get? cid with _ | cObj <;> rw [hco] at h <;>
    dsimp only at h
  · cases h
  cases h
  have hpl : pl < ls.length := (List.get?_eq_some.mp hp).1
  have hget : ls.get ⟨pl, hpl⟩ = pLayer := (List.get?_eq_some.mp hp).2
  have hpid : pid < pLayer.objects.length := (List.get?_eq_some.mp hpo).1
  have hgeto : pLayer.objects.get ⟨pid, hpid⟩ = pObj :=
    (List.get?_eq_some.mp hpo).2
  subst hget
  subst hgeto
  apply skeleton_eq_set ls pl _ hpl
  · rfl
  · rfl
  · simp
  · intro j hj hj'
    by_cases hjp : j = pid
    · subst hjp
      rw [obj_get_set_eq _ _ _ hj']
      exact ⟨rfl, rfl⟩
    · rw [obj_get_set_ne _ _ _ _ hjp hj']
      exact ⟨rfl, rfl⟩

theorem parse_pairs_loop_skeleton (n pl cl : Nat) (ls : List Layer)
    (s : List Nat) (ls' : List Layer) (s' : List Nat)
    (h : parse_pairs_loop n pl cl ls s = .ok (ls', s')) : skeleton_eq ls ls' := by
  induction n generalizing ls s with
  | zero =>
    cases h
    exact skeleton_eq_refl ls'
  | succ k ih =>
    unfold parse_pairs_loop at h
    simp only [bind, Except.bind] at h
    rcases ha : add_child_by_ids ls pl (read_as_int 4 s).1 cl
        (read_as_int 4 (read_as_int 4 s).2).1 with e | ls1 <;> rw [ha] at h
    · cases h
    exact skeleton_eq_trans ls ls1 ls'
      (add_child_skeleton _ _ _ _ _ _ ha) (ih ls1 _ h)

theorem parse_relation_skeleton (ls : List Layer) (s : List Nat)
    (ls' : List Layer) (s' : List Nat)
    (h : parse_relation ls s = .ok (ls', s')) : skeleton_eq ls ls' := by
  unfold parse_relation at h
  simp only [bind, Except.bind] at h
  rcases h1 : expectB RELATION_START s with e | s1 <;> rw [h1] at h <;>
    dsimp only at h
  · cases h
  rcases h2 : parse_pairs_loop (read_as_int 4 (read_as_int 4
      (read_as_int 4 s1).2).2).1 (read_as_int 4 s1).1
      (read_as_int 4 (read_as_int 4 s1).2).1 ls
      (read_as_int 4 (read_as_int 4 (read_as_int 4 s1).2).2).2
      with e | v <;> rw [h2] at h <;> dsimp only at h
  · cases h
  obtain ⟨ls1, s2⟩ := v
  rcases h3 : expectB RELATION_END s2 with e | s3 <;> rw [h3] at h <;>
    dsimp only at h
  · cases h
  cases h
  exact parse_pairs_loop_skeleton _ _ _ _ _ _ _ h2

theorem parse_relations_loop_skeleton (n : Nat) (ls : List Layer)
    (s : List Nat) (ls' : List Layer) (s' : List Nat)
    (h : parse_relations_loop n ls s = .ok (ls', s')) : skeleton_eq ls ls' := by
  induction n generalizing ls s with
  | zero =>
    cases h
    exact skeleton_eq_refl ls'
  | succ k ih =>
    unfold parse_relations_loop at h
    simp only [bind, Except.bind] at h
    rcases h1 : parse_relation ls s with e | v <;> rw [h1] at h <;>
      dsimp only at h
    · cases h
    obtain ⟨ls1, s1⟩ := v
    exact skeleton_eq_trans ls ls1 ls'
      (parse_relation_skeleton _ _ _ _ h1) (ih ls1 s1 h)

theorem parse_relations_skeleton (ls : List Layer) (s : List Nat)
    (ls' : List Layer) (s' : List Nat)
    (h : parse_relations ls s = .ok (ls', s')) : skeleton_eq ls ls' := by
  unfold parse_relations at h
  simp only [bind, Except.bind] at h
  rcases h1 : expectB RELATIONS_START s with e | s1 <;> rw [h1] at h <;>
    dsimp only at h
  · cases h
  rcases h2 : parse_relations_loop (read_as_int 4 s1).1 ls
      (read_as_int 4 s1).2 with e | v <;> rw [h2] at h <;> dsimp only at h
  · cases h
  obtain ⟨ls1, s2⟩ := v
  rcases h3 : expectB RELATIONS_END s2 with e | s3 <;> rw [h3] at h <;>
    dsimp only at h
  · cases h
  cases h
  exact parse_relations_loop_skeleton _ _ _ _ _ h2

theorem full_assign_fields (name : List Nat) (os : List LayerObject)
    (s : List Nat) :
    (full_assign name os s).1.length = os.length ∧
    ∀ j (hj : j < os.length) (hj' : j < (full_assign name os s).1.length),
      ((full_assign name os s).1.get ⟨j, hj'⟩).id = (os.get ⟨j, hj⟩).id ∧
      ((full_assign name os s).1.get ⟨j, hj'⟩).layer =
        (os.get ⟨j, hj⟩).layer := by
  induction os generalizing s with
  | nil => exact ⟨rfl, fun j hj => absurd hj (by simp)⟩
  | cons o rest ih =>
    unfold full_assign
    refine ⟨by simpa using (ih (eat_until_sep s).2).1, fun j hj hj' => ?_⟩
    cases j with
    | zero => exact ⟨rfl, rfl⟩
    | succ k =>
      have hk : k < rest.length := by simpa using hj
      have hk' : k < (full_assign name rest (eat_until_sep s).2).1.length := by
        simpa using hj'
      exact (ih (eat_until_sep s).2).2 k hk hk'

theorem parse_full_chunk_skeleton (ls : List Layer) (s : List Nat)
    (ls' : List Layer) (s' : List Nat)
    (h : parse_full_chunk ls s = .ok (ls', s')) : skeleton_eq ls ls' := by
  unfold parse_full_chunk at h
  simp only [bind, Except.bind] at h
  rcases h1 : expectB CHUNK_FULL_START s with e | s1 <;> rw [h1] at h <;>
    dsimp only at h
  · cases h
  rcases h2 : ls.get? (read_as_int 4 s1).1 with _ | l <;> rw [h2] at h <;>
    dsimp only at h
  · cases h
  rcases h3 : expectB CHUNK_END (full_assign
      (eat_until_sep (read_as_int 4 s1).2).1 l.objects
      (eat_until_sep (read_as_int 4 s1).2).2).2 with e | s2 <;>
    rw [h3] at h <;> dsimp only at h
  · cases h
  cases h
  have hl : (read_as_int 4 s1).1 < ls.length := (List.get?_eq_some.mp h2).1
  have hget : ls.get ⟨(read_as_int 4 s1).1, hl⟩ = l := (List.get?_eq_some.mp h2).2
  subst hget
  apply skeleton_eq_set ls _ _ hl
  · rfl
  · rfl
  · exact (full_assign_fields _ _ _).1
  · exact fun j hj hj' => (full_assign_fields _ _ _).2 j hj hj'

theorem linked_loop_skeleton (lid : Nat) (name : List Nat) (n : Nat)
    (ls : List Layer) (s : List Nat) (ls' : List Layer) (s' : List Nat)
    (h : linked_loop lid name n ls s = .ok (ls', s')) : skeleton_eq ls ls' := by
  induction n generalizing ls s with
  | zero =>
    cases h
    exact skeleton_eq_refl ls'
  | succ k ih =>
    unfold linked_loop at h
    simp only [bind, Except.bind] at h
    rcases h1 : ls.get? lid with _ | l <;> rw [h1] at h <;> dsimp only at h
    · cases h
    rcases h2 : l.objects.get? (read_as_int 4 s).1 with _ | o <;>
      rw [h2] at h <;> dsimp only at h
    · cases h
    have hl : lid < ls.length := (List.get?_eq_some.mp h1).1
    have hget : ls.get ⟨lid, hl⟩ = l := (List.get?_eq_some.mp h1).2
    have hoi : (read_as_int 4 s).1 < l.objects.length :=
      (List.get?_eq_some.mp h2).1
    have hgeto : l.objects.get ⟨(read_as_int 4 s).1, hoi⟩ = o :=
      (List.get?_eq_some.mp h2).2
    subst hget
    subst hgeto
    refine skeleton_eq_trans _ _ _ ?_ (ih _ _ h)
    apply skeleton_eq_set ls _ _ hl
    · rfl
    · rfl
    · simp
    · intro j hj hj'
      by_cases hjp : j = (read_as_int 4 s).1
      · subst hjp
        rw [obj_get_set_eq _ _ _ hj']
        exact ⟨rfl, rfl⟩
      · rw [obj_get_set_ne _ _ _ _ hjp hj']
        exact ⟨rfl, rfl⟩

theorem parse_linked_chunk_skeleton (ls : List Layer) (s : List Nat)
    (ls' : List Layer) (s' : List Nat)
    (h : parse_linked_chunk ls s = .ok (ls', s')) : skeleton_eq ls ls' := by
  unfold parse_linked_chunk at h
  simp only [bind, Except.bind] at h
  rcases h1 : expectB CHUNK_LINKED_START s with e | s1 <;> rw [h1] at h <;>
    dsimp only at h
  · cases h
  rcases h2 : linked_loop (read_as_int 4 s1).1
      (eat_until_sep (read_as_int 4 s1).2).1
      (read_as_int 4 (eat_until_sep (read_as_int 4 s1).2).2).1 ls
      (read_as_int 4 (eat_until_sep (read_as_int 4 s1).2).2).2
      with e | v <;> rw [h2] at h <;> dsimp only at h
  · cases h
  obtain ⟨ls1, s2⟩ := v
  rcases h3 : expectB CHUNK_END s2 with e | s3 <;> rw [h3] at h <;>
    dsimp only at h
  · cases h
  cases h
  exact linked_loop_skeleton _ _ _ _ _ _ _ h2

theorem parse_chunk_skeleton (ls : List Layer) (s : List Nat)
    (ls' : List Layer) (s' : List Nat)
    (h : parse_chunk ls s = .ok (ls', s')) : skeleton_eq ls ls' := by
  unfold parse_chunk at h
  by_cases h1 : bytes_to_int (s.take 1) = CHUNK_FULL_START
  · rw [if_pos h1] at h
    exact parse_full_chunk_skeleton _ _ _ _ h
  · rw [if_neg h1] at h
    by_cases h2 : bytes_to_int (s.take 1) = CHUNK_LINKED_START
    · rw [if_pos h2] at h
      exact parse_linked_chunk_skeleton _ _ _ _ h
    · rw [if_neg h2] at h
      cases h

theorem parse_attrs_loop_skeleton (n : Nat) (ls : List Layer) (s : List Nat)
    (ls' : List Layer) (s' : List Nat)
    (h : parse_attrs_loop n ls s = .ok (ls', s')) : skeleton_eq ls ls' := by
  induction n generalizing ls s with
  | zero =>
    cases h
    exact skeleton_eq_refl ls'
  | succ k ih =>
    unfold parse_attrs_loop at h
    simp only [bind, Except.bind] at h
    rcases h1 : parse_chunk ls s with e | v <;> rw [h1] at h <;> dsimp only at h
    · cases h
    obtain ⟨ls1, s1⟩ := v
    exact skeleton_eq_trans ls ls1 ls'
      (parse_chunk_skeleton _ _ _ _ h1) (ih ls1 s1 h)

theorem parse_attrs_skeleton (ls : List Layer) (s : List Nat)
    (ls' : List Layer) (s' : List Nat)
    (h : parse_attrs ls s = .ok (ls', s')) : skeleton_eq ls ls' := by
  unfold parse_attrs at h
  simp only [bind, Except.bind] at h
  rcases h1 : expectB ATTRS_START s with e | s1 <;> rw [h1] at h <;>
    dsimp only at h
  · cases h
  rcases h2 : parse_attrs_loop (read_as_int 4 s1).1 ls
      (read_as_int 4 s1).2 with e | v <;> rw [h2] at h <;> dsimp only at h
  · cases h
  obtain ⟨ls1, s2⟩ := v
  rcases h3 : expectB ATTRS_END s2 with e | s3 <;> rw [h3] at h <;>
    dsimp only at h
  · cases h
  cases h
  exact parse_attrs_loop_skeleton _ _ _ _ _ h2

theorem parse_destruct (bs : List Nat) (d : Document) (h : parse bs = .ok d) :
    ∃ hdr s1 ls1 s2 ls2 s3 ls3 s4,
      parse_header bs = .ok (hdr, s1) ∧
      parse_layers s1 = .ok (ls1, s2) ∧
      parse_relations ls1 s2 = .ok (ls2, s3) ∧
      parse_attrs ls2 s3 = .ok (ls3, s4) ∧
      d = Document.add_layers ⟨[], [], some hdr⟩ ls3 := by
  unfold parse at h
  simp only [bind, Except.bind] at h
  rcases h1 : parse_header bs with e | v1
  · rw [h1] at h; cases h
  obtain ⟨hdr, s1⟩ := v1
  rw [h1] at h; dsimp only at h
  rcases h2 : parse_layers s1 with e | v2
  · rw [h2] at h; cases h
  obtain ⟨ls1, s2⟩ := v2
  rw [h2] at h; dsimp only at h
  rcases h3 : parse_relations ls1 s2 with e | v3
  · rw [h3] at h; cases h
  obtain ⟨ls2, s3⟩ := v3
  rw [h3] at h; dsimp only at h
  rcases h4 : parse_attrs ls2 s3 with e | v4
  · rw [h4] at h; cases h
  obtain ⟨ls3, s4⟩ := v4
  rw [h4] at h; dsimp only at h
  exact ⟨hdr, s1, ls1, s2, ls2, s3, ls3, s4, rfl, h2, h3, h4,
    by cases h; rfl⟩

theorem parse_layer_positional (i : Nat) (s : List Nat) (l : Layer)
    (s' : List Nat) (h : parse_layer i s = .ok (l, s')) :
    l.id = i ∧ ∀ j (hj : j < l.objects.length),
      (l.objects.get ⟨j, hj⟩).id = j ∧ (l.objects.get ⟨j, hj⟩).layer = i := by
  unfold parse_layer at h
  simp only [bind, Except.bind] at h
  rcases h1 : expectB LAYER_START s with e | s1 <;> rw [h1] at h <;>
    dsimp only at h
  · cases h
  rcases h2 : expectB LAYER_END (read_as_int 4 (eat_until_sep s1).2).2
      with e | s2 <;> rw [h2] at h <;> dsimp only at h
  · cases h
  cases h
  refine ⟨rfl, fun j hj => ?_⟩
  have hj2 : j < (List.range (read_as_int 4 (eat_until_sep s1).2).1).length := by
    simpa using hj
  rw [List.get_map]
  rw [List.get_range]
  exact ⟨rfl, rfl⟩

theorem parse_layers_loop_positional (k : Nat) (i : Nat) (s : List Nat)
    (ls : List Layer) (s' : List Nat)
    (h : parse_layers_loop k i s = .ok (ls, s')) :
    ∀ idx (hidx : idx < ls.length),
      (ls.get ⟨idx, hidx⟩).id = i + idx ∧
      ∀ j (hj : j < (ls.get ⟨idx, hidx⟩).objects.length),
        ((ls.get ⟨idx, hidx⟩).objects.get ⟨j, hj⟩).id = j ∧
        ((ls.get ⟨idx, hidx⟩).objects.get ⟨j, hj⟩).layer = i + idx := by
  induction k generalizing i s ls with
  | zero =>
    cases h
    exact fun idx hidx => absurd hidx (by simp)
  | succ n ih =>
    unfold parse_layers_loop at h
    simp only [bind, Except.bind] at h
    rcases h1 : parse_layer i s with e | v1 <;> rw [h1] at h <;> dsimp only at h
    · cases h
    obtain ⟨l, s1⟩ := v1
    rcases h2 : parse_layers_loop n (i + 1) s1 with e | v2 <;> rw [h2] at h <;>
      dsimp only at h
    · cases h
    obtain ⟨ls1, s2⟩ := v2
    cases h
    intro idx hidx
    cases idx with
    | zero =>
      obtain ⟨hl1, hl2⟩ := parse_layer_positional i s l s1 h1
      exact ⟨by simpa using hl1, fun j hj => by
        have := hl2 j (by simpa using hj)
        exact ⟨this.1, by simpa using this.2⟩⟩
    | succ m =>
      have hm : m < ls1.length := by simpa using hidx
      obtain ⟨g1, g2⟩ := ih (i + 1) s1 ls1 h2 m hm
      constructor
      · show (ls1.get ⟨m, hm⟩).id = i + (m + 1)
        rw [g1]
        omega
      · intro j hj
        have hgg := g2 j (by simpa using hj)
        refine ⟨hgg.1, ?_⟩
        show (((ls1.get ⟨m, hm⟩).objects).get ⟨j, by simpa using hj⟩).layer =
          i + (m + 1)
        rw [hgg.2]
        omega

theorem parse_layers_positional (s : List Nat) (ls : List Layer) (s' : List Nat)
    (h : parse_layers s = .ok (ls, s')) :
    ∀ idx (hidx : idx < ls.length),
      (ls.get ⟨idx, hidx⟩).id = idx ∧
      ∀ j (hj : j < (ls.get ⟨idx, hidx⟩).objects.length),
        ((ls.get ⟨idx, hidx⟩).objects.get ⟨j, hj⟩).id = j ∧
        ((ls.get ⟨idx, hidx⟩).objects.get ⟨j, hj⟩).layer = idx := by
  unfold parse_layers at h
  simp only [bind, Except.bind] at h
  rcases h1 : expectB LAYERS_START s with e | s1 <;> rw [h1] at h <;>
    dsimp only at h
  · cases h
  rcases h2 : parse_layers_loop (read_as_int 4 s1).1 0 (read_as_int 4 s1).2
      with e | v <;> rw [h2] at h <;> dsimp only at h
  · cases h
  obtain ⟨ls1, s2⟩ := v
  rcases h3 : expectB LAYERS_END s2 with e | s3 <;> rw [h3] at h <;>
    dsimp only at h
  · cases h
  cases h
  intro idx hidx
  obtain ⟨g1, g2⟩ := parse_layers_loop_positional _ _ _ _ _ h2 idx hidx
  exact ⟨by simpa using g1, fun j hj => ⟨(g2 j hj).1, by simpa using (g2 j hj).2⟩⟩

/-- Claim C7: every successfully decoded document is positionally
identified — the `i`-th layer has id `i`, its objects have ids `0 ..
count-1` equal to their positions, and every object's `layer` field equals
the id of the layer containing it. -/
theorem decoder_positional_invariant (bs : List Nat) (d : Document)
    (h : parse bs = .ok d) :
    ∀ i (hi : i < d.layers.length),
      (d.layers.get ⟨i, hi⟩).id = i ∧
      ∀ j (hj : j < (d.layers.get ⟨i, hi⟩).objects.length),
        ((d.layers.get ⟨i, hi⟩).objects.get ⟨j, hj⟩).id = j ∧
        ((d.layers.get ⟨i, hi⟩).objects.get ⟨j, hj⟩).layer = i := by
  obtain ⟨hdr, s1, ls1, s2, ls2, s3, ls3, s4, h1, h2, h3, h4, hd⟩ :=
    parse_destruct bs d h
  have hpos := parse_layers_positional s1 ls1 s2 h2
  have hskel : skeleton_eq ls1 ls3 :=
    skeleton_eq_trans ls1 ls2 ls3 (parse_relations_skeleton ls1 s2 ls2 s3 h3)
      (parse_attrs_skeleton ls2 s3 ls3 s4 h4)
  have hlay : d.layers = ls3 := by
    rw [hd, add_layers_layers]
    rfl
  subst hlay
  obtain ⟨hlen, hfields⟩ := hskel
  intro i hi
  have hi1 : i < ls1.length := hlen ▸ hi
  obtain ⟨f1, _, f3, f4⟩ := hfields i hi1 hi
  obtain ⟨g1, g2⟩ := hpos i hi1
  constructor
  · rw [f1, g1]
  · intro j hj
    have hj1 : j < (ls1.get ⟨i, hi1⟩).objects.length := f3 ▸ hj
    obtain ⟨k1, k2⟩ := f4 j hj1 hj
    obtain ⟨m1, m2⟩ := g2 j hj1
    exact ⟨k1.trans m1, k2.trans m2⟩

/-- Witness for C7 on `oneLayerStream` (one layer, two objects). -/
theorem decoder_positional_invariant_witness :
    (oneLayerDoc.layers.get ⟨0, by decide⟩).id = 0 ∧
    ((oneLayerDoc.layers.get ⟨0, by decide⟩).objects.get ⟨1, by decide⟩).id = 1 ∧
    ((oneLayerDoc.layers.get ⟨0, by decide⟩).objects.get ⟨1, by decide⟩).layer = 0 :=
  have happ := decoder_positional_invariant oneLayerStream oneLayerDoc rfl
  ⟨(happ 0 (by decide)).1,
   ((happ 0 (by decide)).2 1 (by decide)).1,
   ((happ 0 (by decide)).2 1 (by decide)).2⟩

/-! ## Helper lemmas: relation group contents -/

theorem assocGet_of_mem_nodup {α β : Type} [DecidableEq α]
    (m : List (α × β)) (k : α) (v : β)
    (hnd : (m.map Prod.fst).Nodup) (hm : (k, v) ∈ m) :
    assocGet m k = some v := by
  induction m with
  | nil => cases hm
  | cons kv rest ih =>
    obtain ⟨k0, v0⟩ := kv
    rw [List.map_cons, List.nodup_cons] at hnd
    rcases List.mem_cons.mp hm with h | h
    · have h1 : k = k0 := congrArg Prod.fst h
      have h2 : v = v0 := congrArg Prod.snd h
      subst h1
      subst h2
      simp [assocGet]
    · have hmm : k ∈ rest.map Prod.fst := List.mem_map_of_mem Prod.fst h
      have hne : ¬ k = k0 := fun he => hnd.1 (he ▸ hmm)
      simp only [assocGet, if_neg hne]
      exact ih hnd.2 h

theorem mem_keys_iff_isSome {α β : Type} [DecidableEq α]
    (m : List (α × β)) (k : α) :
    k ∈ m.map Prod.fst ↔ (assocGet m k).isSome := by
  induction m with
  | nil => simp [assocGet]
  | cons kv rest ih =>
    obtain ⟨k0, v0⟩ := kv
    by_cases h : k = k0
    · subst h
      simp [assocGet]
    · simp [assocGet, h, ih]

theorem nested_append_lookup2
    (M : List (Nat × List (Nat × List (Nat × Nat)))) (p0 c0 : Nat)
    (e : Nat × Nat) (p c : Nat) :
    assocGet ((assocGet (nested_append M p0 c0 e) p).getD []) c =
      if p = p0 ∧ c = c0
      then some ((assocGet ((assocGet M p0).getD []) c0).getD [] ++ [e])
      else assocGet ((assocGet M p).getD []) c := by
  unfold nested_append
  by_cases hp : p = p0
  · subst hp
    rw [assocGet_assocSet, if_pos rfl]
    simp only [Option.getD_some]
    rw [assocGet_assocSet]
    by_cases hc : c = c0
    · subst hc
      simp
    · simp [hc]
  · rw [assocGet_assocSet, if_neg hp]
    simp [hp]

theorem lookup2_children_fold (cs : List (Nat × Nat)) (pl oid : Nat)
    (M : List (Nat × List (Nat × List (Nat × Nat)))) (p c : Nat) :
    (assocGet ((assocGet (cs.foldl (fun M ch =>
        nested_append M pl ch.1 (oid, ch.2)) M) p).getD []) c).getD [] =
      (assocGet ((assocGet M p).getD []) c).getD [] ++
        (if p = pl
         then (cs.filter (fun ch => ch.1 == c)).map (fun ch => (oid, ch.2))
         else []) := by
  induction cs generalizing M with
  | nil => simp
  | cons ch rest ih =>
    rw [List.foldl_cons, ih]
    by_cases hp : p = pl
    · subst hp
      rw [nested_append_lookup2]
      by_cases hc : c = ch.1
      · subst hc
        rw [if_pos (show p = p ∧ ch.1 = ch.1 from ⟨rfl, rfl⟩)]
        simp only [Option.getD_some, if_pos rfl]
        rw [List.filter_cons]
        simp [List.append_assoc]
      · have : ¬ (p = p ∧ c = ch.1) := fun hh => hc hh.2
        rw [if_neg this]
        rw [List.filter_cons]
        have : (ch.1 == c) = false := by simpa using fun he => hc he.symm
        simp [this]
    · rw [nested_append_lookup2]
      have : ¬ (p = pl ∧ c = ch.1) := fun hh => hp hh.1
      rw [if_neg this]
      simp [hp]

theorem lookup2_objs_fold (os : List LayerObject)
    (M : List (Nat × List (Nat × List (Nat × Nat)))) (p c : Nat) :
    (assocGet ((assocGet (os.foldl (fun M o => o.children.foldl
        (fun M ch => nested_append M o.layer ch.1 (o.id, ch.2)) M) M)
        p).getD []) c).getD [] =
      (assocGet ((assocGet M p).getD []) c).getD [] ++
        group_tuples os p c := by
  induction os generalizing M with
  | nil => simp [group_tuples]
  | cons o rest ih =>
    rw [List.foldl_cons, ih, lookup2_children_fold]
    rw [show group_tuples (o :: rest) p c = (if o.layer = p
      then (o.children.filter (fun ch => ch.1 == c)).map (fun ch => (o.id, ch.2))
      else []) ++ group_tuples rest p c from by
        unfold group_tuples
        rw [List.map_cons, List.flatten_cons]]
    by_cases hp : p = o.layer
    · subst hp
      simp [List.append_assoc]
    · have : ¬ o.layer = p := fun he => hp he.symm
      simp [hp, this]

theorem prepare_relations_group (d : Document) (p c : Nat) :
    (assocGet ((assocGet (prepare_relations d) p).getD []) c).getD [] =
      group_tuples d.get_all_objects p c := by
  unfold prepare_relations
  rw [lookup2_objs_fold]
  simp [assocGet]

theorem rel_groups_content (d : Document) (g : Nat × Nat × List (Nat × Nat))
    (hg : g ∈ rel_groups (prepare_relations d)) :
    g.2.2 = group_tuples d.get_all_objects g.1 g.2.1 ∧
    (g.1, g.2.1) ∈ rel_key_pairs d := by
  unfold rel_groups at hg
  rw [List.mem_flatten] at hg
  obtain ⟨l, hl, hmem⟩ := hg
  obtain ⟨pr, hpr, hpreq⟩ := List.mem_map.mp hl
  subst hpreq
  obtain ⟨ct, hct, hcteq⟩ := List.mem_map.mp hmem
  obtain ⟨g1, g2, g3⟩ := prepare_relations_invariants d
  have ho : assocGet (prepare_relations d) pr.1 = some pr.2 :=
    assocGet_of_mem_nodup _ _ _ g1 (by simpa using hpr)
  have hi : assocGet pr.2 ct.1 = some ct.2 :=
    assocGet_of_mem_nodup _ _ _ (g2 pr hpr) (by simpa using hct)
  constructor
  · rw [← hcteq]
    show ct.2 = group_tuples d.get_all_objects (pr.1, ct.1, ct.2).1
      (pr.1, ct.1, ct.2).2.1
    have := prepare_relations_group d pr.1 ct.1
    rw [ho] at this
    simp only [Option.getD_some] at this
    rw [hi] at this
    simpa using this
  · rw [← hcteq]
    unfold rel_key_pairs
    exact (mem_pairs_iff _ _ _).mpr ⟨pr, hpr, rfl,
      List.mem_map_of_mem Prod.fst hct⟩

/-! ## Helper lemmas: the writer's output under validity -/

theorem assocSet_foldl_map (ls : List Layer)
    (A : List (Nat × List (List Nat × List (Nat × List Nat)))) (cnt : Nat)
    (hfresh : ∀ l ∈ ls, l.id ∉ A.map Prod.fst)
    (hnd : (ls.map Layer.id).Nodup) :
    ls.foldl (fun acc l =>
      (assocSet acc.1 l.id (layer_attrs l), acc.2 + (layer_attrs l).length))
      (A, cnt) =
    (A ++ ls.map (fun l => (l.id, layer_attrs l)),
     cnt + (ls.map (fun l => (layer_attrs l).length)).sum) := by
  induction ls generalizing A cnt with
  | nil => simp
  | cons l rest ih =>
    rw [List.foldl_cons]
    rw [List.map_cons, List.nodup_cons] at hnd
    have hfr : l.id ∉ A.map Prod.fst := hfresh l (by simp)
    have hfr' : ∀ l' ∈ rest, l'.id ∉
        (assocSet A l.id (layer_attrs l)).map Prod.fst := by
      intro l' hl' hmem
      rcases (assocSet_keys_mem _ _ _ _).mp hmem with h | h
      · exact hfresh l' (by simp [hl']) h
      · exact hnd.1 (h ▸ List.mem_map_of_mem Layer.id hl')
    rw [ih _ _ hfr' hnd.2]
    rw [assocSet_of_fresh _ _ _ hfr]
    simp [List.append_assoc]
    omega

theorem prepare_attrs_struct (d : Document)
    (hnd : (d.layers.map Layer.id).Nodup) :
    (prepare_attrs d).1 = d.layers.map (fun l => (l.id, layer_attrs l)) ∧
    (prepare_attrs d).2 =
      (d.layers.map (fun l => (layer_attrs l).length)).sum := by
  rw [prepare_attrs_eq]
  rw [assocSet_foldl_map d.layers [] 0 (by simp) hnd]
  simp

theorem write_attrs_eq (d : Document)
    (hcnt : (prepare_attrs d).2 < 4294967296)
    (hch : ∀ la ∈ (prepare_attrs d).1, la.1 < 4294967296 ∧
      ∃ l, d.get_layer_by_id la.1 = some l ∧
      ∀ av ∈ la.2, ¬ linked_chunk_overhead av.2.length <
        full_chunk_overhead l.objects.length) :
    write_attrs d = .ok ([ATTRS_START] ++ int_to_bytes (prepare_attrs d).2 ++
      ((prepare_attrs d).1.map (doc_chunk_bytes d)).flatten ++ [ATTRS_END]) := by
  unfold write_attrs
  rw [write_int_ok _ hcnt]
  have hbody : wjoin ((prepare_attrs d).1.map (fun la =>
      wjoin (la.2.map (fun av =>
        match d.get_layer_by_id la.1 with
        | none => .error (.keyError la.1)
        | some l =>
          if linked_chunk_overhead av.2.length <
              full_chunk_overhead l.objects.length
          then write_linked_chunk la.1 av.1 av.2
          else write_full_chunk d la.1 av.1 av.2)))) =
      .ok (((prepare_attrs d).1.map (doc_chunk_bytes d)).flatten) := by
    apply wjoin_map_ok
    intro la hla
    obtain ⟨hb1, l, hl, hguards⟩ := hch la hla
    have : doc_chunk_bytes d la = (la.2.map (fun av =>
        full_chunk_bytes la.1 av.1 av.2 l.objects)).flatten := by
      unfold doc_chunk_bytes
      rw [hl]
    rw [this]
    apply wjoin_map_ok
    intro av hav
    simp only [hl]
    rw [if_neg (hguards av hav)]
    exact write_full_chunk_eq d la.1 av.1 av.2 l hb1 hl
  simp only [hbody]
  rfl

/-! ## Helper lemmas: decoding the writer's bytes -/

theorem parse_header_eq (enc : List Nat) (r : List Nat)
    (h : sep_free enc = true) :
    parse_header ([HEADER_START] ++ enc ++ [SEPARATOR, HEADER_END] ++ r) =
      .ok (⟨enc⟩, r) := by
  unfold parse_header
  simp only [List.append_assoc, List.cons_append, List.nil_append]
  rw [show expectB HEADER_START (HEADER_START :: (enc ++ SEPARATOR ::
    HEADER_END :: r)) = Except.ok (enc ++ SEPARATOR :: HEADER_END :: r)
    from by simp [expectB]]
  simp only [bind, Except.bind]
  rw [eat_until_sep_append enc _ h]
  simp only
  rw [show expectB HEADER_END (HEADER_END :: r) = Except.ok r
    from by simp [expectB]]
  rfl

theorem parse_layer_eq (l : Layer) (i : Nat) (r : List Nat)
    (hname : sep_free l.name = true)
    (hcount : l.objects.length < 4294967296) :
    parse_layer i (layer_bytes l ++ r) =
      .ok (⟨i, l.name, (List.range l.objects.length).map
        (fun j => LayerObject.mk j i [] [])⟩, r) := by
  unfold parse_layer layer_bytes
  simp only [List.append_assoc, List.cons_append, List.nil_append]
  rw [show expectB LAYER_START (LAYER_START :: (l.name ++ SEPARATOR ::
    (int_to_bytes l.objects.length ++ LAYER_END :: r))) =
    Except.ok (l.name ++ SEPARATOR ::
      (int_to_bytes l.objects.length ++ LAYER_END :: r))
    from by simp [expectB]]
  simp only [bind, Except.bind]
  rw [eat_until_sep_append _ _ hname]
  simp only
  rw [read_int_int_to_bytes _ _ hcount]
  simp only
  rw [show expectB LAYER_END (LAYER_END :: r) = Except.ok r
    from by simp [expectB]]
  rfl

theorem parse_layers_loop_eq (LS : List Layer) (i : Nat) (r : List Nat)
    (hc : ∀ l ∈ LS, sep_free l.name = true ∧
      l.objects.length < 4294967296) :
    parse_layers_loop LS.length i ((LS.map layer_bytes).flatten ++ r) =
      .ok (skeleton_from i LS, r) := by
  induction LS generalizing i r with
  | nil => rfl
  | cons l rest ih =>
    rw [List.map_cons, List.flatten_cons, List.append_assoc]
    show parse_layers_loop (rest.length + 1) i _ = _
    unfold parse_layers_loop
    simp only [bind, Except.bind]
    rw [parse_layer_eq l i _ (hc l (by simp)).1 (hc l (by simp)).2]
    simp only
    rw [ih (i + 1) r (fun l' hl' => hc l' (by simp [hl']))]
    rfl

theorem parse_layers_eq (LS : List Layer) (r : List Nat)
    (hlen : LS.length < 4294967296)
    (hc : ∀ l ∈ LS, sep_free l.name = true ∧
      l.objects.length < 4294967296) :
    parse_layers ([LAYERS_START] ++ int_to_bytes LS.length ++
      (LS.map layer_bytes).flatten ++ [LAYERS_END] ++ r) =
      .ok (skeleton_from 0 LS, r) := by
  unfold parse_layers
  simp only [List.append_assoc, List.cons_append, List.nil_append]
  rw [show expectB LAYERS_START (LAYERS_START :: (int_to_bytes LS.length ++
    ((LS.map layer_bytes).flatten ++ LAYERS_END :: r))) =
    Except.ok (int_to_bytes LS.length ++
      ((LS.map layer_bytes).flatten ++ LAYERS_END :: r))
    from by simp [expectB]]
  simp only [bind, Except.bind]
  rw [read_int_int_to_bytes _ _ hlen]
  simp only
  rw [show (LS.map layer_bytes).flatten ++ LAYERS_END :: r =
    (LS.map layer_bytes).flatten ++ ([LAYERS_END] ++ r) from by simp]
  rw [← List.append_assoc]
  rw [show ((LS.map layer_bytes).flatten ++ [LAYERS_END]) ++ r =
    (LS.map layer_bytes).flatten ++ ([LAYERS_END] ++ r) from by simp]
  rw [parse_layers_loop_eq LS 0 ([LAYERS_END] ++ r) hc]
  simp only
  rw [show expectB LAYERS_END ([LAYERS_END] ++ r) = Except.ok r
    from by simp [expectB]]
  rfl

theorem add_child_eq_add_pair (ls : List Layer) (pl pid cl cid : Nat)
    (hpl : pl < ls.length)
    (hpid : pid < (ls.get ⟨pl, hpl⟩).objects.length)
    (hcl : cl < ls.length)
    (hcid : cid < (ls.get ⟨cl, hcl⟩).objects.length) :
    add_child_by_ids ls pl pid cl cid = .ok (add_pair ls pl pid cl cid) := by
  have hp : ls.get? pl = some (ls.get ⟨pl, hpl⟩) :=
    List.get?_eq_some.mpr ⟨hpl, rfl⟩
  have hc : ls.get? cl = some (ls.get ⟨cl, hcl⟩) :=
    List.get?_eq_some.mpr ⟨hcl, rfl⟩
  have hpo : (ls.get ⟨pl, hpl⟩).objects.get? pid =
      some ((ls.get ⟨pl, hpl⟩).objects.get ⟨pid, hpid⟩) :=
    List.get?_eq_some.mpr ⟨hpid, rfl⟩
  have hco : (ls.get ⟨cl, hcl⟩).objects.get? cid =
      some ((ls.get ⟨cl, hcl⟩).objects.get ⟨cid, hcid⟩) :=
    List.get?_eq_some.mpr ⟨hcid, rfl⟩
  unfold add_child_by_ids add_pair
  rw [hp, hc]
  dsimp only
  rw [hpo, hco]

theorem add_pair_skeleton (ls : List Layer) (pl pid cl cid : Nat) :
    skeleton_eq ls (add_pair ls pl pid cl cid) := by
  unfold add_pair
  rcases hp : ls.get? pl with _ | pLayer <;>
    rcases hc : ls.get? cl with _ | cLayer
  · exact skeleton_eq_refl ls
  · exact skeleton_eq_refl ls
  · exact skeleton_eq_refl ls
  dsimp only
  rcases hpo : pLayer.objects.get? pid with _ | pObj <;>
    rcases hco : cLayer.objects.get? cid with _ | cObj
  · exact skeleton_eq_refl ls
  · exact skeleton_eq_refl ls
  · exact skeleton_eq_refl ls
  have hpl : pl < ls.length := (List.get?_eq_some.mp hp).1
  have hget : ls.get ⟨pl, hpl⟩ = pLayer := (List.get?_eq_some.mp hp).2
  have hpid : pid < pLayer.objects.length := (List.get?_eq_some.mp hpo).1
  have hgeto : pLayer.objects.get ⟨pid, hpid⟩ = pObj :=
    (List.get?_eq_some.mp hpo).2
  subst hget
  subst hgeto
  apply skeleton_eq_set ls pl _ hpl
  · rfl
  · rfl
  · simp
  · intro j hj hj'
    by_cases hjp : j = pid
    · subst hjp
      rw [obj_get_set_eq _ _ _ hj']
      exact ⟨rfl, rfl⟩
    · rw [obj_get_set_ne _ _ _ _ hjp hj']
      exact ⟨rfl, rfl⟩

theorem apply_group_skeleton (p c : Nat) (tups : List (Nat × Nat))
    (ls : List Layer) : skeleton_eq ls (apply_group p c tups ls) := by
  induction tups generalizing ls with
  | nil => exact skeleton_eq_refl ls
  | cons t rest ih =>
    show skeleton_eq ls (apply_group p c rest (add_pair ls p t.1 c t.2))
    exact skeleton_eq_trans _ _ _ (add_pair_skeleton ls p t.1 c t.2)
      (ih (add_pair ls p t.1 c t.2))

theorem apply_groups_fold_skeleton (gs : List (Nat × Nat × List (Nat × Nat)))
    (ls : List Layer) :
    skeleton_eq ls (gs.foldl (fun ls g => apply_group g.1 g.2.1 g.2.2 ls) ls) := by
  induction gs generalizing ls with
  | nil => exact skeleton_eq_refl ls
  | cons g rest ih =>
    rw [List.foldl_cons]
    exact skeleton_eq_trans _ _ _ (apply_group_skeleton g.1 g.2.1 g.2.2 ls)
      (ih (apply_group g.1 g.2.1 g.2.2 ls))

theorem apply_rel_map_skeleton (M : List (Nat × List (Nat × List (Nat × Nat))))
    (ls : List Layer) : skeleton_eq ls (apply_rel_map M ls) :=
  apply_groups_fold_skeleton (rel_groups M) ls

theorem parse_pairs_loop_eq (tups : List (Nat × Nat)) (pl cl : Nat)
    (ls : List Layer) (r : List Nat)
    (hpl : pl < ls.length) (hcl : cl < ls.length)
    (hb : ∀ t ∈ tups, t.1 < 4294967296 ∧ t.2 < 4294967296)
    (hpid : ∀ t ∈ tups, t.1 < (ls.get ⟨pl, hpl⟩).objects.length)
    (hcid : ∀ t ∈ tups, t.2 < (ls.get ⟨cl, hcl⟩).objects.length) :
    parse_pairs_loop tups.length pl cl ls
      ((tups.map (fun t => int_to_bytes t.1 ++ int_to_bytes t.2)).flatten ++ r)
      = .ok (apply_group pl cl tups ls, r) := by
  induction tups generalizing ls with
  | nil => rfl
  | cons t rest ih =>
    rw [List.map_cons, List.flatten_cons]
    simp only [List.append_assoc]
    show parse_pairs_loop (rest.length + 1) pl cl ls _ = _
    unfold parse_pairs_loop
    simp only [bind, Except.bind]
    rw [read_int_int_to_bytes _ _ (hb t (by simp)).1]
    simp only
    rw [read_int_int_to_bytes _ _ (hb t (by simp)).2]
    simp only
    rw [add_child_eq_add_pair ls pl t.1 cl t.2 hpl (hpid t (by simp)) hcl
      (hcid t (by simp))]
    simp only
    have hsk : skeleton_eq ls (add_pair ls pl t.1 cl t.2) :=
      add_pair_skeleton ls pl t.1 cl t.2
    have hpl' : pl < (add_pair ls pl t.1 cl t.2).length := by
      rw [hsk.1]; exact hpl
    have hcl' : cl < (add_pair ls pl t.1 cl t.2).length := by
      rw [hsk.1]; exact hcl
    have hplen : ((add_pair ls pl t.1 cl t.2).get ⟨pl, hpl'⟩).objects.length =
        (ls.get ⟨pl, hpl⟩).objects.length := (hsk.2 pl hpl hpl').2.2.1
    have hclen : ((add_pair ls pl t.1 cl t.2).get ⟨cl, hcl'⟩).objects.length =
        (ls.get ⟨cl, hcl⟩).objects.length := (hsk.2 cl hcl hcl').2.2.1
    rw [show apply_group pl cl (t :: rest) ls =
      apply_group pl cl rest (add_pair ls pl t.1 cl t.2) from rfl]
    exact ih (add_pair ls pl t.1 cl t.2) hpl' hcl'
      (fun t' ht' => hb t' (by simp [ht']))
      (fun t' ht' => by rw [hplen]; exact hpid t' (by simp [ht']))
      (fun t' ht' => by rw [hclen]; exact hcid t' (by simp [ht']))

theorem parse_relation_eq (p c : Nat) (tups : List (Nat × Nat))
    (ls : List Layer) (r : List Nat)
    (hp : p < ls.length) (hc : c < ls.length)
    (hpc : p < 4294967296) (hcc : c < 4294967296)
    (hn : tups.length < 4294967296)
    (hb : ∀ t ∈ tups, t.1 < 4294967296 ∧ t.2 < 4294967296)
    (hpid : ∀ t ∈ tups, t.1 < (ls.get ⟨p, hp⟩).objects.length)
    (hcid : ∀ t ∈ tups, t.2 < (ls.get ⟨c, hc⟩).objects.length) :
    parse_relation ls (group_bytes p c tups ++ r) =
      .ok (apply_group p c tups ls, r) := by
  unfold parse_relation group_bytes
  simp only [List.append_assoc, List.cons_append, List.nil_append]
  rw [show expectB RELATION_START (RELATION_START :: (int_to_bytes p ++
    (int_to_bytes c ++ (int_to_bytes tups.length ++
      ((tups.map (fun t => int_to_bytes t.1 ++ int_to_bytes t.2)).flatten ++
        RELATION_END :: r))))) =
    Except.ok (int_to_bytes p ++ (int_to_bytes c ++ (int_to_bytes tups.length ++
      ((tups.map (fun t => int_to_bytes t.1 ++ int_to_bytes t.2)).flatten ++
        RELATION_END :: r))))
    from by simp [expectB]]
  simp only [bind, Except.bind]
  rw [read_int_int_to_bytes _ _ hpc]
  simp only
  rw [read_int_int_to_bytes _ _ hcc]
  simp only
  rw [read_int_int_to_bytes _ _ hn]
  simp only
  rw [show (tups.map (fun t => int_to_bytes t.1 ++ int_to_bytes t.2)).flatten ++
    RELATION_END :: r =
    (tups.map (fun t => int_to_bytes t.1 ++ int_to_bytes t.2)).flatten ++
      ([RELATION_END] ++ r) from by simp]
  rw [parse_pairs_loop_eq tups p c ls ([RELATION_END] ++ r) hp hc hb hpid hcid]
  simp only
  rw [show expectB RELATION_END ([RELATION_END] ++ r) = Except.ok r
    from by simp [expectB]]
  rfl

theorem parse_relations_loop_eq (gs : List (Nat × Nat × List (Nat × Nat)))
    (ls : List Layer) (r : List Nat)
    (hb : ∀ g ∈ gs, g.1 < 4294967296 ∧ g.2.1 < 4294967296 ∧
      g.2.2.length < 4294967296 ∧
      ∀ t ∈ g.2.2, t.1 < 4294967296 ∧ t.2 < 4294967296)
    (hr : ∀ g ∈ gs, ∃ (h1 : g.1 < ls.length) (h2 : g.2.1 < ls.length),
      ∀ t ∈ g.2.2, t.1 < (ls.get ⟨g.1, h1⟩).objects.length ∧
        t.2 < (ls.get ⟨g.2.1, h2⟩).objects.length) :
    parse_relations_loop gs.length ls
      ((gs.map (fun g => group_bytes g.1 g.2.1 g.2.2)).flatten ++ r) =
      .ok (gs.foldl (fun ls g => apply_group g.1 g.2.1 g.2.2 ls) ls, r) := by
  induction gs generalizing ls with
  | nil => rfl
  | cons g rest ih =>
    rw [List.map_cons, List.flatten_cons]
    simp only [List.append_assoc]
    show parse_relations_loop (rest.length + 1) ls _ = _
    unfold parse_relations_loop
    simp only [bind, Except.bind]
    obtain ⟨h1, h2, ht⟩ := hr g (by simp)
    rw [parse_relation_eq g.1 g.2.1 g.2.2 ls _ h1 h2 (hb g (by simp)).1
      (hb g (by simp)).2.1 (hb g (by simp)).2.2.1 (hb g (by simp)).2.2.2
      (fun t htt => (ht t htt).1) (fun t htt => (ht t htt).2)]
    simp only
    rw [List.foldl_cons]
    have hsk : skeleton_eq ls (apply_group g.1 g.2.1 g.2.2 ls) :=
      apply_group_skeleton g.1 g.2.1 g.2.2 ls
    refine ih (apply_group g.1 g.2.1 g.2.2 ls)
      (fun g' hg' => hb g' (by simp [hg'])) (fun g' hg' => ?_)
    obtain ⟨k1, k2, kt⟩ := hr g' (by simp [hg'])
    have k1' : g'.1 < (apply_group g.1 g.2.1 g.2.2 ls).length := by
      rw [hsk.1]; exact k1
    have k2' : g'.2.1 < (apply_group g.1 g.2.1 g.2.2 ls).length := by
      rw [hsk.1]; exact k2
    refine ⟨k1', k2', fun t htt => ?_⟩
    rw [(hsk.2 g'.1 k1 k1').2.2.1, (hsk.2 g'.2.1 k2 k2').2.2.1]
    exact kt t htt

theorem rel_groups_bytes (M : List (Nat × List (Nat × List (Nat × Nat)))) :
    ((rel_groups M).map (fun g => group_bytes g.1 g.2.1 g.2.2)).flatten =
      (M.map (fun pr =>
        (pr.2.map (fun ct => group_bytes pr.1 ct.1 ct.2)).flatten)).flatten := by
  induction M with
  | nil => rfl
  | cons pr rest ih =>
    unfold rel_groups at ih ⊢
    simp only [List.map_cons, List.flatten_cons, List.map_append,
      List.flatten_append, List.map_map]
    rw [ih]
    rfl

theorem rel_groups_length (M : List (Nat × List (Nat × List (Nat × Nat)))) :
    (rel_groups M).length =
      ((M.map (fun pr => pr.2.map (fun ct => (pr.1, ct.1)))).flatten).length := by
  unfold rel_groups
  induction M with
  | nil => rfl
  | cons pr rest ih =>
    simp only [List.map_cons, List.flatten_cons, List.length_append,
      List.length_map]
    rw [ih]

theorem num_relations_eq_groups (d : Document) :
    num_relations d = (rel_groups (prepare_relations d)).length := by
  unfold num_relations
  rw [num_relations_foldl, rel_groups_length]
  simp

theorem parse_relations_eq (M : List (Nat × List (Nat × List (Nat × Nat))))
    (ls : List Layer) (r : List Nat)
    (hN : (rel_groups M).length < 4294967296)
    (hb : ∀ g ∈ rel_groups M, g.1 < 4294967296 ∧ g.2.1 < 4294967296 ∧
      g.2.2.length < 4294967296 ∧
      ∀ t ∈ g.2.2, t.1 < 4294967296 ∧ t.2 < 4294967296)
    (hr : ∀ g ∈ rel_groups M, ∃ (h1 : g.1 < ls.length) (h2 : g.2.1 < ls.length),
      ∀ t ∈ g.2.2, t.1 < (ls.get ⟨g.1, h1⟩).objects.length ∧
        t.2 < (ls.get ⟨g.2.1, h2⟩).objects.length) :
    parse_relations ls ([RELATIONS_START] ++
      int_to_bytes (rel_groups M).length ++
      (M.map (fun pr =>
        (pr.2.map (fun ct => group_bytes pr.1 ct.1 ct.2)).flatten)).flatten ++
      [RELATIONS_END] ++ r) = .ok (apply_rel_map M ls, r) := by
  unfold parse_relations
  simp only [List.append_assoc, List.cons_append, List.nil_append]
  rw [show expectB RELATIONS_START (RELATIONS_START ::
    (int_to_bytes (rel_groups M).length ++
      ((M.map (fun pr =>
        (pr.2.map (fun ct => group_bytes pr.1 ct.1 ct.2)).flatten)).flatten ++
        RELATIONS_END :: r))) =
    Except.ok (int_to_bytes (rel_groups M).length ++
      ((M.map (fun pr =>
        (pr.2.map (fun ct => group_bytes pr.1 ct.1 ct.2)).flatten)).flatten ++
        RELATIONS_END :: r))
    from by simp [expectB]]
  simp only [bind, Except.bind]
  rw [read_int_int_to_bytes _ _ hN]
  simp only
  rw [← rel_groups_bytes M]
  rw [show ((rel_groups M).map (fun g =>
      group_bytes g.1 g.2.1 g.2.2)).flatten ++ RELATIONS_END :: r =
    ((rel_groups M).map (fun g => group_bytes g.1 g.2.1 g.2.2)).flatten ++
      ([RELATIONS_END] ++ r) from by simp]
  rw [parse_relations_loop_eq (rel_groups M) ls ([RELATIONS_END] ++ r) hb hr]
  simp only
  rw [show expectB RELATIONS_END ([RELATIONS_END] ++ r) = Except.ok r
    from by simp [expectB]]
  rfl

theorem add_pair_get? (ls : List Layer) (pl pid cl cid : Nat)
    (pLayer cLayer : Layer) (pObj cObj : LayerObject)
    (hp : ls.get? pl = some pLayer)
    (hpo : pLayer.objects.get? pid = some pObj)
    (hc : ls.get? cl = some cLayer)
    (hco : cLayer.objects.get? cid = some cObj)
    (hlay : cObj.layer = cl) (hid : cObj.id = cid) (i j : Nat) :
    ((add_pair ls pl pid cl cid).get? i).bind (fun l => l.objects.get? j) =
      ((ls.get? i).bind (fun l => l.objects.get? j)).map
        (fun o => if i = pl ∧ j = pid
          then { o with children := o.children ++ [(cl, cid)] } else o) := by
  have hform : add_pair ls pl pid cl cid = ls.set pl { pLayer with
      objects := pLayer.objects.set pid { pObj with
        children := pObj.children ++ [(cl, cid)] } } := by
    unfold add_pair
    rw [hp, hc]
    dsimp only
    rw [hpo, hco]
    dsimp only
    rw [hlay, hid]
  rw [hform]
  by_cases hi : i = pl
  · subst hi
    rw [List.get?_set_eq_of_lt _ (List.get?_eq_some.mp hp).1, hp]
    show ((pLayer.objects.set pid { pObj with
      children := pObj.children ++ [(cl, cid)] }).get? j) =
      (pLayer.objects.get? j).map _
    by_cases hj : j = pid
    · subst hj
      rw [List.get?_set_eq_of_lt _ (List.get?_eq_some.mp hpo).1, hpo]
      simp
    · rw [List.get?_set_ne _ _ (fun he => hj he.symm)]
      rcases hv : pLayer.objects.get? j with _ | o
      · rfl
      · simp [hj]
  · rw [List.get?_set_ne _ _ (fun he => hi he.symm)]
    rcases hv : ls.get? i with _ | l
    · rfl
    · show (l.objects.get? j) = (l.objects.get? j).map _
      rcases hw : l.objects.get? j with _ | o
      · rfl
      · simp [hi]

theorem group_contrib_cons (p c : Nat) (t : Nat × Nat)
    (rest : List (Nat × Nat)) (i j : Nat) :
    group_contrib (p, c, t :: rest) i j =
      (if i = p ∧ j = t.1 then [(c, t.2)] else []) ++
        group_contrib (p, c, rest) i j := by
  unfold group_contrib
  by_cases hp : p = i
  · subst hp
    rw [List.filter_cons]
    by_cases hj : t.1 = j
    · simp [hj]
    · have hj' : ¬ j = t.1 := fun hh => hj hh.symm
      simp [hj, hj']
  · have hp' : ¬ i = p := fun hh => hp hh.symm
    simp [hp, hp']

theorem apply_group_get? (p c : Nat) (tups : List (Nat × Nat)) (ls : List Layer)
    (hbp : ∀ t ∈ tups, ((ls.get? p).bind (fun l => l.objects.get? t.1)).isSome)
    (hbc : ∀ t ∈ tups, ((ls.get? c).bind (fun l => l.objects.get? t.2)).isSome)
    (hpos : ∀ t ∈ tups, ∀ o,
      ((ls.get? c).bind (fun l => l.objects.get? t.2)) = some o →
      o.layer = c ∧ o.id = t.2) (i j : Nat) :
    ((apply_group p c tups ls).get? i).bind (fun l => l.objects.get? j) =
      ((ls.get? i).bind (fun l => l.objects.get? j)).map
        (fun o => { o with children := (o.children ++
          group_contrib (p, c, tups) i j) }) := by
  induction tups generalizing ls with
  | nil =>
    show ((ls.get? i).bind (fun l => l.objects.get? j)) = _
    rcases hv : ls.get? i with _ | l
    · rfl
    · show (l.objects.get? j) = (l.objects.get? j).map _
      rcases hw : l.objects.get? j with _ | o
      · rfl
      · have hnil : group_contrib (p, c, ([] : List (Nat × Nat))) i j = [] := by
          unfold group_contrib
          simp
        simp only [hnil, List.append_nil]
        rfl
  | cons t rest ih =>
    have hsp := hbp t (by simp)
    rcases hl : ls.get? p with _ | pLayer
    · rw [hl] at hsp
      cases hsp
    rw [hl] at hsp
    rcases ho : pLayer.objects.get? t.1 with _ | pObj
    · rw [show ((some pLayer).bind (fun l => l.objects.get? t.1)) =
        pLayer.objects.get? t.1 from rfl, ho] at hsp
      cases hsp
    have hsc := hbc t (by simp)
    rcases hm : ls.get? c with _ | cLayer
    · rw [hm] at hsc
      cases hsc
    rw [hm] at hsc
    rcases hn : cLayer.objects.get? t.2 with _ | cObj
    · rw [show ((some cLayer).bind (fun l => l.objects.get? t.2)) =
        cLayer.objects.get? t.2 from rfl, hn] at hsc
      cases hsc
    have hpc : cObj.layer = c ∧ cObj.id = t.2 := hpos t (by simp) cObj (by
      rw [hm]
      show cLayer.objects.get? t.2 = some cObj
      exact hn)
    have hadd := add_pair_get? ls p t.1 c t.2 pLayer cLayer pObj cObj
      hl ho hm hn hpc.1 hpc.2
    show ((apply_group p c rest (add_pair ls p t.1 c t.2)).get? i).bind
      (fun l => l.objects.get? j) = _
    rw [ih (add_pair ls p t.1 c t.2)
      (fun t' ht' => by
        rw [hadd p t'.1]
        rcases hx : (ls.get? p).bind (fun l => l.objects.get? t'.1) with _ | o
        · have hy := hbp t' (by simp [ht'])
          rw [hx] at hy
          cases hy
        · rfl)
      (fun t' ht' => by
        rw [hadd c t'.2]
        rcases hx : (ls.get? c).bind (fun l => l.objects.get? t'.2) with _ | o
        · have hy := hbc t' (by simp [ht'])
          rw [hx] at hy
          cases hy
        · rfl)
      (fun t' ht' o' ho' => by
        rw [hadd c t'.2] at ho'
        rcases hx : (ls.get? c).bind (fun l => l.objects.get? t'.2) with _ | o
        · rw [hx] at ho'
          cases ho'
        · rw [hx] at ho'
          have ho2 : (if c = p ∧ t'.2 = t.1
              then { o with children := (o.children ++ [(c, t.2)]) }
              else o) = o' := Option.some.inj ho'
          have hbase := hpos t' (by simp [ht']) o hx
          rw [← ho2]
          by_cases hcond : c = p ∧ t'.2 = t.1
          · rw [if_pos hcond]
            exact hbase
          · rw [if_neg hcond]
            exact hbase)]
    rw [hadd i j]
    rw [Option.map_map]
    rcases hv : (ls.get? i).bind (fun l => l.objects.get? j) with _ | o
    · rfl
    · by_cases hcond : i = p ∧ j = t.1
      · simp [group_contrib_cons, hcond, List.append_assoc]
      · simp [group_contrib_cons, hcond]

theorem apply_groups_fold_get? (gs : List (Nat × Nat × List (Nat × Nat)))
    (ls : List Layer)
    (hbp : ∀ g ∈ gs, ∀ t ∈ g.2.2,
      ((ls.get? g.1).bind (fun l => l.objects.get? t.1)).isSome)
    (hbc : ∀ g ∈ gs, ∀ t ∈ g.2.2,
      ((ls.get? g.2.1).bind (fun l => l.objects.get? t.2)).isSome)
    (hpos : ∀ g ∈ gs, ∀ t ∈ g.2.2, ∀ o,
      ((ls.get? g.2.1).bind (fun l => l.objects.get? t.2)) = some o →
      o.layer = g.2.1 ∧ o.id = t.2) (i j : Nat) :
    ((gs.foldl (fun ls g => apply_group g.1 g.2.1 g.2.2 ls) ls).get? i).bind
      (fun l => l.objects.get? j) =
      ((ls.get? i).bind (fun l => l.objects.get? j)).map
        (fun o => { o with children := (o.children ++
          (gs.map (fun g => group_contrib g i j)).flatten) }) := by
  induction gs generalizing ls with
  | nil =>
    show ((ls.get? i).bind (fun l => l.objects.get? j)) = _
    rcases hv : ls.get? i with _ | l
    · rfl
    · show (l.objects.get? j) = (l.objects.get? j).map _
      rcases hw : l.objects.get? j with _ | o
      · rfl
      · simp
  | cons g rest ih =>
    rw [List.foldl_cons]
    have hg := apply_group_get? g.1 g.2.1 g.2.2 ls (hbp g (by simp))
      (hbc g (by simp)) (hpos g (by simp))
    rw [ih (apply_group g.1 g.2.1 g.2.2 ls)
      (fun g' hg' t' ht' => by
        rw [hg g'.1 t'.1]
        rcases hx : (ls.get? g'.1).bind (fun l => l.objects.get? t'.1) with _ | o
        · have hy := hbp g' (by simp [hg']) t' ht'
          rw [hx] at hy
          cases hy
        · rfl)
      (fun g' hg' t' ht' => by
        rw [hg g'.2.1 t'.2]
        rcases hx : (ls.get? g'.2.1).bind (fun l => l.objects.get? t'.2)
            with _ | o
        · have hy := hbc g' (by simp [hg']) t' ht'
          rw [hx] at hy
          cases hy
        · rfl)
      (fun g' hg' t' ht' o' ho' => by
        rw [hg g'.2.1 t'.2] at ho'
        rcases hx : (ls.get? g'.2.1).bind (fun l => l.objects.get? t'.2)
            with _ | o
        · rw [hx] at ho'
          cases ho'
        · rw [hx] at ho'
          have ho2 : ({ o with children := (o.children ++
              group_contrib (g.1, g.2.1, g.2.2) g'.2.1 t'.2) }) = o' :=
            Option.some.inj ho'
          have hbase := hpos g' (by simp [hg']) t' ht' o hx
          rw [← ho2]
          exact hbase)]
    rw [hg i j, Option.map_map]
    rcases hv : (ls.get? i).bind (fun l => l.objects.get? j) with _ | o
    · rfl
    · simp [List.append_assoc]

theorem apply_rel_map_get? (M : List (Nat × List (Nat × List (Nat × Nat))))
    (ls : List Layer)
    (hbp : ∀ g ∈ rel_groups M, ∀ t ∈ g.2.2,
      ((ls.get? g.1).bind (fun l => l.objects.get? t.1)).isSome)
    (hbc : ∀ g ∈ rel_groups M, ∀ t ∈ g.2.2,
      ((ls.get? g.2.1).bind (fun l => l.objects.get? t.2)).isSome)
    (hpos : ∀ g ∈ rel_groups M, ∀ t ∈ g.2.2, ∀ o,
      ((ls.get? g.2.1).bind (fun l => l.objects.get? t.2)) = some o →
      o.layer = g.2.1 ∧ o.id = t.2) (i j : Nat) :
    ((apply_rel_map M ls).get? i).bind (fun l => l.objects.get? j) =
      ((ls.get? i).bind (fun l => l.objects.get? j)).map
        (fun o => { o with children := (o.children ++
          ((rel_groups M).map (fun g => group_contrib g i j)).flatten) }) :=
  apply_groups_fold_get? (rel_groups M) ls hbp hbc hpos i j

theorem group_tuples_filter_aux (OS : List LayerObject) (i c j : Nat) :
    (group_tuples OS i c).filter (fun t => t.1 == j) =
      ((OS.filter (fun o => o.layer == i && o.id == j)).map
        (fun o => (o.children.filter (fun ch => ch.1 == c)).map
          (fun ch => (j, ch.2)))).flatten := by
  induction OS with
  | nil => rfl
  | cons o rest ih =>
    rw [show group_tuples (o :: rest) i c = (if o.layer = i
      then (o.children.filter (fun ch => ch.1 == c)).map (fun ch => (o.id, ch.2))
      else []) ++ group_tuples rest i c from by
        unfold group_tuples
        rw [List.map_cons, List.flatten_cons]]
    rw [List.filter_append, ih, List.filter_cons]
    by_cases hl : o.layer = i
    · by_cases hid : o.id = j
      · rw [if_pos hl, if_pos (by simp [hl, hid])]
        rw [List.filter_map]
        rw [show ((fun t : Nat × Nat => t.1 == j) ∘
          (fun ch : Nat × Nat => (o.id, ch.2))) =
          (fun ch : Nat × Nat => o.id == j) from rfl]
        rw [List.map_cons, List.flatten_cons]
        rw [show (o.children.filter (fun ch => ch.1 == c)).filter
          (fun ch : Nat × Nat => o.id == j) =
          o.children.filter (fun ch => ch.1 == c) from by
            rw [List.filter_eq_self.mpr]
            intro a ha
            simp [hid]]
        rw [hid]
      · rw [if_pos hl, if_neg (by simp [hid])]
        rw [List.filter_map]
        rw [show ((fun t : Nat × Nat => t.1 == j) ∘
          (fun ch : Nat × Nat => (o.id, ch.2))) =
          (fun ch : Nat × Nat => o.id == j) from rfl]
        rw [show (o.children.filter (fun ch => ch.1 == c)).filter
          (fun ch : Nat × Nat => o.id == j) = [] from by
            rw [List.filter_eq_nil_iff]
            intro a ha
            simp [hid]]
        rfl
    · rw [if_neg hl, if_neg (by simp [hl])]
      rfl

theorem objects_filter_id_aux (os : List LayerObject) (s i j : Nat)
    (hlay : ∀ o ∈ os, o.layer = i)
    (hid : ∀ m (hm : m < os.length), (os.get ⟨m, hm⟩).id = s + m)
    (hs : s ≤ j) (hj : j - s < os.length) :
    os.filter (fun o => o.layer == i && o.id == j) = [os.get ⟨j - s, hj⟩] := by
  induction os generalizing s with
  | nil => cases hj
  | cons o rest ih =>
    rw [List.filter_cons]
    have hoid : o.id = s := by
      have := hid 0 (by simp)
      simpa using this
    by_cases hjs : j = s
    · have hcond : (o.layer == i && o.id == j) = true := by
        simp [hlay o (by simp), hoid, hjs]
      rw [if_pos hcond]
      have hrest : rest.filter (fun o => o.layer == i && o.id == j) = [] := by
        rw [List.filter_eq_nil_iff]
        intro a ha
        obtain ⟨⟨m, hm⟩, hget⟩ := List.mem_iff_get.mp ha
        have : a.id = s + (m + 1) := by
          rw [← hget]
          exact hid (m + 1) (by simpa using Nat.succ_lt_succ hm)
        simp [this, hjs]
      rw [hrest]
      have hz : j - s = 0 := by omega
      have : (o :: rest).get ⟨j - s, hj⟩ = o := by
        rw [show (⟨j - s, hj⟩ : Fin (o :: rest).length) =
          ⟨0, by simp⟩ from by
            apply Fin.ext
            simpa using hz]
        rfl
      rw [this]
    · have hcond : (o.layer == i && o.id == j) = false := by
        simp [hoid]
        intro h1
        omega
      rw [if_neg (by simp [hcond])]
      have hs' : s + 1 ≤ j := by omega
      have hj' : j - (s + 1) < rest.length := by
        simp only [List.length_cons] at hj
        omega
      rw [ih (s + 1) (fun o' ho' => hlay o' (by simp [ho']))
        (fun m hm => by
          have := hid (m + 1) (by simpa using Nat.succ_lt_succ hm)
          rw [show rest.get ⟨m, hm⟩ = (o :: rest).get
            ⟨m + 1, by simpa using Nat.succ_lt_succ hm⟩ from rfl]
          rw [this]
          omega) hs' hj']
      have : (o :: rest).get ⟨j - s, hj⟩ = rest.get ⟨j - (s + 1), hj'⟩ := by
        rw [show (⟨j - s, hj⟩ : Fin (o :: rest).length) =
          ⟨(j - (s + 1)) + 1, by simpa using Nat.succ_lt_succ hj'⟩ from by
            apply Fin.ext
            simp
            omega]
        rfl
      rw [this]


theorem get_congr_objects (l1 l2 : Layer) (h : l1 = l2) (j : Nat)
    (hj1 : j < l1.objects.length) (hj2 : j < l2.objects.length) :
    l1.objects.get ⟨j, hj1⟩ = l2.objects.get ⟨j, hj2⟩ := by
  subst h
  rfl

theorem all_objects_filter_aux (LS : List Layer) (off i j : Nat)
    (hpos : ∀ k (hk : k < LS.length), ∀ m
      (hm : m < (LS.get ⟨k, hk⟩).objects.length),
      ((LS.get ⟨k, hk⟩).objects.get ⟨m, hm⟩).id = m ∧
      ((LS.get ⟨k, hk⟩).objects.get ⟨m, hm⟩).layer = off + k)
    (hio : off ≤ i) (hi : i - off < LS.length)
    (hj : j < (LS.get ⟨i - off, hi⟩).objects.length) :
    ((LS.map Layer.objects).flatten).filter
        (fun o => o.layer == i && o.id == j) =
      [(LS.get ⟨i - off, hi⟩).objects.get ⟨j, hj⟩] := by
  induction LS generalizing off with
  | nil => cases hi
  | cons l rest ih =>
    rw [List.map_cons, List.flatten_cons, List.filter_append]
    by_cases hoff : i = off
    · have hz : i - off = 0 := by omega
      have hget0 : (l :: rest).get ⟨i - off, hi⟩ = l := by
        rw [show (⟨i - off, hi⟩ : Fin (l :: rest).length) =
          ⟨0, by simp⟩ from by
            apply Fin.ext
            simpa using hz]
        rfl
      have hj0 : j < l.objects.length := by
        rw [hget0] at hj
        exact hj
      have hhead : l.objects.filter (fun o => o.layer == i && o.id == j) =
          [l.objects.get ⟨j, hj0⟩] := by
        apply objects_filter_id_aux l.objects 0 i j
        · intro o ho
          obtain ⟨⟨m, hm⟩, hget⟩ := List.mem_iff_get.mp ho
          have h2 : (l.objects.get ⟨m, hm⟩).layer = off + 0 :=
            (hpos 0 (by simp) m hm).2
          rw [hget] at h2
          omega
        · intro m hm
          have h2 : (l.objects.get ⟨m, hm⟩).id = m :=
            (hpos 0 (by simp) m hm).1
          omega
        · omega
      have hrest : ((rest.map Layer.objects).flatten).filter
          (fun o => o.layer == i && o.id == j) = [] := by
        rw [List.filter_eq_nil_iff]
        intro a ha
        obtain ⟨os, hos, hmem⟩ := List.mem_flatten.mp ha
        obtain ⟨l', hl', hleq⟩ := List.mem_map.mp hos
        obtain ⟨⟨k, hk⟩, hkeq⟩ := List.mem_iff_get.mp hl'
        subst hkeq
        subst hleq
        obtain ⟨⟨m, hm⟩, hmeq⟩ := List.mem_iff_get.mp hmem
        have hk1 : k + 1 < (l :: rest).length := by
          simpa using Nat.succ_lt_succ hk
        have hlay : ((rest.get ⟨k, hk⟩).objects.get ⟨m, hm⟩).layer =
            off + (k + 1) := (hpos (k + 1) hk1 m hm).2
        rw [hmeq] at hlay
        simp only [Bool.and_eq_true, beq_iff_eq, not_and]
        intro h1
        omega
      rw [hhead, hrest]
      have he : ((l :: rest).get ⟨i - off, hi⟩).objects.get ⟨j, hj⟩ =
          l.objects.get ⟨j, hj0⟩ := get_congr_objects _ _ hget0 j hj hj0
      rw [he]
      simp
    · have hio' : off + 1 ≤ i := by omega
      have hi' : i - (off + 1) < rest.length := by
        simp only [List.length_cons] at hi
        omega
      have hgeteq : (l :: rest).get ⟨i - off, hi⟩ =
          rest.get ⟨i - (off + 1), hi'⟩ := by
        rw [show (⟨i - off, hi⟩ : Fin (l :: rest).length) =
          ⟨(i - (off + 1)) + 1, by simpa using Nat.succ_lt_succ hi'⟩ from by
            apply Fin.ext
            simp
            omega]
        rfl
      have hj' : j < (rest.get ⟨i - (off + 1), hi'⟩).objects.length := by
        rw [← hgeteq]
        exact hj
      have hhead : l.objects.filter (fun o => o.layer == i && o.id == j) =
          [] := by
        rw [List.filter_eq_nil_iff]
        intro a ha
        obtain ⟨⟨m, hm⟩, hget⟩ := List.mem_iff_get.mp ha
        have h2 : (l.objects.get ⟨m, hm⟩).layer = off + 0 :=
          (hpos 0 (by simp) m hm).2
        rw [hget] at h2
        simp only [Bool.and_eq_true, beq_iff_eq, not_and]
        intro h1
        omega
      rw [hhead, List.nil_append]
      have hpos' : ∀ k (hk : k < rest.length), ∀ m
          (hm : m < (rest.get ⟨k, hk⟩).objects.length),
          ((rest.get ⟨k, hk⟩).objects.get ⟨m, hm⟩).id = m ∧
          ((rest.get ⟨k, hk⟩).objects.get ⟨m, hm⟩).layer = (off + 1) + k := by
        intro k hk m hm
        have hk1 : k + 1 < (l :: rest).length := by
          simpa using Nat.succ_lt_succ hk
        obtain ⟨e1, e2⟩ := hpos (k + 1) hk1 m hm
        have e1' : ((rest.get ⟨k, hk⟩).objects.get ⟨m, hm⟩).id = m := e1
        have e2' : ((rest.get ⟨k, hk⟩).objects.get ⟨m, hm⟩).layer =
            off + (k + 1) := e2
        exact ⟨e1', by omega⟩
      rw [ih (off + 1) hpos' hio' hi']
      exact congrArg (fun o => [o]) (get_congr_objects _ _ hgeteq.symm j hj' hj)

theorem rel_groups_keys (M : List (Nat × List (Nat × List (Nat × Nat)))) :
    (rel_groups M).map (fun g => (g.1, g.2.1)) =
      (M.map (fun pr => pr.2.map (fun ct => (pr.1, ct.1)))).flatten := by
  unfold rel_groups
  induction M with
  | nil => rfl
  | cons pr rest ih =>
    simp only [List.map_cons, List.flatten_cons, List.map_append,
      List.map_map]
    rw [ih]
    rfl

theorem mem_rel_groups (M : List (Nat × List (Nat × List (Nat × Nat))))
    (pr : Nat × List (Nat × List (Nat × Nat))) (ct : Nat × List (Nat × Nat))
    (hpr : pr ∈ M) (hct : ct ∈ pr.2) :
    (pr.1, ct.1, ct.2) ∈ rel_groups M := by
  unfold rel_groups
  rw [List.mem_flatten]
  exact ⟨pr.2.map (fun ct => (pr.1, ct.1, ct.2)), List.mem_map_of_mem _ hpr,
    List.mem_map.mpr ⟨ct, hct, rfl⟩⟩

theorem flatten_eq_of_single (gs : List (Nat × Nat × List (Nat × Nat)))
    (f : Nat × Nat × List (Nat × Nat) → List (Nat × Nat)) (k : Nat × Nat)
    (hnd : (gs.map (fun g => (g.1, g.2.1))).Nodup)
    (g0 : Nat × Nat × List (Nat × Nat)) (hg0 : g0 ∈ gs)
    (hk : (g0.1, g0.2.1) = k)
    (hothers : ∀ g ∈ gs, (g.1, g.2.1) ≠ k → f g = []) :
    (gs.map f).flatten = f g0 := by
  induction gs with
  | nil => cases hg0
  | cons g rest ih =>
    rw [List.map_cons, List.flatten_cons]
    rw [List.map_cons, List.nodup_cons] at hnd
    rcases List.mem_cons.mp hg0 with h | h
    · subst h
      have hrest : (rest.map f).flatten = [] := by
        rw [List.flatten_eq_nil_iff]
        intro x hx
        obtain ⟨g', hg', hge⟩ := List.mem_map.mp hx
        rw [← hge]
        apply hothers g' (by simp [hg'])
        intro hke
        exact hnd.1 (by
          rw [hk, ← hke]
          exact List.mem_map_of_mem _ hg')
      rw [hrest, List.append_nil]
    · have hgnil : f g = [] := hothers g (by simp) (fun hke =>
        hnd.1 (by
          rw [hke, ← hk]
          exact List.mem_map_of_mem _ h))
      rw [hgnil, List.nil_append]
      exact ih hnd.2 h (fun g' hg' hne => hothers g' (by simp [hg']) hne)

theorem rel_groups_contrib_flatten (d : Document) (i j : Nat)
    (hi : i < d.layers.length)
    (hj : j < (d.layers.get ⟨i, hi⟩).objects.length)
    (hpos : ∀ k (hk : k < d.layers.length), ∀ m
      (hm : m < (d.layers.get ⟨k, hk⟩).objects.length),
      ((d.layers.get ⟨k, hk⟩).objects.get ⟨m, hm⟩).id = m ∧
      ((d.layers.get ⟨k, hk⟩).objects.get ⟨m, hm⟩).layer = k)
    (hsingle : ∀ ch1 ∈ ((d.layers.get ⟨i, hi⟩).objects.get ⟨j, hj⟩).children,
      ∀ ch2 ∈ ((d.layers.get ⟨i, hi⟩).objects.get ⟨j, hj⟩).children,
      ch1.1 = ch2.1) :
    ((rel_groups (prepare_relations d)).map
      (fun g => group_contrib g i j)).flatten =
      ((d.layers.get ⟨i, hi⟩).objects.get ⟨j, hj⟩).children := by
  have hpos0 : ∀ k (hk : k < d.layers.length), ∀ m
      (hm : m < (d.layers.get ⟨k, hk⟩).objects.length),
      ((d.layers.get ⟨k, hk⟩).objects.get ⟨m, hm⟩).id = m ∧
      ((d.layers.get ⟨k, hk⟩).objects.get ⟨m, hm⟩).layer = 0 + k := by
    intro k hk m hm
    obtain ⟨e1, e2⟩ := hpos k hk m hm
    exact ⟨e1, by omega⟩
  have hOS : (d.get_all_objects).filter
      (fun o => o.layer == i && o.id == j) =
      [(d.layers.get ⟨i, hi⟩).objects.get ⟨j, hj⟩] :=
    all_objects_filter_aux d.layers 0 i j hpos0 (by omega) hi hj
  have hcf : ∀ g ∈ rel_groups (prepare_relations d), g.1 = i →
      group_contrib g i j =
        ((((d.layers.get ⟨i, hi⟩).objects.get ⟨j, hj⟩).children.filter
          (fun ch => ch.1 == g.2.1)).map (fun ch => (g.2.1, ch.2))) := by
    intro g hg hgi
    have hcontent := (rel_groups_content d g hg).1
    unfold group_contrib
    rw [if_pos hgi, hcontent, hgi]
    rw [group_tuples_filter_aux, hOS]
    simp only [List.map_cons, List.map_nil, List.flatten_cons,
      List.flatten_nil, List.append_nil]
    rw [List.map_map]
    rfl
  rcases hch : ((d.layers.get ⟨i, hi⟩).objects.get ⟨j, hj⟩).children
      with _ | ⟨ch0, chrest⟩
  · rw [List.flatten_eq_nil_iff]
    intro x hx
    obtain ⟨g, hg, hge⟩ := List.mem_map.mp hx
    rw [← hge]
    by_cases hgi : g.1 = i
    · rw [hcf g hg hgi, hch]
      rfl
    · unfold group_contrib
      rw [if_neg hgi]
  · have hoch0 : ch0 ∈ ((d.layers.get ⟨i, hi⟩).objects.get ⟨j, hj⟩).children := by
      rw [hch]
      simp
    have holayer : ((d.layers.get ⟨i, hi⟩).objects.get ⟨j, hj⟩).layer = i :=
      (hpos i hi j hj).2
    have homem : (d.layers.get ⟨i, hi⟩).objects.get ⟨j, hj⟩ ∈
        d.get_all_objects := by
      show _ ∈ (d.layers.map Layer.objects).flatten
      rw [List.mem_flatten]
      exact ⟨(d.layers.get ⟨i, hi⟩).objects,
        List.mem_map_of_mem _ (List.get_mem d.layers i hi),
        List.get_mem _ j hj⟩
    have hkey : (i, ch0.1) ∈ ((prepare_relations d).map
        (fun pr => pr.2.map (fun ct => (pr.1, ct.1)))).flatten := by
      unfold prepare_relations
      rw [pairs_objs_fold]
      exact Or.inr ⟨_, homem, holayer, ch0, hoch0, rfl⟩
    obtain ⟨pr, hpr, hpeq, hcmem⟩ := (mem_pairs_iff _ _ _).mp hkey
    obtain ⟨ct, hct, hcteq⟩ := List.mem_map.mp hcmem
    have hg0mem : (pr.1, ct.1, ct.2) ∈ rel_groups (prepare_relations d) :=
      mem_rel_groups _ pr ct hpr hct
    obtain ⟨nd1, nd2, _⟩ := prepare_relations_invariants d
    have hnd : ((rel_groups (prepare_relations d)).map
        (fun g => (g.1, g.2.1))).Nodup := by
      rw [rel_groups_keys]
      exact rel_pairs_nodup _ nd1 nd2
    have hothers : ∀ g ∈ rel_groups (prepare_relations d),
        (g.1, g.2.1) ≠ (i, ch0.1) → group_contrib g i j = [] := by
      intro g hg hne
      by_cases hgi : g.1 = i
      · have hgc : g.2.1 ≠ ch0.1 := by
          intro he
          exact hne (by rw [hgi, he])
        have hfe : (((d.layers.get ⟨i, hi⟩).objects.get ⟨j, hj⟩).children.filter
            (fun ch => ch.1 == g.2.1)) = [] := by
          rw [List.filter_eq_nil_iff]
          intro a ha
          have h1 : a.1 = ch0.1 := hsingle a ha ch0 hoch0
          simp only [beq_iff_eq, h1]
          exact fun he => hgc he.symm
        rw [hcf g hg hgi, hfe]
        rfl
      · unfold group_contrib
        rw [if_neg hgi]
    rw [flatten_eq_of_single _ (fun g => group_contrib g i j) (i, ch0.1) hnd
      (pr.1, ct.1, ct.2) hg0mem (by rw [← hpeq, hcteq]) hothers]
    rw [hcf (pr.1, ct.1, ct.2) hg0mem hpeq.symm]
    have hfill : (((d.layers.get ⟨i, hi⟩).objects.get ⟨j, hj⟩).children.filter
        (fun ch => ch.1 == (pr.1, ct.1, ct.2).2.1)) =
        ((d.layers.get ⟨i, hi⟩).objects.get ⟨j, hj⟩).children := by
      apply List.filter_eq_self.mpr
      intro a ha
      have h1 : a.1 = ch0.1 := hsingle a ha ch0 hoch0
      simp [h1, hcteq]
    rw [hfill, hch]
    rw [List.map_congr_left (fun ch hc => by
      have h1 : ch.1 = ch0.1 := hsingle ch (by rw [hch]; exact hc) ch0 hoch0
      show ((pr.1, ct.1, ct.2).2.1, ch.2) = ch
      rw [show (pr.1, ct.1, ct.2).2.1 = ct.1 from rfl, hcteq, ← h1])]
    simp

theorem apply_chunk_get? (wobjs : List LayerObject) (lid : Nat)
    (name : List Nat) (vals : List (Nat × List Nat)) (ls : List Layer)
    (sl : Layer) (hls : ls.get? lid = some sl)
    (hwlen : wobjs.length = sl.objects.length) (i j : Nat) :
    ((apply_chunk wobjs lid name vals ls).get? i).bind
      (fun l => l.objects.get? j) =
      ((ls.get? i).bind (fun l => l.objects.get? j)).map
        (fun o => if i = lid
          then { o with attrs := (assocSet o.attrs name
            ((assocGet vals (((wobjs.get? j).map LayerObject.id).getD 0)).getD [])) }
          else o) := by
  unfold apply_chunk
  rw [hls]
  by_cases hi : i = lid
  · subst hi
    rw [List.get?_set_eq_of_lt _ (List.get?_eq_some.mp hls).1, hls]
    show ((List.zipWith _ sl.objects wobjs).get? j) =
      (sl.objects.get? j).map _
    rw [List.get?_zipWith']
    rcases ho : sl.objects.get? j with _ | o
    · rfl
    · have hjw : j < wobjs.length := by
        rw [hwlen]
        exact (List.get?_eq_some.mp ho).1
      rcases hw : wobjs.get? j with _ | wo
      · exact absurd (List.get?_eq_none.mp hw) (by omega)
      · simp
  · rw [List.get?_set_ne _ _ (fun he => hi he.symm)]
    rcases hv : ls.get? i with _ | l
    · rfl
    · show (l.objects.get? j) = (l.objects.get? j).map _
      rcases hw : l.objects.get? j with _ | o
      · rfl
      · simp [hi]

theorem parse_chunk_full_eq (ls : List Layer) (lid : Nat) (name : List Nat)
    (vals : List (Nat × List Nat)) (wobjs : List LayerObject) (sl : Layer)
    (rest : List Nat) (hlid : lid < 4294967296)
    (hls : ls.get? lid = some sl) (hname : sep_free name = true)
    (hlen : sl.objects.length = wobjs.length)
    (hsep : ∀ wo ∈ wobjs, sep_free ((assocGet vals wo.id).getD []) = true) :
    parse_chunk ls (full_chunk_bytes lid name vals wobjs ++ rest) =
      .ok (apply_chunk wobjs lid name vals ls, rest) := by
  rw [show parse_chunk ls (full_chunk_bytes lid name vals wobjs ++ rest) =
    parse_full_chunk ls (full_chunk_bytes lid name vals wobjs ++ rest) from rfl]
  rw [parse_full_chunk_eq ls lid name vals wobjs sl rest hlid hls hname hlen hsep]
  unfold apply_chunk
  rw [hls]

theorem apply_chunk_length_inv (wobjs : List LayerObject) (lid : Nat)
    (name : List Nat) (vals : List (Nat × List Nat)) (ls : List Layer)
    (sl : Layer) (hls : ls.get? lid = some sl)
    (hwlen : wobjs.length = sl.objects.length) (k : Nat) :
    ((apply_chunk wobjs lid name vals ls).get? k).map
      (fun l => l.objects.length) =
      (ls.get? k).map (fun l => l.objects.length) := by
  unfold apply_chunk
  rw [hls]
  by_cases hk : k = lid
  · subst hk
    rw [List.get?_set_eq_of_lt _ (List.get?_eq_some.mp hls).1, hls]
    simp [List.length_zipWith, hwlen]
  · rw [List.get?_set_ne _ _ (fun he => hk he.symm)]

theorem parse_attrs_loop_eq (d : Document)
    (chs : List (Nat × List Nat × List (Nat × List Nat)))
    (ls : List Layer) (r : List Nat)
    (hch : ∀ ch ∈ chs, ch.1 < 4294967296 ∧ sep_free ch.2.1 = true ∧
      ∀ e ∈ ch.2.2, sep_free e.2 = true)
    (hlay : ∀ ch ∈ chs, (d.get_layer_by_id ch.1).isSome)
    (hinv : ∀ ch ∈ chs, ∀ l, d.get_layer_by_id ch.1 = some l →
      ∃ sl, ls.get? ch.1 = some sl ∧ sl.objects.length = l.objects.length) :
    parse_attrs_loop chs.length ls
      ((chs.map (fun ch => full_chunk_bytes ch.1 ch.2.1 ch.2.2
        (match d.get_layer_by_id ch.1 with
         | some l => l.objects
         | none => []))).flatten ++ r) =
      .ok (chs.foldl (fun ls ch =>
        apply_chunk (match d.get_layer_by_id ch.1 with
          | some l => l.objects
          | none => []) ch.1 ch.2.1 ch.2.2 ls) ls, r) := by
  induction chs generalizing ls with
  | nil => rfl
  | cons ch rest ih =>
    rw [List.map_cons, List.flatten_cons, List.foldl_cons]
    simp only [List.append_assoc]
    show parse_attrs_loop (rest.length + 1) ls _ = _
    unfold parse_attrs_loop
    simp only [bind, Except.bind]
    rcases hl : d.get_layer_by_id ch.1 with _ | l
    · have hy := hlay ch (by simp)
      rw [hl] at hy
      cases hy
    simp only [hl]
    obtain ⟨sl, hsl, hslen⟩ := hinv ch (by simp) l hl
    rw [parse_chunk_full_eq ls ch.1 ch.2.1 ch.2.2 l.objects sl _
      (hch ch (by simp)).1 hsl (hch ch (by simp)).2.1 hslen
      (fun wo hwo => sep_free_of_lookup _ _ (hch ch (by simp)).2.2)]
    simp only
    refine ih (apply_chunk l.objects ch.1 ch.2.1 ch.2.2 ls)
      (fun ch' hc' => hch ch' (by simp [hc'])) (fun ch' hc' => hlay ch' (by simp [hc']))
      (fun ch' hc' l' h => ?_)
    obtain ⟨sl', hsl', hlen'⟩ := hinv ch' (by simp [hc']) l' h
    have hleq := apply_chunk_length_inv l.objects ch.1 ch.2.1 ch.2.2 ls sl hsl
      hslen.symm ch'.1
    rw [hsl'] at hleq
    rcases hq : (apply_chunk l.objects ch.1 ch.2.1 ch.2.2 ls).get? ch'.1 with _ | sl2
    · rw [hq] at hleq
      cases hleq
    · rw [hq] at hleq
      refine ⟨sl2, rfl, ?_⟩
      have h2 : sl2.objects.length = sl'.objects.length := Option.some.inj hleq
      rw [h2]
      exact hlen'

theorem flat_chunks_bytes (d : Document)
    (A : List (Nat × List (List Nat × List (Nat × List Nat))))
    (hlay : ∀ la ∈ A, (d.get_layer_by_id la.1).isSome) :
    ((flat_chunks A).map (fun ch => full_chunk_bytes ch.1 ch.2.1 ch.2.2
      (match d.get_layer_by_id ch.1 with
       | some l => l.objects
       | none => []))).flatten =
      (A.map (doc_chunk_bytes d)).flatten := by
  induction A with
  | nil => rfl
  | cons la rest ih =>
    unfold flat_chunks at ih ⊢
    simp only [List.map_cons, List.flatten_cons, List.map_append,
      List.flatten_append, List.map_map]
    rw [ih (fun la' hla' => hlay la' (by simp [hla']))]
    rcases hl : d.get_layer_by_id la.1 with _ | l
    · have hy := hlay la (by simp)
      rw [hl] at hy
      cases hy
    have hdoc : doc_chunk_bytes d la = (la.2.map (fun av =>
        full_chunk_bytes la.1 av.1 av.2 l.objects)).flatten := by
      unfold doc_chunk_bytes
      rw [hl]
    rw [hdoc]
    refine congrArg (fun x => x ++ (rest.map (doc_chunk_bytes d)).flatten)
      (congrArg List.flatten ?_)
    apply List.map_congr_left
    intro av hav
    show full_chunk_bytes la.1 av.1 av.2
      (match d.get_layer_by_id la.1 with
       | some l => l.objects
       | none => []) = _
    rw [hl]

theorem flat_chunks_length
    (A : List (Nat × List (List Nat × List (Nat × List Nat)))) :
    (flat_chunks A).length = (A.map (fun la => la.2.length)).sum := by
  unfold flat_chunks
  induction A with
  | nil => rfl
  | cons la rest ih =>
    simp only [List.map_cons, List.flatten_cons, List.length_append,
      List.length_map, List.sum_cons]
    rw [ih]

theorem parse_attrs_eq (d : Document)
    (A : List (Nat × List (List Nat × List (Nat × List Nat))))
    (ls : List Layer) (r : List Nat)
    (hn : (flat_chunks A).length < 4294967296)
    (hlay : ∀ la ∈ A, (d.get_layer_by_id la.1).isSome)
    (hch : ∀ ch ∈ flat_chunks A, ch.1 < 4294967296 ∧
      sep_free ch.2.1 = true ∧ ∀ e ∈ ch.2.2, sep_free e.2 = true)
    (hinv : ∀ ch ∈ flat_chunks A, ∀ l, d.get_layer_by_id ch.1 = some l →
      ∃ sl, ls.get? ch.1 = some sl ∧ sl.objects.length = l.objects.length) :
    parse_attrs ls ([ATTRS_START] ++ int_to_bytes (flat_chunks A).length ++
      (A.map (doc_chunk_bytes d)).flatten ++ [ATTRS_END] ++ r) =
      .ok (apply_attr_map d A ls, r) := by
  have hlay' : ∀ ch ∈ flat_chunks A, (d.get_layer_by_id ch.1).isSome := by
    intro ch hc
    unfold flat_chunks at hc
    rw [List.mem_flatten] at hc
    obtain ⟨x, hx, hmem⟩ := hc
    obtain ⟨la, hla, hlaeq⟩ := List.mem_map.mp hx
    subst hlaeq
    obtain ⟨av, _, haveq⟩ := List.mem_map.mp hmem
    rw [← haveq]
    exact hlay la hla
  unfold parse_attrs
  simp only [List.append_assoc, List.cons_append, List.nil_append]
  rw [show expectB ATTRS_START (ATTRS_START ::
    (int_to_bytes (flat_chunks A).length ++
      ((A.map (doc_chunk_bytes d)).flatten ++ ATTRS_END :: r))) =
    Except.ok (int_to_bytes (flat_chunks A).length ++
      ((A.map (doc_chunk_bytes d)).flatten ++ ATTRS_END :: r))
    from by simp [expectB]]
  simp only [bind, Except.bind]
  rw [read_int_int_to_bytes _ _ hn]
  simp only
  rw [← flat_chunks_bytes d A hlay]
  rw [show ((flat_chunks A).map (fun ch => full_chunk_bytes ch.1 ch.2.1 ch.2.2
      (match d.get_layer_by_id ch.1 with
       | some l => l.objects
       | none => []))).flatten ++ ATTRS_END :: r =
    ((flat_chunks A).map (fun ch => full_chunk_bytes ch.1 ch.2.1 ch.2.2
      (match d.get_layer_by_id ch.1 with
       | some l => l.objects
       | none => []))).flatten ++ ([ATTRS_END] ++ r) from by simp]
  rw [parse_attrs_loop_eq d (flat_chunks A) ls ([ATTRS_END] ++ r) hch hlay' hinv]
  simp only
  rw [show expectB ATTRS_END ([ATTRS_END] ++ r) = Except.ok r
    from by simp [expectB]]
  rfl

theorem skeleton_from_length (s : Nat) (LS : List Layer) :
    (skeleton_from s LS).length = LS.length := by
  induction LS generalizing s with
  | nil => rfl
  | cons l rest ih =>
    unfold skeleton_from
    simp [ih]

theorem skeleton_from_get? (s i : Nat) (LS : List Layer) :
    (skeleton_from s LS).get? i = (LS.get? i).map (fun l =>
      ⟨s + i, l.name, (List.range l.objects.length).map
        (fun j => LayerObject.mk j (s + i) [] [])⟩) := by
  induction LS generalizing s i with
  | nil => rfl
  | cons l rest ih =>
    cases i with
    | zero => rfl
    | succ m =>
      show (skeleton_from (s + 1) rest).get? m = _
      rw [ih (s + 1) m]
      rw [show s + 1 + m = s + (m + 1) from by omega]
      rfl

theorem apply_chunks_fold_get? (d : Document)
    (chs : List (Nat × List Nat × List (Nat × List Nat)))
    (ls : List Layer)
    (hex : ∀ ch ∈ chs, ∀ l, d.get_layer_by_id ch.1 = some l →
      ∃ sl, ls.get? ch.1 = some sl ∧ sl.objects.length = l.objects.length)
    (hlay : ∀ ch ∈ chs, (d.get_layer_by_id ch.1).isSome)
    (i j : Nat) :
    ((chs.foldl (fun ls ch =>
      apply_chunk (match d.get_layer_by_id ch.1 with
        | some l => l.objects
        | none => []) ch.1 ch.2.1 ch.2.2 ls) ls).get? i).bind
      (fun l => l.objects.get? j) =
      ((ls.get? i).bind (fun l => l.objects.get? j)).map
        (fun o => chs.foldl (fun o ch => if i = ch.1
          then { o with attrs := (assocSet o.attrs ch.2.1
            ((assocGet ch.2.2 ((((match d.get_layer_by_id ch.1 with
              | some l => l.objects
              | none => []).get? j).map LayerObject.id).getD 0)).getD [])) }
          else o) o) := by
  induction chs generalizing ls with
  | nil =>
    show ((ls.get? i).bind (fun l => l.objects.get? j)) = _
    rcases hv : ls.get? i with _ | l
    · rfl
    · show (l.objects.get? j) = (l.objects.get? j).map _
      rcases hw : l.objects.get? j with _ | o
      · rfl
      · rfl
  | cons ch rest ih =>
    rw [List.foldl_cons]
    rcases hl : d.get_layer_by_id ch.1 with _ | l
    · have hy := hlay ch (by simp)
      rw [hl] at hy
      cases hy
    obtain ⟨sl, hsl, hslen⟩ := hex ch (by simp) l hl
    simp only [hl]
    have hchu := apply_chunk_get? l.objects ch.1 ch.2.1 ch.2.2 ls sl hsl
      hslen.symm
    rw [ih (apply_chunk l.objects ch.1 ch.2.1 ch.2.2 ls)
      (fun ch' hc' l' h => by
        obtain ⟨sl', hsl', hlen'⟩ := hex ch' (by simp [hc']) l' h
        have hleq := apply_chunk_length_inv l.objects ch.1 ch.2.1 ch.2.2 ls sl
          hsl hslen.symm ch'.1
        rw [hsl'] at hleq
        rcases hq : (apply_chunk l.objects ch.1 ch.2.1 ch.2.2 ls).get? ch'.1
            with _ | sl2
        · rw [hq] at hleq
          cases hleq
        · rw [hq] at hleq
          refine ⟨sl2, rfl, ?_⟩
          have h2 : sl2.objects.length = sl'.objects.length :=
            Option.some.inj hleq
          rw [h2]
          exact hlen')
      (fun ch' hc' => hlay ch' (by simp [hc']))]
    rw [hchu i j, Option.map_map]
    rcases hv : (ls.get? i).bind (fun l => l.objects.get? j) with _ | o
    · rfl
    · simp only [List.foldl_cons, hl]
      rfl

theorem fold_phi_attrs (chs : List (Nat × List Nat × List (Nat × List Nat)))
    (i : Nat) (V : Nat × List Nat × List (Nat × List Nat) → List Nat)
    (o : LayerObject) :
    chs.foldl (fun o ch => if i = ch.1
      then { o with attrs := (assocSet o.attrs ch.2.1 (V ch)) } else o) o =
      { o with attrs := ((chs.filter (fun ch => ch.1 == i)).foldl
          (fun a ch => assocSet a ch.2.1 (V ch)) o.attrs) } := by
  induction chs generalizing o with
  | nil => rfl
  | cons ch rest ih =>
    by_cases hc : i = ch.1
    · have hb : (fun ch : Nat × List Nat × List (Nat × List Nat) =>
        ch.1 == i) ch = true := by simp [hc]
      rw [List.foldl_cons, if_pos hc, ih]
      rw [List.filter_cons, if_pos hb, List.foldl_cons]
    · have hb : (fun ch : Nat × List Nat × List (Nat × List Nat) =>
        ch.1 == i) ch = false := by
        simp
        exact fun he => hc he.symm
      rw [List.foldl_cons, if_neg hc, ih]
      rw [List.filter_cons, if_neg (by simp [hb])]

theorem mem_flat_chunks (A : List (Nat × List (List Nat × List (Nat × List Nat))))
    (ch : Nat × List Nat × List (Nat × List Nat)) (h : ch ∈ flat_chunks A) :
    ∃ la ∈ A, ch.1 = la.1 ∧ (ch.2.1, ch.2.2) ∈ la.2 := by
  unfold flat_chunks at h
  rw [List.mem_flatten] at h
  obtain ⟨x, hx, hmem⟩ := h
  obtain ⟨la, hla, hlaeq⟩ := List.mem_map.mp hx
  subst hlaeq
  obtain ⟨av, hav, haveq⟩ := List.mem_map.mp hmem
  refine ⟨la, hla, ?_, ?_⟩
  · rw [← haveq]
  · rw [← haveq]
    exact hav

theorem filter_flat_chunks_aux (LS : List Layer) (off i : Nat)
    (hids : ∀ k (hk : k < LS.length), (LS.get ⟨k, hk⟩).id = off + k)
    (hio : off ≤ i) (hi : i - off < LS.length) :
    (flat_chunks (LS.map (fun l => (l.id, layer_attrs l)))).filter
      (fun ch => ch.1 == i) =
      (layer_attrs (LS.get ⟨i - off, hi⟩)).map (fun av => (i, av.1, av.2)) := by
  induction LS generalizing off with
  | nil => cases hi
  | cons l rest ih =>
    have hstep : flat_chunks ((l :: rest).map (fun l => (l.id, layer_attrs l))) =
        ((layer_attrs l).map (fun av => (l.id, av.1, av.2))) ++
        flat_chunks (rest.map (fun l => (l.id, layer_attrs l))) := by
      unfold flat_chunks
      rw [List.map_cons, List.map_cons, List.flatten_cons]
    rw [hstep, List.filter_append]
    have hid0 : l.id = off := by
      have := hids 0 (by simp)
      simpa using this
    by_cases hoff : i = off
    · have hz : i - off = 0 := by omega
      have hget0 : (l :: rest).get ⟨i - off, hi⟩ = l := by
        rw [show (⟨i - off, hi⟩ : Fin (l :: rest).length) =
          ⟨0, by simp⟩ from by
            apply Fin.ext
            simpa using hz]
        rfl
      have hhead : (((layer_attrs l).map (fun av => (l.id, av.1, av.2))).filter
          (fun ch => ch.1 == i)) =
          (layer_attrs l).map (fun av => (i, av.1, av.2)) := by
        rw [List.filter_map]
        rw [show ((fun ch : Nat × List Nat × List (Nat × List Nat) =>
          ch.1 == i) ∘ (fun av : List Nat × List (Nat × List Nat) =>
            (l.id, av.1, av.2))) =
          (fun av : List Nat × List (Nat × List Nat) => l.id == i) from rfl]
        rw [List.filter_eq_self.mpr (fun a _ => by simp [hid0, hoff])]
        apply List.map_congr_left
        intro av _
        rw [hid0, hoff]
      have hrest : ((flat_chunks (rest.map (fun l =>
          (l.id, layer_attrs l)))).filter (fun ch => ch.1 == i)) = [] := by
        rw [List.filter_eq_nil_iff]
        intro ch hc
        obtain ⟨la, hla, hcheq, _⟩ := mem_flat_chunks _ ch hc
        obtain ⟨l', hl', hleq⟩ := List.mem_map.mp hla
        obtain ⟨⟨k, hk⟩, hkeq⟩ := List.mem_iff_get.mp hl'
        subst hkeq
        subst hleq
        have hk1 : k + 1 < (l :: rest).length := by
          simpa using Nat.succ_lt_succ hk
        have hlid : (rest.get ⟨k, hk⟩).id = off + (k + 1) := hids (k + 1) hk1
        simp only [beq_iff_eq]
        rw [hcheq]
        simp only
        rw [hlid]
        omega
      rw [hhead, hrest, List.append_nil, hget0]
    · have hio' : off + 1 ≤ i := by omega
      have hi' : i - (off + 1) < rest.length := by
        simp only [List.length_cons] at hi
        omega
      have hgeteq : (l :: rest).get ⟨i - off, hi⟩ =
          rest.get ⟨i - (off + 1), hi'⟩ := by
        rw [show (⟨i - off, hi⟩ : Fin (l :: rest).length) =
          ⟨(i - (off + 1)) + 1, by simpa using Nat.succ_lt_succ hi'⟩ from by
            apply Fin.ext
            simp
            omega]
        rfl
      have hhead : (((layer_attrs l).map (fun av => (l.id, av.1, av.2))).filter
          (fun ch => ch.1 == i)) = [] := by
        rw [List.filter_eq_nil_iff]
        intro a ha
        obtain ⟨av, _, haveq⟩ := List.mem_map.mp ha
        rw [← haveq]
        simp only [beq_iff_eq]
        show ¬ l.id = i
        omega
      have hids' : ∀ k (hk : k < rest.length),
          (rest.get ⟨k, hk⟩).id = (off + 1) + k := by
        intro k hk
        have hk1 : k + 1 < (l :: rest).length := by
          simpa using Nat.succ_lt_succ hk
        have := hids (k + 1) hk1
        rw [show ((l :: rest).get ⟨k + 1, hk1⟩) = rest.get ⟨k, hk⟩ from rfl] at this
        rw [this]
        omega
      rw [hhead, List.nil_append, ih (off + 1) hids' hio' hi', hgeteq]

theorem foldl_assocSet_lookup_not_mem
    (L : List (List Nat × List (Nat × List Nat)))
    (g : List Nat × List (Nat × List Nat) → List Nat)
    (init : List (List Nat × List Nat)) (a : List Nat)
    (h : a ∉ L.map Prod.fst) :
    assocGet (L.foldl (fun acc av => assocSet acc av.1 (g av)) init) a =
      assocGet init a := by
  induction L generalizing init with
  | nil => rfl
  | cons av rest ih =>
    rw [List.foldl_cons, ih _ (fun hm => h (by simp [hm]))]
    rw [assocGet_assocSet, if_neg (fun he => h (by simp [he]))]

theorem foldl_assocSet_lookup (L : List (List Nat × List (Nat × List Nat)))
    (g : List Nat × List (Nat × List Nat) → List Nat)
    (init : List (List Nat × List Nat)) (a : List Nat)
    (hnd : (L.map Prod.fst).Nodup) :
    assocGet (L.foldl (fun acc av => assocSet acc av.1 (g av)) init) a =
      (match assocGet L a with
       | some v => some (g (a, v))
       | none => assocGet init a) := by
  induction L generalizing init with
  | nil => rfl
  | cons av rest ih =>
    obtain ⟨k0, v0⟩ := av
    rw [List.map_cons, List.nodup_cons] at hnd
    rw [List.foldl_cons]
    by_cases ha : a = k0
    · subst ha
      rw [foldl_assocSet_lookup_not_mem rest g _ _ hnd.1]
      rw [assocGet_assocSet, if_pos rfl]
      rw [show assocGet ((a, v0) :: rest) a = some v0 from by
        simp [assocGet]]
    · rw [ih _ hnd.2]
      rw [show assocGet ((k0, v0) :: rest) a = assocGet rest a from by
        simp [assocGet, ha]]
      rcases hr : assocGet rest a with _ | v
      · simp only
        rw [assocGet_assocSet, if_neg ha]
      · simp only

theorem attr_insert_keys_nodup (oid : Nat)
    (inner : List (List Nat × List (Nat × List Nat)))
    (kv : List Nat × List Nat) (h : (inner.map Prod.fst).Nodup) :
    ((attr_insert oid inner kv).map Prod.fst).Nodup := by
  unfold attr_insert
  exact assocSet_keys_nodup _ _ _ h

theorem attrs_fold_keys_nodup (oid : Nat) (kvs : List (List Nat × List Nat))
    (inner : List (List Nat × List (Nat × List Nat)))
    (h : (inner.map Prod.fst).Nodup) :
    (((kvs.foldl (attr_insert oid) inner).map Prod.fst)).Nodup := by
  induction kvs generalizing inner with
  | nil => exact h
  | cons kv rest ih =>
    rw [List.foldl_cons]
    exact ih _ (attr_insert_keys_nodup oid inner kv h)

theorem layer_attrs_keys_nodup (l : Layer) :
    ((layer_attrs l).map Prod.fst).Nodup := by
  unfold layer_attrs
  have : ∀ (os : List LayerObject)
      (inner : List (List Nat × List (Nat × List Nat))),
      (inner.map Prod.fst).Nodup →
      ((os.foldl (fun inner o => o.attrs.foldl (attr_insert o.id) inner)
        inner).map Prod.fst).Nodup := by
    intro os
    induction os with
    | nil => exact fun inner h => h
    | cons o rest ih =>
      intro inner h
      rw [List.foldl_cons]
      exact ih _ (attrs_fold_keys_nodup o.id o.attrs inner h)
  exact this l.objects [] (by simp)

theorem attrs_fold_keys_sub (oid : Nat) (kvs : List (List Nat × List Nat))
    (inner : List (List Nat × List (Nat × List Nat))) (k : List Nat)
    (h : k ∈ ((kvs.foldl (attr_insert oid) inner).map Prod.fst)) :
    k ∈ inner.map Prod.fst ∨ ∃ kv ∈ kvs, kv.1 = k := by
  induction kvs generalizing inner with
  | nil => exact Or.inl h
  | cons kv rest ih =>
    rw [List.foldl_cons] at h
    rcases ih _ h with h1 | h1
    · unfold attr_insert at h1
      rcases (assocSet_keys_mem _ _ _ _).mp h1 with h2 | h2
      · exact Or.inl h2
      · exact Or.inr ⟨kv, by simp, h2.symm⟩
    · obtain ⟨kv', hkv', hke⟩ := h1
      exact Or.inr ⟨kv', by simp [hkv'], hke⟩

theorem layer_attrs_keys_carried (l : Layer) (k : List Nat)
    (h : k ∈ (layer_attrs l).map Prod.fst) :
    ∃ o ∈ l.objects, k ∈ o.attrs.map Prod.fst := by
  unfold layer_attrs at h
  have main : ∀ (os : List LayerObject)
      (inner : List (List Nat × List (Nat × List Nat))),
      k ∈ ((os.foldl (fun inner o => o.attrs.foldl (attr_insert o.id) inner)
        inner).map Prod.fst) →
      k ∈ inner.map Prod.fst ∨ ∃ o ∈ os, k ∈ o.attrs.map Prod.fst := by
    intro os
    induction os with
    | nil => exact fun inner h => Or.inl h
    | cons o rest ih =>
      intro inner hmem
      rw [List.foldl_cons] at hmem
      rcases ih _ hmem with h1 | h1
      · rcases attrs_fold_keys_sub o.id o.attrs inner k h1 with h2 | h2
        · exact Or.inl h2
        · obtain ⟨kv, hkv, hke⟩ := h2
          exact Or.inr ⟨o, by simp, hke ▸ List.mem_map_of_mem Prod.fst hkv⟩
      · obtain ⟨o', ho', hke⟩ := h1
        exact Or.inr ⟨o', by simp [ho'], hke⟩
  rcases main l.objects [] h with h1 | h1
  · cases h1
  · exact h1

theorem ids_eq_range (objs : List LayerObject)
    (hid : ∀ m (hm : m < objs.length), (objs.get ⟨m, hm⟩).id = m) :
    objs.map LayerObject.id = List.range objs.length := by
  apply List.ext_get (by simp)
  intro n h1 h2
  rw [List.get_map, List.get_range]
  exact hid n (by simpa using h1)

theorem mem_vals_of (objs : List LayerObject) (a : List Nat)
    (x : Nat × List Nat) (h : x ∈ vals_of objs a) :
    ∃ o ∈ objs, x.1 = o.id := by
  unfold vals_of at h
  rw [List.mem_filterMap] at h
  obtain ⟨o, ho, hoe⟩ := h
  rcases hv : assocGet o.attrs a with _ | v
  · rw [hv] at hoe
    cases hoe
  · rw [hv] at hoe
    have : (o.id, v) = x := Option.some.inj hoe
    exact ⟨o, ho, by rw [← this]⟩

theorem vals_of_lookup (objs : List LayerObject) (a : List Nat) (s j : Nat)
    (hid : ∀ m (hm : m < objs.length), (objs.get ⟨m, hm⟩).id = s + m)
    (hs : s ≤ j) (hj : j - s < objs.length) :
    assocGet (vals_of objs a) j =
      assocGet ((objs.get ⟨j - s, hj⟩).attrs) a := by
  induction objs generalizing s with
  | nil => cases hj
  | cons o rest ih =>
    have hoid : o.id = s := by
      have := hid 0 (by simp)
      simpa using this
    have hvstep : vals_of (o :: rest) a =
        (match assocGet o.attrs a with
         | some v => (o.id, v) :: vals_of rest a
         | none => vals_of rest a) := by
      unfold vals_of
      rw [List.filterMap_cons]
      rcases hv : assocGet o.attrs a with _ | v <;> simp
    have hid' : ∀ m (hm : m < rest.length),
        (rest.get ⟨m, hm⟩).id = (s + 1) + m := by
      intro m hm
      have hm1 : m + 1 < (o :: rest).length := by
        simpa using Nat.succ_lt_succ hm
      have := hid (m + 1) hm1
      rw [show ((o :: rest).get ⟨m + 1, hm1⟩) = rest.get ⟨m, hm⟩ from rfl] at this
      rw [this]
      omega
    by_cases hjs : j = s
    · have hz : j - s = 0 := by omega
      have hget0 : (o :: rest).get ⟨j - s, hj⟩ = o := by
        rw [show (⟨j - s, hj⟩ : Fin (o :: rest).length) =
          ⟨0, by simp⟩ from by
            apply Fin.ext
            simpa using hz]
        rfl
      rw [hget0]
      have hnone : assocGet (vals_of rest a) j = none := by
        rcases hq : assocGet (vals_of rest a) j with _ | w
        · rfl
        · have hisome : (assocGet (vals_of rest a) j).isSome := by
            rw [hq]
            rfl
          have hmem := (mem_keys_iff_isSome (vals_of rest a) j).mpr hisome
          obtain ⟨x, hx, hxe⟩ := List.mem_map.mp hmem
          obtain ⟨o', ho', hoid'⟩ := mem_vals_of rest a x hx
          obtain ⟨⟨m, hm⟩, hmeq⟩ := List.mem_iff_get.mp ho'
          have := hid' m hm
          rw [hmeq] at this
          rw [← hxe, hoid', this] at hjs
          omega
      rcases hv : assocGet o.attrs a with _ | v
      · rw [hvstep, hv]
        simp only
        rw [hnone]
      · rw [hvstep, hv]
        simp only
        rw [show assocGet ((o.id, v) :: vals_of rest a) j = some v from by
          simp [assocGet, hoid, hjs]]
    · have hs' : s + 1 ≤ j := by omega
      have hj' : j - (s + 1) < rest.length := by
        simp only [List.length_cons] at hj
        omega
      have hgeteq : (o :: rest).get ⟨j - s, hj⟩ =
          rest.get ⟨j - (s + 1), hj'⟩ := by
        rw [show (⟨j - s, hj⟩ : Fin (o :: rest).length) =
          ⟨(j - (s + 1)) + 1, by simpa using Nat.succ_lt_succ hj'⟩ from by
            apply Fin.ext
            simp
            omega]
        rfl
      rw [hgeteq, ← ih (s + 1) hid' hs' hj']
      rw [hvstep]
      rcases hv : assocGet o.attrs a with _ | v
      · simp only
      · simp only
        rw [show assocGet ((o.id, v) :: vals_of rest a) j =
          assocGet (vals_of rest a) j from by
            have : ¬ j = o.id := by omega
            simp [assocGet, this]]

theorem valid_destruct (d : Document) (h : valid d = true) :
    (∃ hd, d.header = some hd ∧ sep_free hd.encoding = true) ∧
    d.layers.length < 4294967296 ∧
    (∀ i (hi : i < d.layers.length),
      (d.layers.get ⟨i, hi⟩).id = i ∧
      sep_free (d.layers.get ⟨i, hi⟩).name = true ∧
      assocGet d.layers_by_id i = some (d.layers.get ⟨i, hi⟩) ∧
      (d.layers.get ⟨i, hi⟩).objects.length < 4294967296 ∧
      ∀ j (hj : j < (d.layers.get ⟨i, hi⟩).objects.length),
        ((d.layers.get ⟨i, hi⟩).objects.get ⟨j, hj⟩).id = j ∧
        ((d.layers.get ⟨i, hi⟩).objects.get ⟨j, hj⟩).layer = i ∧
        (∀ ch1 ∈ ((d.layers.get ⟨i, hi⟩).objects.get ⟨j, hj⟩).children,
         ∀ ch2 ∈ ((d.layers.get ⟨i, hi⟩).objects.get ⟨j, hj⟩).children,
          ch1.1 = ch2.1) ∧
        (∀ ch ∈ ((d.layers.get ⟨i, hi⟩).objects.get ⟨j, hj⟩).children,
          ∃ (hc : ch.1 < d.layers.length),
          ch.2 < (d.layers.get ⟨ch.1, hc⟩).objects.length) ∧
        ((((d.layers.get ⟨i, hi⟩).objects.get ⟨j, hj⟩).attrs.map
          Prod.fst).Nodup) ∧
        (∀ kv ∈ ((d.layers.get ⟨i, hi⟩).objects.get ⟨j, hj⟩).attrs,
          sep_free kv.1 = true ∧ sep_free kv.2 = true) ∧
        (∀ kv ∈ ((d.layers.get ⟨i, hi⟩).objects.get ⟨j, hj⟩).attrs,
          ∀ o' ∈ (d.layers.get ⟨i, hi⟩).objects,
          (assocGet o'.attrs kv.1).isSome = true)) ∧
    num_relations d < 4294967296 ∧
    (∀ pr ∈ prepare_relations d, ∀ ct ∈ pr.2, ct.2.length < 4294967296) ∧
    (prepare_attrs d).2 < 4294967296 := by
  unfold valid at h
  simp only [Bool.and_eq_true] at h
  obtain ⟨⟨⟨⟨⟨h1, h2⟩, h3⟩, h4⟩, h5⟩, h6⟩ := h
  refine ⟨?_, by simpa using h2, ?_, by simpa using h4, ?_, by simpa using h6⟩
  · rcases hh : d.header with _ | hd
    · rw [hh] at h1
      cases h1
    · rw [hh] at h1
      exact ⟨hd, rfl, h1⟩
  · intro i hi
    have hmem : (i, d.layers.get ⟨i, hi⟩) ∈ d.layers.enum := by
      rw [List.mk_mem_enum_iff_getElem?]
      rw [List.getElem?_eq_getElem hi]
      rfl
    have hf := List.all_eq_true.mp h3 _ hmem
    simp only [Bool.and_eq_true, beq_iff_eq, decide_eq_true_eq] at hf
    obtain ⟨⟨⟨⟨f1, f2⟩, f3⟩, f4⟩, f5⟩ := hf
    refine ⟨f1, f2, by simpa using f3, f4, ?_⟩
    intro j hj
    have hmem2 : (j, (d.layers.get ⟨i, hi⟩).objects.get ⟨j, hj⟩) ∈
        (d.layers.get ⟨i, hi⟩).objects.enum := by
      rw [List.mk_mem_enum_iff_getElem?]
      rw [List.getElem?_eq_getElem hj]
      rfl
    have hg := List.all_eq_true.mp f5 _ hmem2
    simp only [Bool.and_eq_true, beq_iff_eq, decide_eq_true_eq] at hg
    obtain ⟨⟨⟨⟨⟨⟨g1, g2⟩, g3⟩, g4⟩, g5⟩, g6⟩, g7⟩ := hg
    refine ⟨g1, g2, ?_, ?_, g5, ?_, ?_⟩
    · intro ch1 hch1 ch2 hch2
      rcases hh : ((d.layers.get ⟨i, hi⟩).objects.get ⟨j, hj⟩).children.head?
          with _ | c0
      · rw [List.head?_eq_none_iff] at hh
        rw [hh] at hch1
        cases hch1
      · rw [hh] at g3
        have e1 := List.all_eq_true.mp g3 ch1 hch1
        have e2 := List.all_eq_true.mp g3 ch2 hch2
        simp only [beq_iff_eq] at e1 e2
        rw [e1, e2]
    · intro ch hch
      have e := List.all_eq_true.mp g4 ch hch
      rcases hq : d.layers.get? ch.1 with _ | cl
      · rw [hq] at e
        cases e
      · rw [hq] at e
        simp only [decide_eq_true_eq] at e
        have hc : ch.1 < d.layers.length := (List.get?_eq_some.mp hq).1
        refine ⟨hc, ?_⟩
        have : d.layers.get ⟨ch.1, hc⟩ = cl := (List.get?_eq_some.mp hq).2
        rw [this]
        exact e
    · intro kv hkv
      have e := List.all_eq_true.mp g6 kv hkv
      simpa [Bool.and_eq_true] using e
    · intro kv hkv o' ho'
      have e := List.all_eq_true.mp g7 kv hkv
      exact List.all_eq_true.mp e o' ho'
  · intro pr hpr ct hct
    have e := List.all_eq_true.mp h5 pr hpr
    have e2 := List.all_eq_true.mp e ct hct
    simpa using e2

theorem layer_ids_eq_range (LS : List Layer)
    (hid : ∀ m (hm : m < LS.length), (LS.get ⟨m, hm⟩).id = m) :
    LS.map Layer.id = List.range LS.length := by
  apply List.ext_get (by simp)
  intro n h1 h2
  rw [List.get_map, List.get_range]
  exact hid n (by simpa using h1)

theorem mem_all_objects (d : Document) (o : LayerObject)
    (h : o ∈ d.get_all_objects) :
    ∃ (i : Nat) (hi : i < d.layers.length) (j : Nat)
      (hj : j < (d.layers.get ⟨i, hi⟩).objects.length),
      (d.layers.get ⟨i, hi⟩).objects.get ⟨j, hj⟩ = o := by
  have h2 : o ∈ (d.layers.map Layer.objects).flatten := h
  rw [List.mem_flatten] at h2
  obtain ⟨os, hos, hmem⟩ := h2
  obtain ⟨l, hl, hleq⟩ := List.mem_map.mp hos
  obtain ⟨⟨i, hi⟩, hieq⟩ := List.mem_iff_get.mp hl
  subst hieq
  subst hleq
  obtain ⟨⟨j, hj⟩, hjeq⟩ := List.mem_iff_get.mp hmem
  exact ⟨i, hi, j, hj, hjeq⟩

theorem mem_group_tuples (OS : List LayerObject) (p c : Nat) (t : Nat × Nat)
    (h : t ∈ group_tuples OS p c) :
    ∃ o ∈ OS, o.layer = p ∧ t.1 = o.id ∧
      ∃ ch ∈ o.children, ch.1 = c ∧ ch.2 = t.2 := by
  unfold group_tuples at h
  rw [List.mem_flatten] at h
  obtain ⟨x, hx, hmem⟩ := h
  obtain ⟨o, ho, hoeq⟩ := List.mem_map.mp hx
  subst hoeq
  by_cases hl : o.layer = p
  · rw [if_pos hl] at hmem
    obtain ⟨ch, hch, hcheq⟩ := List.mem_map.mp hmem
    refine ⟨o, ho, hl, ?_, ch, List.mem_of_mem_filter hch, ?_, ?_⟩
    · rw [← hcheq]
    · have := List.of_mem_filter hch
      simpa using this
    · rw [← hcheq]
  · rw [if_neg hl] at hmem
    cases hmem

theorem get_index_congr (LS : List Layer) (i i' : Nat) (h : i = i')
    (hi : i < LS.length) (hi' : i' < LS.length) :
    LS.get ⟨i, hi⟩ = LS.get ⟨i', hi'⟩ := by
  subst h
  rfl

theorem assocSet_ne_nil {α β : Type} [DecidableEq α]
    (m : List (α × β)) (k : α) (v : β) : assocSet m k v ≠ [] := by
  cases m with
  | nil => simp [assocSet]
  | cons kv rest =>
    obtain ⟨k0, w⟩ := kv
    unfold assocSet
    by_cases h : k = k0 <;> simp [h]

theorem nested_append_snd_ne (M : List (Nat × List (Nat × List (Nat × Nat))))
    (p c : Nat) (e : Nat × Nat) (h : ∀ pr ∈ M, pr.2 ≠ []) :
    ∀ pr ∈ nested_append M p c e, pr.2 ≠ [] := by
  intro pr hpr
  rcases assocSet_mem _ _ _ _ hpr with h1 | h1
  · exact h pr h1
  · subst h1
    exact assocSet_ne_nil _ _ _

theorem children_fold_snd_ne (pl oid : Nat) (cs : List (Nat × Nat))
    (M : List (Nat × List (Nat × List (Nat × Nat))))
    (h : ∀ pr ∈ M, pr.2 ≠ []) :
    ∀ pr ∈ cs.foldl (fun M ch => nested_append M pl ch.1 (oid, ch.2)) M,
      pr.2 ≠ [] := by
  induction cs generalizing M with
  | nil => exact h
  | cons ch rest ih =>
    rw [List.foldl_cons]
    exact ih _ (nested_append_snd_ne M pl ch.1 (oid, ch.2) h)

theorem objs_fold_snd_ne (os : List LayerObject)
    (M : List (Nat × List (Nat × List (Nat × Nat))))
    (h : ∀ pr ∈ M, pr.2 ≠ []) :
    ∀ pr ∈ os.foldl (fun M o => o.children.foldl
      (fun M ch => nested_append M o.layer ch.1 (o.id, ch.2)) M) M,
      pr.2 ≠ [] := by
  induction os generalizing M with
  | nil => exact h
  | cons o rest ih =>
    rw [List.foldl_cons]
    exact ih _ (children_fold_snd_ne o.layer o.id o.children M h)

theorem prepare_relations_nonempty (d : Document) :
    ∀ pr ∈ prepare_relations d, pr.2 ≠ [] := by
  unfold prepare_relations
  exact objs_fold_snd_ne d.get_all_objects [] (by simp)

theorem prepare_relations_bounds (d : Document) (h : valid d = true) :
    ∀ pr ∈ prepare_relations d, pr.1 < 4294967296 ∧
      ∀ ct ∈ pr.2, ct.1 < 4294967296 ∧ ct.2.length < 4294967296 ∧
        ∀ t ∈ ct.2, t.1 < 4294967296 ∧ t.2 < 4294967296 := by
  obtain ⟨_, hlen, hlay, _, hctlen, _⟩ := valid_destruct d h
  intro pr hpr
  have hkeygen : ∀ c', c' ∈ pr.2.map Prod.fst →
      pr.1 < d.layers.length ∧ c' < d.layers.length := by
    intro c' hc'
    have hkey : (pr.1, c') ∈ ((prepare_relations d).map
        (fun pr => pr.2.map (fun ct => (pr.1, ct.1)))).flatten :=
      (mem_pairs_iff _ _ _).mpr ⟨pr, hpr, rfl, hc'⟩
    unfold prepare_relations at hkey
    rw [pairs_objs_fold] at hkey
    rcases hkey with hk | ⟨o, ho, holay, ch, hch, hche⟩
    · simp at hk
    · obtain ⟨i, hi, j, hj, hoeq⟩ := mem_all_objects d o ho
      obtain ⟨_, _, _, _, hobj⟩ := hlay i hi
      obtain ⟨_, holayer, _, hrange, _, _, _⟩ := hobj j hj
      constructor
      · rw [← holay, ← hoeq, holayer]
        exact hi
      · obtain ⟨hc, _⟩ := hrange ch (by rw [hoeq]; exact hch)
        rw [← hche]
        exact hc
  constructor
  · rcases hne : pr.2.map Prod.fst with _ | ⟨c0, _⟩
    · -- pr.2 nonempty in practice, but derive bound anyway via membership
      obtain ⟨nd1, nd2, nd3⟩ := prepare_relations_invariants d
      -- pr ∈ M means pr.1 is a key; every key pair has a witness unless pr.2 = []
      -- fall back: pr.2 = [] gives no info, but prepare_relations never
      -- produces an empty inner map: every entry is created by nested_append
      have hempty : pr.2 = [] := by
        cases hp2 : pr.2 with
        | nil => rfl
        | cons ct rest =>
          rw [hp2] at hne
          cases hne
      -- an entry with empty inner map: the key never occurs; use the
      -- invariant that inner maps are nonempty
      exact absurd hempty (prepare_relations_nonempty d pr hpr)
    · have := hkeygen c0 (by rw [hne]; simp)
      omega
  · intro ct hct
    have hc1 := hkeygen ct.1 (List.mem_map_of_mem Prod.fst hct)
    refine ⟨by omega, hctlen pr hpr ct hct, ?_⟩
    intro t ht
    have hcontent := (rel_groups_content d (pr.1, ct.1, ct.2)
      (mem_rel_groups _ pr ct hpr hct)).1
    simp only at hcontent
    rw [hcontent] at ht
    obtain ⟨o, ho, holay, hid, ch, hch, hche, hche2⟩ :=
      mem_group_tuples _ _ _ t ht
    obtain ⟨i, hi, j, hj, hoeq⟩ := mem_all_objects d o ho
    obtain ⟨_, _, _, hcount, hobj⟩ := hlay i hi
    obtain ⟨hoid, _, _, hrange, _, _, _⟩ := hobj j hj
    constructor
    · rw [hid, ← hoeq, hoid]
      omega
    · obtain ⟨hc, hcb⟩ := hrange ch (by rw [hoeq]; exact hch)
      have := (hlay ch.1 hc).2.2.2.1
      omega

theorem rel_groups_ranges (d : Document) (h : valid d = true) :
    ∀ g ∈ rel_groups (prepare_relations d),
      ∃ (h1 : g.1 < d.layers.length) (h2 : g.2.1 < d.layers.length),
      ∀ t ∈ g.2.2, t.1 < (d.layers.get ⟨g.1, h1⟩).objects.length ∧
        t.2 < (d.layers.get ⟨g.2.1, h2⟩).objects.length := by
  obtain ⟨_, hlen, hlay, _, _, _⟩ := valid_destruct d h
  intro g hg
  obtain ⟨hcontent, hkey⟩ := rel_groups_content d g hg
  unfold rel_key_pairs at hkey
  unfold prepare_relations at hkey
  rw [pairs_objs_fold] at hkey
  rcases hkey with hk | ⟨o, ho, holay, ch, hch, hche⟩
  · simp at hk
  obtain ⟨i, hi, j, hj, hoeq⟩ := mem_all_objects d o ho
  obtain ⟨_, _, _, _, hobj⟩ := hlay i hi
  obtain ⟨_, holayer, _, hrange, _, _, _⟩ := hobj j hj
  have h1 : g.1 < d.layers.length := by
    rw [← holay, ← hoeq, holayer]
    exact hi
  obtain ⟨hc, _⟩ := hrange ch (by rw [hoeq]; exact hch)
  have h2 : g.2.1 < d.layers.length := by
    rw [← hche]
    exact hc
  refine ⟨h1, h2, ?_⟩
  intro t ht
  rw [hcontent] at ht
  obtain ⟨o', ho', holay', hid', ch', hch', hche', hche2'⟩ :=
    mem_group_tuples _ _ _ t ht
  obtain ⟨i', hi', j', hj', hoeq'⟩ := mem_all_objects d o' ho'
  obtain ⟨_, _, _, _, hobj'⟩ := hlay i' hi'
  obtain ⟨hoid', holayer', _, hrange', _, _, _⟩ := hobj' j' hj'
  have hieq : i' = g.1 := by
    rw [← holay', ← hoeq', holayer']
  constructor
  · rw [hid', ← hoeq', hoid']
    rw [get_index_congr d.layers g.1 i' hieq.symm h1 hi']
    exact hj'
  · obtain ⟨hc', hcb'⟩ := hrange' ch' (by rw [hoeq']; exact hch')
    rw [← hche2']
    rw [get_index_congr d.layers g.2.1 ch'.1 hche'.symm h2 hc']
    exact hcb'

theorem attrs_guard_full (d : Document) (h : valid d = true) :
    ∀ la ∈ (prepare_attrs d).1, la.1 < 4294967296 ∧
      ∃ l, d.get_layer_by_id la.1 = some l ∧
      ∀ av ∈ la.2, ¬ linked_chunk_overhead av.2.length <
        full_chunk_overhead l.objects.length := by
  obtain ⟨_, hlen, hlay, _, _, _⟩ := valid_destruct d h
  have hnd : (d.layers.map Layer.id).Nodup := by
    rw [layer_ids_eq_range d.layers (fun m hm => (hlay m hm).1)]
    exact List.nodup_range _
  obtain ⟨hA, _⟩ := prepare_attrs_struct d hnd
  intro la hla
  rw [hA] at hla
  obtain ⟨l, hl, hleq⟩ := List.mem_map.mp hla
  obtain ⟨⟨i, hi⟩, hieq⟩ := List.mem_iff_get.mp hl
  obtain ⟨hid, _, hbyid, hcount, hobj⟩ := hlay i hi
  subst hieq
  subst hleq
  refine ⟨by simp only [hid]; omega, d.layers.get ⟨i, hi⟩, ?_, ?_⟩
  · show assocGet d.layers_by_id (d.layers.get ⟨i, hi⟩).id = _
    rw [hid]
    exact hbyid
  · intro av hav
    show ¬ _
    have hvals : av.2 = vals_of (d.layers.get ⟨i, hi⟩).objects av.1 := by
      have hget : assocGet (layer_attrs (d.layers.get ⟨i, hi⟩)) av.1 =
          some av.2 :=
        assocGet_of_mem_nodup _ _ _ (layer_attrs_keys_nodup _) hav
      have := layer_attrs_lookup (d.layers.get ⟨i, hi⟩) av.1
        (by
          rw [ids_eq_range _ (fun m hm => (hobj m hm).1)]
          exact List.nodup_range _)
        (fun o ho => by
          obtain ⟨⟨j, hj⟩, hjeq⟩ := List.mem_iff_get.mp ho
          obtain ⟨_, _, _, _, hnd', _, _⟩ := hobj j hj
          rw [← hjeq]
          exact hnd')
      rw [hget] at this
      simpa using this
    have hcarried : ∃ o ∈ (d.layers.get ⟨i, hi⟩).objects,
        av.1 ∈ o.attrs.map Prod.fst :=
      layer_attrs_keys_carried _ av.1 (List.mem_map_of_mem Prod.fst hav)
    obtain ⟨o0, ho0, hk0⟩ := hcarried
    obtain ⟨kv0, hkv0, hkv0e⟩ := List.mem_map.mp hk0
    obtain ⟨⟨j0, hj0⟩, hj0eq⟩ := List.mem_iff_get.mp ho0
    obtain ⟨_, _, _, _, _, _, hcarry⟩ := hobj j0 hj0
    have hall : ∀ o' ∈ (d.layers.get ⟨i, hi⟩).objects,
        (assocGet o'.attrs av.1).isSome = true := by
      intro o' ho'
      have := hcarry kv0 (by rw [hj0eq]; exact hkv0) o' ho'
      rw [hkv0e] at this
      exact this
    have hlenv : av.2.length = (d.layers.get ⟨i, hi⟩).objects.length := by
      rw [hvals, vals_of_length]
      rw [List.filter_eq_self.mpr (fun o' ho' => hall o' ho')]
    rw [hlenv]
    unfold linked_chunk_overhead full_chunk_overhead
    omega

theorem write_document_eq (d : Document) (h : valid d = true) :
    ∃ hd, d.header = some hd ∧
    write_document d = .ok (write_header hd ++
      ([LAYERS_START] ++ int_to_bytes d.layers.length ++
        (d.layers.map layer_bytes).flatten ++ [LAYERS_END]) ++
      ([RELATIONS_START] ++ int_to_bytes (num_relations d) ++
        ((prepare_relations d).map (fun pr =>
          (pr.2.map (fun ct => group_bytes pr.1 ct.1 ct.2)).flatten)).flatten ++
        [RELATIONS_END]) ++
      ([ATTRS_START] ++ int_to_bytes (prepare_attrs d).2 ++
        ((prepare_attrs d).1.map (doc_chunk_bytes d)).flatten ++
        [ATTRS_END])) := by
  obtain ⟨⟨hd, hh, _⟩, hlen, hlay, hnum, _, hcnt⟩ := valid_destruct d h
  refine ⟨hd, hh, ?_⟩
  have hw1 : write_layers d = .ok ([LAYERS_START] ++
      int_to_bytes d.layers.length ++
      (d.layers.map layer_bytes).flatten ++ [LAYERS_END]) := by
    apply write_layers_eq d hlen
    intro l hl
    obtain ⟨⟨i, hi⟩, hieq⟩ := List.mem_iff_get.mp hl
    rw [← hieq]
    exact (hlay i hi).2.2.2.1
  have hw2 : write_relations d = .ok ([RELATIONS_START] ++
      int_to_bytes (num_relations d) ++
      ((prepare_relations d).map (fun pr =>
        (pr.2.map (fun ct => group_bytes pr.1 ct.1 ct.2)).flatten)).flatten ++
      [RELATIONS_END]) :=
    write_relations_eq d hnum (prepare_relations_bounds d h)
  have hw3 : write_attrs d = .ok ([ATTRS_START] ++
      int_to_bytes (prepare_attrs d).2 ++
      ((prepare_attrs d).1.map (doc_chunk_bytes d)).flatten ++
      [ATTRS_END]) := by
    apply write_attrs_eq d hcnt
    intro la hla
    obtain ⟨hb, l, hl, hg⟩ := attrs_guard_full d h la hla
    exact ⟨hb, l, hl, hg⟩
  unfold write_document
  rw [hh]
  simp only [bind, Except.bind]
  rw [hw1, hw2, hw3]
  rfl

theorem skeleton_from_getf (s : Nat) (LS : List Layer) (i : Nat)
    (hi : i < LS.length) (hi' : i < (skeleton_from s LS).length) :
    (skeleton_from s LS).get ⟨i, hi'⟩ =
      ⟨s + i, (LS.get ⟨i, hi⟩).name,
        (List.range (LS.get ⟨i, hi⟩).objects.length).map
          (fun j => LayerObject.mk j (s + i) [] [])⟩ := by
  have h1 : (skeleton_from s LS).get? i =
      some ((skeleton_from s LS).get ⟨i, hi'⟩) :=
    List.get?_eq_some.mpr ⟨hi', rfl⟩
  have h2 : LS.get? i = some (LS.get ⟨i, hi⟩) :=
    List.get?_eq_some.mpr ⟨hi, rfl⟩
  have h3 := skeleton_from_get? s i LS
  rw [h1, h2] at h3
  exact Option.some.inj h3

theorem rel_groups_mem_inv (M : List (Nat × List (Nat × List (Nat × Nat))))
    (g : Nat × Nat × List (Nat × Nat)) (hg : g ∈ rel_groups M) :
    ∃ pr ∈ M, ∃ ct ∈ pr.2, g = (pr.1, ct.1, ct.2) := by
  unfold rel_groups at hg
  rw [List.mem_flatten] at hg
  obtain ⟨x, hx, hmem⟩ := hg
  obtain ⟨pr, hpr, hpreq⟩ := List.mem_map.mp hx
  subst hpreq
  obtain ⟨ct, hct, hcteq⟩ := List.mem_map.mp hmem
  exact ⟨pr, hpr, ct, hct, hcteq.symm⟩

theorem rel_groups_bounds (d : Document) (h : valid d = true) :
    ∀ g ∈ rel_groups (prepare_relations d),
      g.1 < 4294967296 ∧ g.2.1 < 4294967296 ∧ g.2.2.length < 4294967296 ∧
      ∀ t ∈ g.2.2, t.1 < 4294967296 ∧ t.2 < 4294967296 := by
  intro g hg
  obtain ⟨pr, hpr, ct, hct, hge⟩ := rel_groups_mem_inv _ g hg
  obtain ⟨hb1, hb2⟩ := prepare_relations_bounds d h pr hpr
  obtain ⟨hc1, hc2, hc3⟩ := hb2 ct hct
  subst hge
  exact ⟨hb1, hc1, hc2, hc3⟩

theorem chunks_count_eq (d : Document)
    (hnd : (d.layers.map Layer.id).Nodup) :
    (prepare_attrs d).2 = (flat_chunks (prepare_attrs d).1).length := by
  rw [flat_chunks_length]
  obtain ⟨hA, hcnt⟩ := prepare_attrs_struct d hnd
  rw [hA, hcnt, List.map_map]
  rfl

theorem mem_vals_of' (objs : List LayerObject) (a : List Nat)
    (x : Nat × List Nat) (h : x ∈ vals_of objs a) :
    ∃ o ∈ objs, x.1 = o.id ∧ assocGet o.attrs a = some x.2 := by
  unfold vals_of at h
  rw [List.mem_filterMap] at h
  obtain ⟨o, ho, hoe⟩ := h
  rcases hv : assocGet o.attrs a with _ | v
  · rw [hv] at hoe
    cases hoe
  · rw [hv] at hoe
    have he : (o.id, v) = x := Option.some.inj hoe
    refine ⟨o, ho, by rw [← he], ?_⟩
    rw [hv, ← he]

theorem flat_chunk_origin (d : Document) (h : valid d = true) :
    ∀ ch ∈ flat_chunks (prepare_attrs d).1,
      ∃ (hi : ch.1 < d.layers.length),
      d.get_layer_by_id ch.1 = some (d.layers.get ⟨ch.1, hi⟩) ∧
      (ch.2.1, ch.2.2) ∈ layer_attrs (d.layers.get ⟨ch.1, hi⟩) := by
  obtain ⟨_, _, hlay, _, _, _⟩ := valid_destruct d h
  have hnd : (d.layers.map Layer.id).Nodup := by
    rw [layer_ids_eq_range d.layers (fun m hm => (hlay m hm).1)]
    exact List.nodup_range _
  obtain ⟨hA, _⟩ := prepare_attrs_struct d hnd
  intro ch hch
  obtain ⟨la, hla, hch1, hpair⟩ := mem_flat_chunks _ ch hch
  rw [hA] at hla
  obtain ⟨l, hl, hleq⟩ := List.mem_map.mp hla
  obtain ⟨⟨i, hi⟩, hieq⟩ := List.mem_iff_get.mp hl
  obtain ⟨hid, _, hbyid, _, _⟩ := hlay i hi
  subst hieq
  subst hleq
  have hch1' : ch.1 = i := by
    rw [hch1]
    simp only
    exact hid
  have hi' : ch.1 < d.layers.length := by omega
  refine ⟨hi', ?_, ?_⟩
  · show assocGet d.layers_by_id ch.1 = _
    rw [get_index_congr d.layers ch.1 i hch1' hi' hi]
    rw [hch1']
    exact hbyid
  · rw [get_index_congr d.layers ch.1 i hch1' hi' hi]
    exact hpair

theorem vals_struct (d : Document) (h : valid d = true) (i : Nat)
    (hi : i < d.layers.length) (name : List Nat)
    (vals : List (Nat × List Nat))
    (hmem : (name, vals) ∈ layer_attrs (d.layers.get ⟨i, hi⟩)) :
    vals = vals_of (d.layers.get ⟨i, hi⟩).objects name := by
  obtain ⟨_, _, hlay, _, _, _⟩ := valid_destruct d h
  obtain ⟨_, _, _, _, hobj⟩ := hlay i hi
  have hget : assocGet (layer_attrs (d.layers.get ⟨i, hi⟩)) name = some vals :=
    assocGet_of_mem_nodup _ _ _ (layer_attrs_keys_nodup _) (by simpa using hmem)
  have hlook := layer_attrs_lookup (d.layers.get ⟨i, hi⟩) name
    (by
      rw [ids_eq_range _ (fun m hm => (hobj m hm).1)]
      exact List.nodup_range _)
    (fun o ho => by
      obtain ⟨⟨j, hj⟩, hjeq⟩ := List.mem_iff_get.mp ho
      obtain ⟨_, _, _, _, hnd', _, _⟩ := hobj j hj
      rw [← hjeq]
      exact hnd')
  rw [hget] at hlook
  simpa using hlook

theorem attrs_chunks_facts (d : Document) (h : valid d = true) :
    ∀ ch ∈ flat_chunks (prepare_attrs d).1, ch.1 < 4294967296 ∧
      sep_free ch.2.1 = true ∧ ∀ e ∈ ch.2.2, sep_free e.2 = true := by
  obtain ⟨_, hlen, hlay, _, _, _⟩ := valid_destruct d h
  intro ch hch
  obtain ⟨hi, hbyid, hpair⟩ := flat_chunk_origin d h ch hch
  obtain ⟨_, _, _, _, hobj⟩ := hlay ch.1 hi
  have hvals : ch.2.2 = vals_of (d.layers.get ⟨ch.1, hi⟩).objects ch.2.1 :=
    vals_struct d h ch.1 hi ch.2.1 ch.2.2 hpair
  refine ⟨by omega, ?_, ?_⟩
  · obtain ⟨o, ho, hk⟩ := layer_attrs_keys_carried _ ch.2.1
      (List.mem_map_of_mem Prod.fst hpair)
    obtain ⟨kv, hkv, hkve⟩ := List.mem_map.mp hk
    obtain ⟨⟨j, hj⟩, hjeq⟩ := List.mem_iff_get.mp ho
    obtain ⟨_, _, _, _, _, hsf, _⟩ := hobj j hj
    have := (hsf kv (by rw [hjeq]; exact hkv)).1
    rw [hkve] at this
    exact this
  · intro e he
    rw [hvals] at he
    obtain ⟨o, ho, _, hval⟩ := mem_vals_of' _ _ e he
    obtain ⟨⟨j, hj⟩, hjeq⟩ := List.mem_iff_get.mp ho
    obtain ⟨_, _, _, _, _, hsf, _⟩ := hobj j hj
    have hkvmem : (ch.2.1, e.2) ∈ o.attrs := assocGet_mem _ _ _ hval
    exact (hsf (ch.2.1, e.2) (by rw [hjeq]; exact hkvmem)).2

theorem attrs_inv_ls2 (d : Document) (h : valid d = true) :
    ∀ ch ∈ flat_chunks (prepare_attrs d).1, ∀ l,
      d.get_layer_by_id ch.1 = some l →
      ∃ sl, (apply_rel_map (prepare_relations d)
        (skeleton_from 0 d.layers)).get? ch.1 = some sl ∧
        sl.objects.length = l.objects.length := by
  intro ch hch l hl
  obtain ⟨hi, hbyid, _⟩ := flat_chunk_origin d h ch hch
  have hle : d.layers.get ⟨ch.1, hi⟩ = l :=
    Option.some.inj (hbyid.symm.trans hl)
  have hsk : skeleton_eq (skeleton_from 0 d.layers)
      (apply_rel_map (prepare_relations d) (skeleton_from 0 d.layers)) :=
    apply_rel_map_skeleton _ _
  have hi1 : ch.1 < (skeleton_from 0 d.layers).length := by
    rw [skeleton_from_length]
    exact hi
  have hi2 : ch.1 < (apply_rel_map (prepare_relations d)
      (skeleton_from 0 d.layers)).length := by
    rw [hsk.1]
    exact hi1
  refine ⟨_, List.get?_eq_some.mpr ⟨hi2, rfl⟩, ?_⟩
  rw [(hsk.2 ch.1 hi1 hi2).2.2.1]
  rw [skeleton_from_getf 0 d.layers ch.1 hi hi1]
  simp only [List.length_map, List.length_range]
  rw [hle]

theorem parse_encoded_eq (d : Document) (h : valid d = true) (hd : Header)
    (hh : d.header = some hd) :
    parse (write_header hd ++
      ([LAYERS_START] ++ int_to_bytes d.layers.length ++
        (d.layers.map layer_bytes).flatten ++ [LAYERS_END]) ++
      ([RELATIONS_START] ++ int_to_bytes (num_relations d) ++
        ((prepare_relations d).map (fun pr =>
          (pr.2.map (fun ct => group_bytes pr.1 ct.1 ct.2)).flatten)).flatten ++
        [RELATIONS_END]) ++
      ([ATTRS_START] ++ int_to_bytes (prepare_attrs d).2 ++
        ((prepare_attrs d).1.map (doc_chunk_bytes d)).flatten ++
        [ATTRS_END])) =
    .ok (Document.add_layers ⟨[], [], some hd⟩
      (apply_attr_map d (prepare_attrs d).1
        (apply_rel_map (prepare_relations d) (skeleton_from 0 d.layers)))) := by
  obtain ⟨⟨hd0, hh0, hsep0⟩, hlen, hlay, hnum, _, hcnt⟩ := valid_destruct d h
  have hde : hd0 = hd := Option.some.inj (hh0.symm.trans hh)
  rw [hde] at hsep0
  have hnd : (d.layers.map Layer.id).Nodup := by
    rw [layer_ids_eq_range d.layers (fun m hm => (hlay m hm).1)]
    exact List.nodup_range _
  have hlc : ∀ l ∈ d.layers, sep_free l.name = true ∧
      l.objects.length < 4294967296 := by
    intro l hl
    obtain ⟨⟨i, hi⟩, hieq⟩ := List.mem_iff_get.mp hl
    obtain ⟨_, hsf, _, hcn, _⟩ := hlay i hi
    rw [← hieq]
    exact ⟨hsf, hcn⟩
  have hN : (rel_groups (prepare_relations d)).length < 4294967296 := by
    rw [← num_relations_eq_groups]
    exact hnum
  have hrsk : ∀ g ∈ rel_groups (prepare_relations d),
      ∃ (h1 : g.1 < (skeleton_from 0 d.layers).length)
        (h2 : g.2.1 < (skeleton_from 0 d.layers).length),
      ∀ t ∈ g.2.2,
        t.1 < ((skeleton_from 0 d.layers).get ⟨g.1, h1⟩).objects.length ∧
        t.2 < ((skeleton_from 0 d.layers).get ⟨g.2.1, h2⟩).objects.length := by
    intro g hg
    obtain ⟨h1, h2, ht⟩ := rel_groups_ranges d h g hg
    have h1' : g.1 < (skeleton_from 0 d.layers).length := by
      rw [skeleton_from_length]
      exact h1
    have h2' : g.2.1 < (skeleton_from 0 d.layers).length := by
      rw [skeleton_from_length]
      exact h2
    refine ⟨h1', h2', fun t htt => ?_⟩
    rw [skeleton_from_getf 0 d.layers g.1 h1 h1']
    rw [skeleton_from_getf 0 d.layers g.2.1 h2 h2']
    simp only [List.length_map, List.length_range]
    exact ht t htt
  have hn2 : (flat_chunks (prepare_attrs d).1).length < 4294967296 := by
    rw [← chunks_count_eq d hnd]
    exact hcnt
  have hlayA : ∀ la ∈ (prepare_attrs d).1, (d.get_layer_by_id la.1).isSome := by
    intro la hla
    obtain ⟨_, l, hl, _⟩ := attrs_guard_full d h la hla
    rw [hl]
    rfl
  unfold parse
  simp only [bind, Except.bind]
  rw [show write_header hd ++
      ([LAYERS_START] ++ int_to_bytes d.layers.length ++
        (d.layers.map layer_bytes).flatten ++ [LAYERS_END]) ++
      ([RELATIONS_START] ++ int_to_bytes (num_relations d) ++
        ((prepare_relations d).map (fun pr =>
          (pr.2.map (fun ct => group_bytes pr.1 ct.1 ct.2)).flatten)).flatten ++
        [RELATIONS_END]) ++
      ([ATTRS_START] ++ int_to_bytes (prepare_attrs d).2 ++
        ((prepare_attrs d).1.map (doc_chunk_bytes d)).flatten ++
        [ATTRS_END]) =
    [HEADER_START] ++ hd.encoding ++ [SEPARATOR, HEADER_END] ++
      ([LAYERS_START] ++ int_to_bytes d.layers.length ++
        (d.layers.map layer_bytes).flatten ++ [LAYERS_END] ++
      ([RELATIONS_START] ++
        int_to_bytes (rel_groups (prepare_relations d)).length ++
        ((prepare_relations d).map (fun pr =>
          (pr.2.map (fun ct => group_bytes pr.1 ct.1 ct.2)).flatten)).flatten ++
        [RELATIONS_END] ++
      ([ATTRS_START] ++
        int_to_bytes (flat_chunks (prepare_attrs d).1).length ++
        ((prepare_attrs d).1.map (doc_chunk_bytes d)).flatten ++
        [ATTRS_END] ++ []))) from by
    rw [← num_relations_eq_groups d, ← chunks_count_eq d hnd]
    unfold write_header write_flag write_string
    simp]
  rw [parse_header_eq hd.encoding _ hsep0]
  simp only
  rw [parse_layers_eq d.layers _ hlen hlc]
  simp only
  rw [parse_relations_eq (prepare_relations d) (skeleton_from 0 d.layers) _
    hN (rel_groups_bounds d h) hrsk]
  simp only
  rw [parse_attrs_eq d (prepare_attrs d).1
    (apply_rel_map (prepare_relations d) (skeleton_from 0 d.layers)) []
    hn2 hlayA (attrs_chunks_facts d h) (attrs_inv_ls2 d h)]
  rfl

theorem skeleton_bind (d : Document) (a b : Nat)
    (ha : a < d.layers.length)
    (hb : b < (d.layers.get ⟨a, ha⟩).objects.length) :
    ((skeleton_from 0 d.layers).get? a).bind (fun l => l.objects.get? b) =
      some ⟨b, a, [], []⟩ := by
  rw [skeleton_from_get?]
  rw [List.get?_eq_some.mpr ⟨ha, rfl⟩]
  show ((List.range (d.layers.get ⟨a, ha⟩).objects.length).map
    (fun j => LayerObject.mk j (0 + a) [] [])).get? b = _
  rw [List.get?_map, List.get?_range hb]
  simp

theorem foldl_congr_fun {α β : Type} (l : List β) (f g : α → β → α) (b : α)
    (h : ∀ a x, x ∈ l → f a x = g a x) : l.foldl f b = l.foldl g b := by
  induction l generalizing b with
  | nil => rfl
  | cons x rest ih =>
    rw [List.foldl_cons, List.foldl_cons, h b x (by simp)]
    exact ih _ (fun a y hy => h a y (by simp [hy]))

theorem decoded_object (d : Document) (h : valid d = true) (i j : Nat)
    (hi : i < d.layers.length)
    (hj : j < (d.layers.get ⟨i, hi⟩).objects.length) :
    ((apply_attr_map d (prepare_attrs d).1
      (apply_rel_map (prepare_relations d)
        (skeleton_from 0 d.layers))).get? i).bind
      (fun l => l.objects.get? j) =
      some ⟨j, i,
        ((d.layers.get ⟨i, hi⟩).objects.get ⟨j, hj⟩).children,
        ((layer_attrs (d.layers.get ⟨i, hi⟩)).foldl
          (fun a av => assocSet a av.1 ((assocGet av.2 j).getD [])) [])⟩ := by
  obtain ⟨_, hlen, hlay, _, _, _⟩ := valid_destruct d h
  have hnd : (d.layers.map Layer.id).Nodup := by
    rw [layer_ids_eq_range d.layers (fun m hm => (hlay m hm).1)]
    exact List.nodup_range _
  obtain ⟨hA, _⟩ := prepare_attrs_struct d hnd
  have hpos : ∀ k (hk : k < d.layers.length), ∀ m
      (hm : m < (d.layers.get ⟨k, hk⟩).objects.length),
      ((d.layers.get ⟨k, hk⟩).objects.get ⟨m, hm⟩).id = m ∧
      ((d.layers.get ⟨k, hk⟩).objects.get ⟨m, hm⟩).layer = k := by
    intro k hk m hm
    obtain ⟨_, _, _, _, hobj⟩ := hlay k hk
    obtain ⟨e1, e2, _⟩ := hobj m hm
    exact ⟨e1, e2⟩
  have hrel := apply_rel_map_get? (prepare_relations d)
    (skeleton_from 0 d.layers)
    (fun g hg t ht => by
      obtain ⟨h1, h2, hrng⟩ := rel_groups_ranges d h g hg
      rw [skeleton_bind d g.1 t.1 h1 (hrng t ht).1]
      rfl)
    (fun g hg t ht => by
      obtain ⟨h1, h2, hrng⟩ := rel_groups_ranges d h g hg
      rw [skeleton_bind d g.2.1 t.2 h2 (hrng t ht).2]
      rfl)
    (fun g hg t ht o ho => by
      obtain ⟨h1, h2, hrng⟩ := rel_groups_ranges d h g hg
      rw [skeleton_bind d g.2.1 t.2 h2 (hrng t ht).2] at ho
      have he : (⟨t.2, g.2.1, [], []⟩ : LayerObject) = o := Option.some.inj ho
      rw [← he]
      exact ⟨rfl, rfl⟩) i j
  have hattr := apply_chunks_fold_get? d (flat_chunks (prepare_attrs d).1)
    (apply_rel_map (prepare_relations d) (skeleton_from 0 d.layers))
    (attrs_inv_ls2 d h)
    (fun ch hch => by
      obtain ⟨hic, hbyid, _⟩ := flat_chunk_origin d h ch hch
      rw [hbyid]
      rfl) i j
  rw [show apply_attr_map d (prepare_attrs d).1
      (apply_rel_map (prepare_relations d) (skeleton_from 0 d.layers)) =
    (flat_chunks (prepare_attrs d).1).foldl (fun ls ch =>
      apply_chunk (match d.get_layer_by_id ch.1 with
        | some l => l.objects
        | none => []) ch.1 ch.2.1 ch.2.2 ls)
      (apply_rel_map (prepare_relations d) (skeleton_from 0 d.layers))
    from rfl]
  rw [hattr, hrel, skeleton_bind d i j hi hj]
  have hms : ∀ (f : LayerObject → LayerObject) (x : LayerObject),
      Option.map f (some x) = some (f x) := fun f x => rfl
  rw [hms, hms]
  refine congrArg some ?_
  show (flat_chunks (prepare_attrs d).1).foldl (fun o ch => if i = ch.1
      then { o with attrs := (assocSet o.attrs ch.2.1
        ((assocGet ch.2.2 ((((match d.get_layer_by_id ch.1 with
          | some l => l.objects
          | none => []).get? j).map LayerObject.id).getD 0)).getD [])) }
      else o)
    (⟨j, i, ([] : List (Nat × Nat)) ++
      ((rel_groups (prepare_relations d)).map
        (fun g => group_contrib g i j)).flatten, []⟩ : LayerObject) = _
  obtain ⟨_, _, hbyid, _, hobj⟩ := hlay i hi
  obtain ⟨hoid, _, hsingle0, _, _, _, _⟩ := hobj j hj
  have hchildren : ([] : List (Nat × Nat)) ++
      ((rel_groups (prepare_relations d)).map
        (fun g => group_contrib g i j)).flatten =
      ((d.layers.get ⟨i, hi⟩).objects.get ⟨j, hj⟩).children := by
    rw [List.nil_append]
    exact rel_groups_contrib_flatten d i j hi hj hpos
      (fun ch1 h1 ch2 h2 => hsingle0 ch1 h1 ch2 h2)
  rw [hchildren]
  have hfold := fold_phi_attrs (flat_chunks (prepare_attrs d).1) i
    (fun ch => ((assocGet ch.2.2 ((((match d.get_layer_by_id ch.1 with
      | some l => l.objects
      | none => []).get? j).map LayerObject.id).getD 0)).getD []))
    (⟨j, i, ((d.layers.get ⟨i, hi⟩).objects.get ⟨j, hj⟩).children,
      []⟩ : LayerObject)
  rw [hfold]
  have hfilter : (flat_chunks (prepare_attrs d).1).filter
      (fun ch => ch.1 == i) =
      (layer_attrs (d.layers.get ⟨i, hi⟩)).map (fun av => (i, av.1, av.2)) := by
    rw [hA]
    have hids0 : ∀ k (hk : k < d.layers.length),
        (d.layers.get ⟨k, hk⟩).id = 0 + k := by
      intro k hk
      rw [(hlay k hk).1]
      omega
    exact filter_flat_chunks_aux d.layers 0 i hids0 (by omega) hi
  rw [hfilter, List.foldl_map]
  have hVred : ∀ (a : List (List Nat × List Nat))
      (av : List Nat × List (Nat × List Nat)),
      av ∈ layer_attrs (d.layers.get ⟨i, hi⟩) →
      assocSet a ((i, av.1, av.2) : Nat × List Nat ×
        List (Nat × List Nat)).2.1
        ((assocGet ((i, av.1, av.2) : Nat × List Nat ×
          List (Nat × List Nat)).2.2
          ((((match d.get_layer_by_id ((i, av.1, av.2) : Nat × List Nat ×
            List (Nat × List Nat)).1 with
            | some l => l.objects
            | none => []).get? j).map LayerObject.id).getD 0)).getD []) =
      assocSet a av.1 ((assocGet av.2 j).getD []) := by
    intro a av _
    have hbyid' : d.get_layer_by_id i = some (d.layers.get ⟨i, hi⟩) := hbyid
    show assocSet a av.1
      ((assocGet av.2
        ((((match d.get_layer_by_id i with
          | some l => l.objects
          | none => []).get? j).map LayerObject.id).getD 0)).getD []) = _
    rw [hbyid']
    rw [show (match some (d.layers.get ⟨i, hi⟩) with
      | some l => l.objects
      | none => ([] : List LayerObject)) =
      (d.layers.get ⟨i, hi⟩).objects from rfl]
    rw [List.get?_eq_some.mpr ⟨hj, rfl⟩]
    rw [show (Option.map LayerObject.id
      (some ((d.layers.get ⟨i, hi⟩).objects.get ⟨j, hj⟩))).getD 0 =
      ((d.layers.get ⟨i, hi⟩).objects.get ⟨j, hj⟩).id from rfl]
    rw [hoid]
  rw [foldl_congr_fun (layer_attrs (d.layers.get ⟨i, hi⟩)) _
    (fun a av => assocSet a av.1 ((assocGet av.2 j).getD []))
    _ (fun a x hx => hVred a x hx)]

theorem attrs_fold_keys_mono (oid : Nat) (kvs : List (List Nat × List Nat))
    (inner : List (List Nat × List (Nat × List Nat))) (k : List Nat)
    (h : k ∈ inner.map Prod.fst) :
    k ∈ (kvs.foldl (attr_insert oid) inner).map Prod.fst := by
  induction kvs generalizing inner with
  | nil => exact h
  | cons kv rest ih =>
    rw [List.foldl_cons]
    apply ih
    unfold attr_insert
    exact (assocSet_keys_mem _ _ _ _).mpr (Or.inl h)

theorem attrs_fold_keys_self (oid : Nat) (kvs : List (List Nat × List Nat))
    (inner : List (List Nat × List (Nat × List Nat)))
    (kv : List Nat × List Nat) (hkv : kv ∈ kvs) :
    kv.1 ∈ (kvs.foldl (attr_insert oid) inner).map Prod.fst := by
  induction kvs generalizing inner with
  | nil => cases hkv
  | cons kv0 rest ih =>
    rw [List.foldl_cons]
    rcases List.mem_cons.mp hkv with h1 | h1
    · subst h1
      apply attrs_fold_keys_mono
      unfold attr_insert
      exact (assocSet_keys_mem _ _ _ _).mpr (Or.inr rfl)
    · exact ih _ h1

theorem objs_attrs_keys_mono (os : List LayerObject)
    (inner : List (List Nat × List (Nat × List Nat))) (k : List Nat)
    (h : k ∈ inner.map Prod.fst) :
    k ∈ (os.foldl (fun inner o => o.attrs.foldl (attr_insert o.id) inner)
      inner).map Prod.fst := by
  induction os generalizing inner with
  | nil => exact h
  | cons o rest ih =>
    rw [List.foldl_cons]
    exact ih _ (attrs_fold_keys_mono o.id o.attrs inner k h)

theorem layer_attrs_keys_complete (l : Layer) (o : LayerObject)
    (kv : List Nat × List Nat) (ho : o ∈ l.objects) (hkv : kv ∈ o.attrs) :
    kv.1 ∈ (layer_attrs l).map Prod.fst := by
  unfold layer_attrs
  have main : ∀ (os : List LayerObject)
      (inner : List (List Nat × List (Nat × List Nat))), o ∈ os →
      kv.1 ∈ (os.foldl (fun inner o => o.attrs.foldl (attr_insert o.id) inner)
        inner).map Prod.fst := by
    intro os
    induction os with
    | nil => exact fun inner hmem => absurd hmem (by simp)
    | cons o0 rest ih =>
      intro inner hmem
      rw [List.foldl_cons]
      rcases List.mem_cons.mp hmem with h1 | h1
      · subst h1
        exact objs_attrs_keys_mono rest _ kv.1
          (attrs_fold_keys_self o.id o.attrs inner kv hkv)
      · exact ih _ h1
  exact main l.objects [] ho

theorem foldl_assocSet_keys_nodup
    (L : List (List Nat × List (Nat × List Nat)))
    (g : List Nat × List (Nat × List Nat) → List Nat)
    (init : List (List Nat × List Nat))
    (h : (init.map Prod.fst).Nodup) :
    (((L.foldl (fun acc av => assocSet acc av.1 (g av)) init).map
      Prod.fst)).Nodup := by
  induction L generalizing init with
  | nil => exact h
  | cons av rest ih =>
    rw [List.foldl_cons]
    exact ih _ (assocSet_keys_nodup _ _ _ h)

theorem decoded_attrs_equiv (d : Document) (h : valid d = true) (i j : Nat)
    (hi : i < d.layers.length)
    (hj : j < (d.layers.get ⟨i, hi⟩).objects.length) :
    attrs_equiv ((d.layers.get ⟨i, hi⟩).objects.get ⟨j, hj⟩).attrs
      ((layer_attrs (d.layers.get ⟨i, hi⟩)).foldl
        (fun a av => assocSet a av.1 ((assocGet av.2 j).getD [])) []) = true := by
  obtain ⟨_, _, hlay, _, _, _⟩ := valid_destruct d h
  obtain ⟨_, _, _, _, hobj⟩ := hlay i hi
  obtain ⟨hoid, _, _, _, hnda, _, _⟩ := hobj j hj
  have hidpos : ∀ m (hm : m < (d.layers.get ⟨i, hi⟩).objects.length),
      ((d.layers.get ⟨i, hi⟩).objects.get ⟨m, hm⟩).id = 0 + m := by
    intro m hm
    rw [(hobj m hm).1]
    omega
  have hndL : ((layer_attrs (d.layers.get ⟨i, hi⟩)).map Prod.fst).Nodup :=
    layer_attrs_keys_nodup _
  have hlook : ∀ a, assocGet ((layer_attrs (d.layers.get ⟨i, hi⟩)).foldl
      (fun a av => assocSet a av.1 ((assocGet av.2 j).getD [])) []) a =
      (match assocGet (layer_attrs (d.layers.get ⟨i, hi⟩)) a with
       | some v => some ((assocGet v j).getD [])
       | none => none) := by
    intro a
    have hbase := foldl_assocSet_lookup (layer_attrs (d.layers.get ⟨i, hi⟩))
      (fun av => (assocGet av.2 j).getD []) [] a hndL
    rcases hr : assocGet (layer_attrs (d.layers.get ⟨i, hi⟩)) a with _ | v
    · rw [hr] at hbase
      exact hbase
    · rw [hr] at hbase
      exact hbase
  unfold attrs_equiv
  rw [Bool.and_eq_true]
  constructor
  · rw [List.all_eq_true]
    intro kv hkv
    have hkey : kv.1 ∈ (layer_attrs (d.layers.get ⟨i, hi⟩)).map Prod.fst :=
      layer_attrs_keys_complete _ _ kv (List.get_mem _ j hj) hkv
    have hsome := (mem_keys_iff_isSome _ _).mp hkey
    rcases hv : assocGet (layer_attrs (d.layers.get ⟨i, hi⟩)) kv.1 with _ | v
    · rw [hv] at hsome
      cases hsome
    · have hvv : v = vals_of (d.layers.get ⟨i, hi⟩).objects kv.1 :=
        vals_struct d h i hi kv.1 v (assocGet_mem _ _ _ hv)
      have hoa : assocGet
          ((d.layers.get ⟨i, hi⟩).objects.get ⟨j, hj⟩).attrs kv.1 =
          some kv.2 := assocGet_of_mem_nodup _ _ _ hnda hkv
      have hol' : assocGet (vals_of (d.layers.get ⟨i, hi⟩).objects kv.1) j =
          some kv.2 := by
        rw [vals_of_lookup (d.layers.get ⟨i, hi⟩).objects kv.1 0 j hidpos
          (by omega) hj]
        exact hoa
      rw [hlook kv.1, hv]
      simp only
      rw [hvv, hol']
      simp
  · rw [List.all_eq_true]
    intro kv' hkv'
    have hndF : (((layer_attrs (d.layers.get ⟨i, hi⟩)).foldl
        (fun a av => assocSet a av.1 ((assocGet av.2 j).getD [])) []).map
        Prod.fst).Nodup :=
      foldl_assocSet_keys_nodup (layer_attrs (d.layers.get ⟨i, hi⟩))
        (fun av => (assocGet av.2 j).getD []) [] (by simp)
    have hFv : assocGet ((layer_attrs (d.layers.get ⟨i, hi⟩)).foldl
        (fun a av => assocSet a av.1 ((assocGet av.2 j).getD [])) [])
        kv'.1 = some kv'.2 := assocGet_of_mem_nodup _ _ _ hndF hkv'
    rw [hlook kv'.1] at hFv
    rcases hv : assocGet (layer_attrs (d.layers.get ⟨i, hi⟩)) kv'.1 with _ | v
    · rw [hv] at hFv
      cases hFv
    · rw [hv] at hFv
      simp only at hFv
      have hval : (assocGet v j).getD [] = kv'.2 := Option.some.inj hFv
      have hvv : v = vals_of (d.layers.get ⟨i, hi⟩).objects kv'.1 :=
        vals_struct d h i hi kv'.1 v (assocGet_mem _ _ _ hv)
      have hkeymem : kv'.1 ∈ (layer_attrs (d.layers.get ⟨i, hi⟩)).map
          Prod.fst := (mem_keys_iff_isSome _ _).mpr (by rw [hv]; rfl)
      obtain ⟨o0, ho0, hk0⟩ := layer_attrs_keys_carried _ kv'.1 hkeymem
      obtain ⟨kv0, hkv0, hkv0e⟩ := List.mem_map.mp hk0
      obtain ⟨⟨j0, hj0⟩, hj0eq⟩ := List.mem_iff_get.mp ho0
      have hcarryall := (hobj j0 hj0).2.2.2.2.2.2
      have hjsome : (assocGet
          ((d.layers.get ⟨i, hi⟩).objects.get ⟨j, hj⟩).attrs kv'.1).isSome =
          true := by
        have := hcarryall kv0 (by rw [hj0eq]; exact hkv0) _
          (List.get_mem _ j hj)
        rw [hkv0e] at this
        exact this
      rcases hw : assocGet
          ((d.layers.get ⟨i, hi⟩).objects.get ⟨j, hj⟩).attrs kv'.1 with _ | w
      · rw [hw] at hjsome
        cases hjsome
      · have hol' : assocGet (vals_of (d.layers.get ⟨i, hi⟩).objects kv'.1)
            j = some w := by
          rw [vals_of_lookup (d.layers.get ⟨i, hi⟩).objects kv'.1 0 j hidpos
            (by omega) hj]
          exact hw
        rw [hvv, hol'] at hval
        simp only [Option.getD_some] at hval
        simp [hval]

theorem add_layers_nil_base (hd : Header) (ls : List Layer) :
    (Document.add_layers ⟨[], [], some hd⟩ ls).layers = ls := by
  rw [add_layers_layers]
  rfl

/-- Counterexample to Claim C1 as stated: `absentAttrDoc` (two objects, only
the first carrying attribute `key1`) is accepted by encode without error,
decode succeeds on the encoded bytes, yet the result is **not** structurally
equivalent to the input — `_parse_full_chunk` assigns every object of the
layer a value run, so the second object comes back with a spurious empty
`key1` attribute that the original never had. -/
theorem round_trip_counterexample :
    round_trip_equiv absentAttrDoc = some false := by rfl

/-- Claim C1 (amended): for every document that is `valid` — positional
layer/object ids with a consistent id index, separator-free strings,
every object's children in range and confined to a single layer,
duplicate-free attribute keys with *every* attribute carried by all objects
of its layer, and all writer-emitted counts below `2^32` — encoding succeeds
and decoding the produced bytes yields a document structurally equivalent to
the input: the same ordered layers by name and object count, and for every
object the same attribute map (values as bytes) and the same ordered child
references compared as `(layer_id, object_id)` pairs. -/
theorem round_trip_amended (d : Document) (h : valid d = true) :
    ∃ bs d', write_document d = .ok bs ∧ parse bs = .ok d' ∧
      doc_equiv d d' = true := by
  obtain ⟨hd, hh, hw⟩ := write_document_eq d h
  refine ⟨_, _, hw, parse_encoded_eq d h hd hh, ?_⟩
  obtain ⟨_, hlen, hlay, _, _, hcnt⟩ := valid_destruct d h
  have hnd : (d.layers.map Layer.id).Nodup := by
    rw [layer_ids_eq_range d.layers (fun m hm => (hlay m hm).1)]
    exact List.nodup_range _
  have hn2 : (flat_chunks (prepare_attrs d).1).length < 4294967296 := by
    rw [← chunks_count_eq d hnd]
    exact hcnt
  have hlayA : ∀ la ∈ (prepare_attrs d).1, (d.get_layer_by_id la.1).isSome := by
    intro la hla
    obtain ⟨_, l, hl, _⟩ := attrs_guard_full d h la hla
    rw [hl]
    rfl
  have hpa := parse_attrs_eq d (prepare_attrs d).1
    (apply_rel_map (prepare_relations d) (skeleton_from 0 d.layers)) []
    hn2 hlayA (attrs_chunks_facts d h) (attrs_inv_ls2 d h)
  have hsk23 : skeleton_eq
      (apply_rel_map (prepare_relations d) (skeleton_from 0 d.layers))
      (apply_attr_map d (prepare_attrs d).1
        (apply_rel_map (prepare_relations d) (skeleton_from 0 d.layers))) :=
    parse_attrs_skeleton _ _ _ _ hpa
  have hsk12 : skeleton_eq (skeleton_from 0 d.layers)
      (apply_rel_map (prepare_relations d) (skeleton_from 0 d.layers)) :=
    apply_rel_map_skeleton _ _
  have hsk : skeleton_eq (skeleton_from 0 d.layers)
      (apply_attr_map d (prepare_attrs d).1
        (apply_rel_map (prepare_relations d) (skeleton_from 0 d.layers))) :=
    skeleton_eq_trans _ _ _ hsk12 hsk23
  have hlen3 : (apply_attr_map d (prepare_attrs d).1
      (apply_rel_map (prepare_relations d)
        (skeleton_from 0 d.layers))).length = d.layers.length := by
    rw [hsk.1, skeleton_from_length]
  unfold doc_equiv
  rw [add_layers_nil_base, Bool.and_eq_true]
  constructor
  · simp [hlen3]
  · rw [List.all_eq_true]
    intro p hp
    obtain ⟨⟨k, hk⟩, hkeq⟩ := List.mem_iff_get.mp hp
    rw [← hkeq, List.get_zip]
    have hkd : k < d.layers.length := by
      have := hk
      rw [List.length_zip] at this
      omega
    have hk3 : k < (apply_attr_map d (prepare_attrs d).1
        (apply_rel_map (prepare_relations d)
          (skeleton_from 0 d.layers))).length := by
      rw [hlen3]
      exact hkd
    have hksk : k < (skeleton_from 0 d.layers).length := by
      rw [skeleton_from_length]
      exact hkd
    obtain ⟨_, hname3, hcount3, _⟩ := hsk.2 k hksk hk3
    have hskget := skeleton_from_getf 0 d.layers k hkd hksk
    unfold layer_equiv
    rw [Bool.and_eq_true, Bool.and_eq_true]
    refine ⟨⟨?_, ?_⟩, ?_⟩
    · show ((d.layers.get ⟨k, hkd⟩).name == _) = true
      rw [hname3, hskget]
      simp
    · show (decide ((d.layers.get ⟨k, hkd⟩).objects.length = _)) = true
      rw [hcount3, hskget]
      simp
    · rw [List.all_eq_true]
      intro q hq
      obtain ⟨⟨m, hm⟩, hmeq⟩ := List.mem_iff_get.mp hq
      rw [← hmeq, List.get_zip]
      have hmzip := hm
      rw [List.length_zip] at hmzip
      have hmd : m < (d.layers.get ⟨k, hkd⟩).objects.length :=
        lt_of_lt_of_le hmzip (min_le_left _ _)
      have hm3 : m < ((apply_attr_map d (prepare_attrs d).1
          (apply_rel_map (prepare_relations d)
            (skeleton_from 0 d.layers))).get ⟨k, hk3⟩).objects.length :=
        lt_of_lt_of_le hmzip (min_le_right _ _)
      have hbind := decoded_object d h k m hkd hmd
      rw [List.get?_eq_some.mpr ⟨hk3, rfl⟩] at hbind
      have hget3 : ((apply_attr_map d (prepare_attrs d).1
          (apply_rel_map (prepare_relations d)
            (skeleton_from 0 d.layers))).get ⟨k, hk3⟩).objects.get? m =
          some ⟨m, k,
            ((d.layers.get ⟨k, hkd⟩).objects.get ⟨m, hmd⟩).children,
            ((layer_attrs (d.layers.get ⟨k, hkd⟩)).foldl
              (fun a av => assocSet a av.1 ((assocGet av.2 m).getD []))
              [])⟩ := hbind
      obtain ⟨hmb, hval⟩ := List.get?_eq_some.mp hget3
      unfold obj_equiv
      rw [Bool.and_eq_true]
      constructor
      · rw [show ((apply_attr_map d (prepare_attrs d).1
            (apply_rel_map (prepare_relations d)
              (skeleton_from 0 d.layers))).get ⟨k, hk3⟩).objects.get
            ⟨m, hm3⟩ = _ from hval]
        exact decoded_attrs_equiv d h k m hkd hmd
      · rw [show ((apply_attr_map d (prepare_attrs d).1
            (apply_rel_map (prepare_relations d)
              (skeleton_from 0 d.layers))).get ⟨k, hk3⟩).objects.get
            ⟨m, hm3⟩ = _ from hval]
        simp

/-- Witness for the amended round-trip: the concrete two-layer document
`roundDoc` is valid, and encoding then decoding it yields a structurally
equivalent document. -/
theorem round_trip_amended_witness :
    valid roundDoc = true ∧
      ∃ bs d', write_document roundDoc = .ok bs ∧ parse bs = .ok d' ∧
        doc_equiv roundDoc d' = true :=
  ⟨by rfl, round_trip_amended roundDoc (by rfl)⟩
